import Mathlib

/-!
# VEEPROM driver (`veeprom.c`): shallow embedding and verification

The driver emulates a small EEPROM on two 1 KB flash pages.  The embedding
keeps the source's names.  Machine integers are natural numbers; 32-bit
address arithmetic wraps explicitly (`add32`, `sub32`), bytes are read
modulo 256, the checksum is accumulated modulo 2^16 and the page state
modulo 2^64.

The flash controller (registers `FLASH->CR`, `FLASH->SR`, `FLASH->AR`, declared
in the absent `project_base.h`) is a parameter `FlashHw`: it says what a page
erase and a halfword program do to the memory and which verdict
`flash_wait_and_check` returns afterwards.  `stm32` is the error-free
controller of the reference manual.
-/

/-! ## Constants -/

def FLASH_PAGE_SIZE : Nat := 1024
def VEEPROM_SERVICE_HEADER_SIZE : Nat := 10
def VEEPROM_PAGE_1_ADDR : Nat := 0x08003800
def VEEPROM_PAGE_2_ADDR : Nat := 0x08003C00
def VEEPROM_PAGE_SIZE : Nat := FLASH_PAGE_SIZE - VEEPROM_SERVICE_HEADER_SIZE
def PAGE_CHECKSUM_OFFSET : Nat := VEEPROM_PAGE_SIZE
def PAGE_STATE_OFFSET : Nat := VEEPROM_PAGE_SIZE + 2
def PAGE_STATE_INVALID : Nat := 0x0000000000000000
def PAGE_STATE_COPY : Nat := 0x000000000000FFFF
def PAGE_STATE_VALID : Nat := 0x00000000FFFFFFFF
def PAGE_STATE_WRITE : Nat := 0x0000FFFFFFFFFFFF
def PAGE_STATE_ERASED : Nat := 0xFFFFFFFFFFFFFFFF

/-! ## Machine model -/

/-- Byte-addressed memory: the cell at an address, read modulo 256. -/
abbrev Flash := Nat → Nat

/-- Sum of two `uint32_t` values. -/
def add32 (a b : Nat) : Nat := (a + b) % 4294967296

/-- Difference of two `uint32_t` values. -/
def sub32 (a b : Nat) : Nat := (a % 4294967296 + 4294967296 - b % 4294967296) % 4294967296

/-- The `__REV16` intrinsic on one halfword: swaps its two bytes. -/
def rev16 (x : Nat) : Nat := (x % 256) * 256 + (x / 256) % 256

/-- Little-endian halfword load `*((uint16_t*)a)`. -/
def load16 (f : Flash) (a : Nat) : Nat := f a % 256 + 256 * (f (a + 1) % 256)

/-- Memory after the little-endian halfword `v` is stored at `a`. -/
def store16 (f : Flash) (a v : Nat) : Flash :=
  fun x => if x = a then v % 256 else if x = a + 1 then (v / 256) % 256 else f x

/-- Memory after the 1 KB page holding address `a` is erased. -/
def erase_mem (f : Flash) (a : Nat) : Flash :=
  fun x => if x / 1024 = a / 1024 then 0xFF else f x

/-- The flash controller: effect of a page erase (`PER` + `STRT` on the page of
the address) and of a halfword program (`PG` + halfword store), each with the
verdict that `flash_wait_and_check` returns after it. -/
structure FlashHw where
  erase : Flash → Nat → Flash × Bool
  program : Flash → Nat → Nat → Flash × Bool

/-- Error-free controller: an erase fills the page with `0xFF`; a program of an
erased halfword, or of `0x0000`, stores the value; any other program is skipped
and reported (`PGERR`). -/
def stm32 : FlashHw where
  erase := fun f a => (erase_mem f a, true)
  program := fun f a v =>
    if load16 f a = 0xFFFF ∨ v = 0 then (store16 f a v, true) else (f, false)

/-- Driver state: the flash content, the `LOCK` bit of `FLASH->CR`, the two
static variables of `veeprom.c`, and (ghost) the flash content after each erase
and each halfword program so far, newest first. -/
structure Veeprom where
  flash : Flash
  locked : Bool
  active_page_addr : Nat
  inactive_page_addr : Nat
  trace : List Flash

/-- State after a reset with flash content `f`: statics zero, flash locked. -/
def reboot (f : Flash) : Veeprom :=
  { flash := f, locked := true, active_page_addr := 0, inactive_page_addr := 0, trace := [] }

/-! ## Flash access layer -/

def flash_lock (s : Veeprom) : Bool × Veeprom :=
  (true, { s with locked := true })

def flash_unlock (s : Veeprom) : Bool × Veeprom :=
  (true, { s with locked := false })

def flash_read_8 (f : Flash) (flash_addr : Nat) : Nat := f flash_addr % 256

def flash_read_16 (f : Flash) (flash_addr : Nat) : Nat := rev16 (load16 f flash_addr)

/-- Programs one halfword; `value` is a `uint16_t`. -/
def flash_write_16 (hw : FlashHw) (s : Veeprom) (flash_addr value : Nat) : Bool × Veeprom :=
  let r := hw.program s.flash flash_addr (rev16 value)
  let s1 := { s with flash := r.1, trace := r.1 :: s.trace }
  if flash_read_16 s1.flash flash_addr ≠ value then (false, s1) else (r.2, s1)

def flash_page_erase (hw : FlashHw) (s : Veeprom) (flash_addr : Nat) : Bool × Veeprom :=
  let s1 := (flash_unlock s).2
  let r := hw.erase s1.flash flash_addr
  let s2 := { s1 with flash := r.1, trace := r.1 :: s1.trace }
  (r.2, (flash_lock s2).2)

/-! ## Page state codec -/

def flash_page_get_state_loop (f : Flash) (flash_addr : Nat) : Nat → Nat → Nat → Nat
  | 0, _, state => state
  | fuel + 1, i, state =>
    flash_page_get_state_loop f flash_addr fuel (i + 1)
      (((state <<< 16) % 18446744073709551616) |||
        flash_read_16 f (add32 flash_addr (PAGE_STATE_OFFSET + i * 2)))

def flash_page_get_state (f : Flash) (flash_addr : Nat) : Nat :=
  flash_page_get_state_loop f flash_addr 4 0 0

/-- The `for (i < 4)` loop of `flash_page_set_state`; the `continue` of the
all-ones branch skips `mask >>= 16`. -/
def flash_page_set_state_loop (hw : FlashHw) (flash_addr state : Nat) :
    Nat → Nat → Nat → Veeprom → Bool × Veeprom
  | 0, _, _, s => (true, s)
  | fuel + 1, i, mask, s =>
    if state &&& mask ≠ 0 then
      if flash_read_16 s.flash (add32 flash_addr (PAGE_STATE_OFFSET + i * 2)) ≠ 0xFFFF then
        (false, s)
      else
        flash_page_set_state_loop hw flash_addr state fuel (i + 1) mask s
    else
      let r := flash_write_16 hw s (add32 flash_addr (PAGE_STATE_OFFSET + i * 2)) 0x0000
      if r.1 = false then (false, r.2)
      else flash_page_set_state_loop hw flash_addr state fuel (i + 1) (mask >>> 16) r.2

def flash_page_set_state (hw : FlashHw) (s : Veeprom) (flash_addr state : Nat) : Bool × Veeprom :=
  flash_page_set_state_loop hw flash_addr state 4 0 0xFFFF000000000000 s

/-! ## Checksum -/

def flash_page_calc_checksum_loop (f : Flash) : Nat → Nat → Nat → Nat
  | 0, _, checksum => checksum
  | bytes_count + 1, flash_addr, checksum =>
    flash_page_calc_checksum_loop f bytes_count (add32 flash_addr 1)
      ((checksum + flash_read_8 f flash_addr) % 65536)

def flash_page_calc_checksum (f : Flash) (flash_addr : Nat) : Nat :=
  flash_page_calc_checksum_loop f VEEPROM_PAGE_SIZE flash_addr 0

def flash_page_read_checksum (f : Flash) (flash_addr : Nat) : Nat :=
  flash_read_16 f (add32 flash_addr PAGE_CHECKSUM_OFFSET)

def flash_page_write_checksum (hw : FlashHw) (s : Veeprom) (flash_addr checksum : Nat) :
    Bool × Veeprom :=
  flash_write_16 hw s (add32 flash_addr PAGE_CHECKSUM_OFFSET) checksum

/-! ## Driver -/

/-- The tail of `veeprom_init` after a page was selected: designate and compare
the stored with the computed checksum (the source returns `!=`). -/
def veeprom_init_check (s : Veeprom) (active inactive : Nat) : Bool × Veeprom :=
  let s1 := { s with active_page_addr := active, inactive_page_addr := inactive }
  (decide (flash_page_read_checksum s1.flash s1.active_page_addr ≠
      flash_page_calc_checksum s1.flash s1.active_page_addr), s1)

def veeprom_init (hw : FlashHw) (s : Veeprom) : Bool × Veeprom :=
  let page1_state := flash_page_get_state s.flash VEEPROM_PAGE_1_ADDR
  let page2_state := flash_page_get_state s.flash VEEPROM_PAGE_2_ADDR
  if page1_state = PAGE_STATE_VALID then
    veeprom_init_check s VEEPROM_PAGE_1_ADDR VEEPROM_PAGE_2_ADDR
  else if page2_state = PAGE_STATE_VALID then
    veeprom_init_check s VEEPROM_PAGE_2_ADDR VEEPROM_PAGE_1_ADDR
  else if page1_state = PAGE_STATE_COPY then
    veeprom_init_check s VEEPROM_PAGE_1_ADDR VEEPROM_PAGE_2_ADDR
  else if page2_state = PAGE_STATE_COPY then
    veeprom_init_check s VEEPROM_PAGE_2_ADDR VEEPROM_PAGE_1_ADDR
  else
    let r := flash_page_erase hw s VEEPROM_PAGE_1_ADDR
    if r.1 = false then (false, r.2)
    else
      (true, { r.2 with active_page_addr := VEEPROM_PAGE_1_ADDR,
                        inactive_page_addr := VEEPROM_PAGE_2_ADDR })

def veeprom_mass_erase (hw : FlashHw) (s : Veeprom) : Bool × Veeprom :=
  let r := flash_page_erase hw s VEEPROM_PAGE_1_ADDR
  if r.1 = false then (false, r.2)
  else flash_page_erase hw r.2 VEEPROM_PAGE_2_ADDR

/-- The `while (bytes_count)` loop of `veeprom_read`: the bytes stored through
`buffer`, in order.  `veeprom_addr` is not advanced by the source. -/
def veeprom_read_loop (s : Veeprom) (veeprom_addr : Nat) : Nat → List Nat
  | 0 => []
  | bytes_count + 1 =>
    flash_read_8 s.flash (add32 s.active_page_addr veeprom_addr) ::
      veeprom_read_loop s veeprom_addr bytes_count

/-- Returns the verdict and the bytes stored through `buffer` (none on failure). -/
def veeprom_read (s : Veeprom) (veeprom_addr bytes_count : Nat) : Bool × List Nat :=
  if add32 veeprom_addr bytes_count ≥ VEEPROM_PAGE_SIZE ∨ s.active_page_addr = 0 then
    (false, [])
  else
    (true, veeprom_read_loop s veeprom_addr bytes_count)

def veeprom_read_8 (s : Veeprom) (veeprom_addr : Nat) : Nat :=
  match veeprom_read s veeprom_addr 1 with
  | (true, [b]) => b
  | _ => 0

/-- One pass of the inner `for (i < 2)` body of `veeprom_write`: the byte chosen
for `offset`, and the advanced position in `data`. -/
def veeprom_write_byte (s : Veeprom) (veeprom_addr bytes_count : Nat) (data : List Nat)
    (di offset : Nat) : Nat × Nat :=
  if offset ≥ veeprom_addr ∧ offset < add32 veeprom_addr bytes_count then
    (data.getD di 0 % 256, di + 1)
  else
    (flash_read_8 s.flash (add32 s.active_page_addr offset), di)

/-- The inner `for (i < 2)` loop of `veeprom_write`: the halfword `word` built
for `offset`, `offset + 1`, and the advanced position in `data`. -/
def veeprom_write_word (s : Veeprom) (veeprom_addr bytes_count : Nat) (data : List Nat)
    (di offset : Nat) : Nat × Nat :=
  let b0 := veeprom_write_byte s veeprom_addr bytes_count data di offset
  let b1 := veeprom_write_byte s veeprom_addr bytes_count data b0.2 (offset + 1)
  (((b0.1 <<< 8) &&& 0xFF00) ||| b1.1, b1.2)

/-- The copy loop of `veeprom_write`; `di` is how far `data` has advanced and
`offset` is the value at the top of the outer `for`.  The guard
`offset < VEEPROM_PAGE_SIZE` ends the loop; the fuel is never exhausted when it
starts at `VEEPROM_PAGE_SIZE`. -/
def veeprom_write_loop (hw : FlashHw) (veeprom_addr bytes_count : Nat) (data : List Nat) :
    Nat → Nat → Nat → Veeprom → Bool × Veeprom
  | 0, _, _, s => (true, s)
  | fuel + 1, di, offset, s =>
    if offset < VEEPROM_PAGE_SIZE then
      let w := veeprom_write_word s veeprom_addr bytes_count data di offset
      let dst := sub32 (add32 s.inactive_page_addr (offset + 2)) 2
      if w.1 ≠ flash_read_16 s.flash dst then
        let r := flash_write_16 hw s dst w.1
        if r.1 = false then (false, r.2)
        else veeprom_write_loop hw veeprom_addr bytes_count data fuel w.2 (offset + 2) r.2
      else
        veeprom_write_loop hw veeprom_addr bytes_count data fuel w.2 (offset + 2) s
    else
      (true, s)

/-- Every failure after the first erase re-locks the flash before returning. -/
def veeprom_write (hw : FlashHw) (s : Veeprom) (veeprom_addr : Nat) (data : List Nat)
    (bytes_count : Nat) : Bool × Veeprom :=
  let r1 := flash_page_erase hw s s.inactive_page_addr
  if r1.1 = false then (false, r1.2)
  else
    let s2 := (flash_unlock r1.2).2
    let r3 := flash_page_set_state hw s2 s2.active_page_addr PAGE_STATE_COPY
    if r3.1 = false then (false, (flash_lock r3.2).2)
    else
      let r4 := flash_page_set_state hw r3.2 r3.2.inactive_page_addr PAGE_STATE_WRITE
      if r4.1 = false then (false, (flash_lock r4.2).2)
      else
        let r5 := veeprom_write_loop hw veeprom_addr bytes_count data VEEPROM_PAGE_SIZE 0 0 r4.2
        if r5.1 = false then (false, (flash_lock r5.2).2)
        else
          let checksum := flash_page_calc_checksum r5.2.flash r5.2.inactive_page_addr
          let r6 := flash_page_write_checksum hw r5.2 r5.2.inactive_page_addr checksum
          if r6.1 = false then (false, (flash_lock r6.2).2)
          else
            let r7 := flash_page_set_state hw r6.2 r6.2.inactive_page_addr PAGE_STATE_VALID
            if r7.1 = false then (false, (flash_lock r7.2).2)
            else
              let r8 := flash_page_set_state hw r7.2 r7.2.active_page_addr PAGE_STATE_INVALID
              if r8.1 = false then (false, (flash_lock r8.2).2)
              else
                let tmp := r8.2.inactive_page_addr
                let s9 := { r8.2 with inactive_page_addr := r8.2.active_page_addr,
                                      active_page_addr := tmp }
                (true, (flash_lock s9).2)

def veeprom_write_8 (hw : FlashHw) (s : Veeprom) (veeprom_addr value : Nat) : Bool × Veeprom :=
  veeprom_write hw s veeprom_addr [value] 1

/-! ## Reference inputs and specification-side notions -/

/-- Mass-erased flash: every cell holds `0xFF`. -/
def blank : Flash := fun _ => 0xFF

/-- The store of the spec scenario: `mass_erase(); init()` after a reset. -/
def scenario_store : Veeprom :=
  (veeprom_init stm32 (veeprom_mass_erase stm32 (reboot blank)).2).2

/-- Controller whose pages are write-protected: an erase and a program leave
the memory as it is and raise `WRPRTERR`, so `flash_wait_and_check` returns
false after each. -/
def write_protected : FlashHw where
  erase := fun f _ => (f, false)
  program := fun f _ _ => (f, false)

/-- The runtime designation is one of the two that `veeprom_init` sets. -/
def Designated (s : Veeprom) : Prop :=
  (s.active_page_addr = VEEPROM_PAGE_1_ADDR ∧ s.inactive_page_addr = VEEPROM_PAGE_2_ADDR) ∨
  (s.active_page_addr = VEEPROM_PAGE_2_ADDR ∧ s.inactive_page_addr = VEEPROM_PAGE_1_ADDR)

/-- Payload byte that a write of `data` to `[addr, addr + n)` is meant to leave
at offset `o`: the new byte inside the range, the byte of page `page` outside. -/
def merged (f : Flash) (page addr n : Nat) (data : List Nat) (o : Nat) : Nat :=
  if addr ≤ o ∧ o < addr + n then data.getD (o - addr) 0 % 256 else flash_read_8 f (page + o)

/-- A page is intact when its stored checksum equals the computed one. -/
def Intact (f : Flash) (page : Nat) : Prop :=
  flash_page_read_checksum f page = flash_page_calc_checksum f page

/-- The controller touches only what it is asked to: a halfword program the two
bytes of its halfword, a page erase the 1 KB page of its address.  Verdicts and
the programmed content are left arbitrary. -/
def FlashHw.Framed (hw : FlashHw) : Prop :=
  (∀ f a v x, x ≠ a → x ≠ a + 1 → (hw.program f a v).1 x = f x) ∧
  (∀ f a x, x / 1024 ≠ a / 1024 → (hw.erase f a).1 x = f x)

/-- The controller works without hardware errors: an erase fills the page with
`0xFF` and reports success, and a program of an erased halfword, or of `0x0000`,
stores the value and reports success. -/
def FlashHw.Reliable (hw : FlashHw) : Prop :=
  (∀ f a, hw.erase f a = (erase_mem f a, true)) ∧
  (∀ f a v, load16 f a = 0xFFFF ∨ v = 0 → hw.program f a v = (store16 f a v, true))

/-- From `s` to `s1` the designation is kept and only flash cells in `R` change,
also in every snapshot that was added to the trace. -/
def Frame (R : Nat → Prop) (s s1 : Veeprom) : Prop :=
  s1.active_page_addr = s.active_page_addr ∧
  s1.inactive_page_addr = s.inactive_page_addr ∧
  (∀ x, ¬ R x → s1.flash x = s.flash x) ∧
  ∃ added, s1.trace = added ++ s.trace ∧ ∀ g ∈ added, ∀ x, ¬ R x → g x = s.flash x

/-- The canonical page state whose first `k` 16-bit fields are zero and whose
other fields are all ones: ERASED, WRITE, VALID, COPY, INVALID for `k = 0 .. 4`. -/
def canonical_state : Nat → Nat
  | 0 => PAGE_STATE_ERASED
  | 1 => PAGE_STATE_WRITE
  | 2 => PAGE_STATE_VALID
  | 3 => PAGE_STATE_COPY
  | _ => PAGE_STATE_INVALID

/-- What `flash_page_set_state` does for the canonical target with `k` zero
fields, told without the mask: program `0x0000` into the fields below `k`, require
`0xFFFF` in the fields from `k` on.  (Auxiliary; `flash_page_set_state_canonical`
relates it to the source loop.) -/
def set_fields (hw : FlashHw) (flash_addr k : Nat) : Nat → Nat → Veeprom → Bool × Veeprom
  | 0, _, s => (true, s)
  | fuel + 1, i, s =>
    if k ≤ i then
      if flash_read_16 s.flash (add32 flash_addr (PAGE_STATE_OFFSET + i * 2)) ≠ 0xFFFF then
        (false, s)
      else
        set_fields hw flash_addr k fuel (i + 1) s
    else
      let r := flash_write_16 hw s (add32 flash_addr (PAGE_STATE_OFFSET + i * 2)) 0x0000
      if r.1 = false then (false, r.2)
      else set_fields hw flash_addr k fuel (i + 1) r.2

/-- Memory with the first `j` state fields of the page at `X` zeroed. -/
def zeroed (f : Flash) (X j : Nat) : Flash :=
  fun x => if X + 1016 ≤ x ∧ x < X + 1016 + 2 * j then 0 else f x

/-- The shape of the flash after any prefix of the mutations of a write that
starts from flash `f` with active page `A` and inactive page `B`: page `A` is
as in `f` with its first `jA` state fields zeroed, the state fields of `B` are
those of an erased page with the first `jB` zeroed, and either the write has not
reached VALID on `B` (`jA ≤ 3`, `jB ≤ 1`) or it has (`jB = 2`, `3 ≤ jA`) and the
payload of `B` is complete. -/
def CrashShape (f : Flash) (A B addr n : Nat) (data : List Nat) (g : Flash) : Prop :=
  ∃ jA jB, (∀ x, A ≤ x → x < A + 1024 → g x = zeroed f A jA x) ∧
    (∀ x, B + 1016 ≤ x → x < B + 1024 → g x = zeroed blank B jB x) ∧
    ((jA ≤ 3 ∧ jB ≤ 1) ∨
      (3 ≤ jA ∧ jA ≤ 4 ∧ jB = 2 ∧
        ∀ o, o < 1014 → flash_read_8 g (B + o) = merged f A addr n data o))

/-- Stores reachable from a `veeprom_init` call (whatever it returned) by any
number of successful writes. -/
inductive Reachable (hw : FlashHw) : Veeprom → Prop
  | init (s0 : Veeprom) : Reachable hw (veeprom_init hw s0).2
  | write (s : Veeprom) (addr : Nat) (data : List Nat) (n : Nat) :
      Reachable hw s → (veeprom_write hw s addr data n).1 = true →
      Reachable hw (veeprom_write hw s addr data n).2

/-- The flash contents a power cut can leave behind during
`veeprom_write(addr, data, n)` from store `s`: one for every prefix of its
sequence of page erases and halfword programs, the empty prefix first in the
list and the later ones newest first. -/
def crash_points (hw : FlashHw) (s : Veeprom) (addr : Nat) (data : List Nat) (n : Nat) :
    List Flash :=
  s.flash :: (veeprom_write hw { s with trace := [] } addr data n).2.trace

/-- Payload byte at offset `o` of the page that `veeprom_init` designates active
when it runs after a reset on flash content `g`. -/
def observed (hw : FlashHw) (g : Flash) (o : Nat) : Nat :=
  flash_read_8 (veeprom_init hw (reboot g)).2.flash
    ((veeprom_init hw (reboot g)).2.active_page_addr + o)

/-- The state tests of `veeprom_init` on flash `g` pick page `A` (and not the
other page `B`). -/
def Selects (g : Flash) (A B : Nat) : Prop :=
  (flash_page_get_state g A = PAGE_STATE_VALID ∧
    (A = VEEPROM_PAGE_1_ADDR ∨ flash_page_get_state g B ≠ PAGE_STATE_VALID)) ∨
  (flash_page_get_state g A = PAGE_STATE_COPY ∧ flash_page_get_state g B ≠ PAGE_STATE_VALID ∧
    (A = VEEPROM_PAGE_1_ADDR ∨ flash_page_get_state g B ≠ PAGE_STATE_COPY))

/-- The sum of the `n` bytes at the 32-bit addresses `X`, `X + 1`, ..., each
taken as an unsigned 8-bit value (what the spec calls the additive sum over the
payload, before it is cut to 16 bits). -/
def byte_sum (f : Flash) (X n : Nat) : Nat :=
  Finset.sum (Finset.range n) (fun o => flash_read_8 f (add32 X o))

/-- Flash content with bit `k` of the byte at address `x` flipped. -/
def flip_bit (f : Flash) (x k : Nat) : Flash :=
  fun y => if y = x then (f x % 256) ^^^ (2 ^ k) else f y

/-- The calls of the driver's interface that may follow one another. -/
inductive veeprom_call where
  | init
  | read (veeprom_addr bytes_count : Nat)
  | mass_erase
  | write (veeprom_addr : Nat) (data : List Nat) (bytes_count : Nat)

/-- One call: its verdict and the driver state after it.  `veeprom_read` assigns
neither the flash nor a static variable, so its state is the one it was given. -/
def veeprom_call_run (hw : FlashHw) (s : Veeprom) : veeprom_call → Bool × Veeprom
  | veeprom_call.init => veeprom_init hw s
  | veeprom_call.read veeprom_addr bytes_count => ((veeprom_read s veeprom_addr bytes_count).1, s)
  | veeprom_call.mass_erase => veeprom_mass_erase hw s
  | veeprom_call.write veeprom_addr data bytes_count =>
    veeprom_write hw s veeprom_addr data bytes_count

/-- The driver state after a sequence of calls, whatever each returned. -/
def veeprom_calls_run (hw : FlashHw) : Veeprom → List veeprom_call → Veeprom
  | s, [] => s
  | s, c :: cs => veeprom_calls_run hw (veeprom_call_run hw s c).2 cs

/-! ## Ring buffer (`ring_buffer.c`)

A pointer to a node of the buffer's own `nodes` array is the index of the node,
`none` is `NULL`.  Dereferencing `NULL` is an error: the operations return
`none` for it.  The source keeps one buffer per `ring_buffer_id`, and the only
id is `RING_BUFFER_1 = 0`; the embedding passes that buffer explicitly (so the
`ring_buffer->tail` in the overflow test of `ring_buffer_push`, which names
entry 0 of the array, is the buffer itself).  A `uint8_t` is a `Nat`; the
operations only copy the bytes they are given, so no truncation occurs. -/

def RING_BUFFER_SIZE : Nat := 5

structure node_t where
  data : Nat
  next : Option Nat

structure ring_buffer_t where
  nodes : Nat → node_t
  head : Option Nat
  tail : Option Nat

/-- The value of `p->next`. -/
def node_next (b : ring_buffer_t) (p : Option Nat) : Option (Option Nat) :=
  p.map (fun i => (b.nodes i).next)

/-- The value of `p->data`. -/
def node_data (b : ring_buffer_t) (p : Option Nat) : Option Nat :=
  p.map (fun i => (b.nodes i).data)

/-- The assignment `p->data = data`. -/
def node_set_data (b : ring_buffer_t) (p : Option Nat) (data : Nat) : Option ring_buffer_t :=
  p.map (fun i =>
    { b with nodes := fun j => if j = i then { b.nodes i with data := data } else b.nodes j })

/-- The `for` loop of `ring_buffer_init`. -/
def ring_buffer_init_loop : Nat → Nat → (Nat → node_t) → (Nat → node_t)
  | 0, _, nodes => nodes
  | fuel + 1, i, nodes =>
    if i < RING_BUFFER_SIZE - 1 then
      ring_buffer_init_loop fuel (i + 1)
        (fun j => if j = i then { data := 0, next := some (i + 1) } else nodes j)
    else nodes

def ring_buffer_init (b : ring_buffer_t) : ring_buffer_t :=
  let nodes := ring_buffer_init_loop RING_BUFFER_SIZE 0 b.nodes
  { nodes := fun j => if j = RING_BUFFER_SIZE - 1 then { data := 0, next := some 0 } else nodes j,
    head := none,
    tail := none }

def ring_buffer_push (b : ring_buffer_t) (data : Nat) : Option ring_buffer_t :=
  if b.tail ≠ none ∧ node_next b b.tail = some b.head then do
    let head ← node_next b b.head
    let tail ← node_next b b.tail
    node_set_data { b with head := head, tail := tail } tail data
  else if b.head = none then
    node_set_data { b with head := some 0 } (some 0) data
  else if b.tail = none then do
    let tail ← node_next b b.head
    node_set_data { b with tail := tail } tail data
  else do
    let tail ← node_next b b.tail
    node_set_data { b with tail := tail } tail data

/-- Returns the verdict, the byte behind `data` after the call (`out` before it)
and the buffer. -/
def ring_buffer_pop (b : ring_buffer_t) (out : Nat) : Option (Bool × Nat × ring_buffer_t) :=
  if b.head = none then some (false, out, b)
  else do
    let d ← node_data b b.head
    let b1 ← node_set_data b b.head 0
    let head ← node_next b1 b1.head
    let b2 := { b1 with head := head }
    if b2.head = b2.tail then some (true, d, { b2 with tail := none })
    else if b2.tail = none then some (true, d, { b2 with head := none })
    else some (true, d, b2)

def ring_buffer_is_empty (b : ring_buffer_t) : Bool := b.head == none

def ring_buffer_clear (b : ring_buffer_t) : ring_buffer_t := ring_buffer_init b

/-! ### The abstract queue of the specification -/

/-- `push(x)`: appends `x`, after dropping the oldest element when the queue
already holds `RING_BUFFER_SIZE` elements. -/
def queue_push (q : List Nat) (x : Nat) : List Nat :=
  (if q.length = RING_BUFFER_SIZE then q.tail else q) ++ [x]

/-- `pop`: nothing and the queue unchanged when it is empty, else the oldest
element and the rest. -/
def queue_pop (q : List Nat) : Option Nat × List Nat :=
  match q with
  | [] => (none, [])
  | x :: r => (some x, r)

/-- The calls that may follow `ring_buffer_init`. -/
inductive ring_call where
  | push (x : Nat)
  | pop
  | clear

/-- Runs the calls on the abstract queue; yields the final queue and, for every
`pop` in order, what it delivered. -/
def queue_run : List Nat → List ring_call → List Nat × List (Option Nat)
  | q, [] => (q, [])
  | q, ring_call.push x :: cs => queue_run (queue_push q x) cs
  | q, ring_call.pop :: cs =>
    ((queue_run (queue_pop q).2 cs).1, (queue_pop q).1 :: (queue_run (queue_pop q).2 cs).2)
  | _, ring_call.clear :: cs => queue_run [] cs

/-- Runs the calls on the buffer; yields the final buffer and, for every `pop` in
order, the byte it delivered when it returned true and `none` when it returned
false. -/
def ring_run : ring_buffer_t → List ring_call → Option (ring_buffer_t × List (Option Nat))
  | b, [] => some (b, [])
  | b, ring_call.push x :: cs => (ring_buffer_push b x).bind (fun b1 => ring_run b1 cs)
  | b, ring_call.pop :: cs =>
    (ring_buffer_pop b 0).bind (fun r =>
      (ring_run r.2.2 cs).map (fun t => (t.1, (if r.1 then some r.2.1 else none) :: t.2)))
  | b, ring_call.clear :: cs => ring_run (ring_buffer_clear b) cs

/-- The queue held by a buffer: nothing without a head, the head's byte without
a tail, else the bytes of the nodes from head to tail along the ring. -/
def ring_queue (b : ring_buffer_t) : List Nat :=
  match b.head, b.tail with
  | none, _ => []
  | some h, none => [(b.nodes h).data]
  | some h, some t =>
    (List.range ((t + RING_BUFFER_SIZE - h) % RING_BUFFER_SIZE + 1)).map
      (fun j => (b.nodes ((h + j) % RING_BUFFER_SIZE)).data)

/-- Well-formed buffer: the nodes form the ring `0 → 1 → 2 → 3 → 4 → 0`, head and
tail point into it, a tail comes with a head and differs from it. -/
def ring_ok (b : ring_buffer_t) : Prop :=
  (∀ i, i < RING_BUFFER_SIZE → (b.nodes i).next = some ((i + 1) % RING_BUFFER_SIZE)) ∧
  (∀ h, b.head = some h → h < RING_BUFFER_SIZE) ∧
  (∀ t, b.tail = some t → t < RING_BUFFER_SIZE ∧ b.head ≠ none ∧ b.head ≠ some t)

/-! ## Arithmetic of the embedding -/

theorem word_eq (b0 b1 : Nat) (h0 : b0 < 256) (h1 : b1 < 256) :
    ((b0 <<< 8) &&& 0xFF00) ||| b1 = b0 * 256 + b1 := by
  have h : (b0 <<< 8) &&& 0xFF00 = 2 ^ 8 * b0 := by
    interval_cases b0 <;> rfl
  rw [h, ← Nat.mul_add_lt_is_or (by simpa using h1)]
  omega

theorem shl_or (a b : Nat) (ha : a < 281474976710656) (hb : b < 65536) :
    ((a <<< 16) % 18446744073709551616) ||| b = a * 65536 + b := by
  have h : (a <<< 16) % 18446744073709551616 = 2 ^ 16 * a := by
    rw [Nat.shiftLeft_eq]
    omega
  rw [h, ← Nat.mul_add_lt_is_or (by simpa using hb)]
  omega

theorem flash_read_16_lt (f : Flash) (a : Nat) : flash_read_16 f a < 65536 := by
  unfold flash_read_16 rev16 load16
  omega

theorem flash_read_16_eq (f : Flash) (a : Nat) :
    flash_read_16 f a = (f a % 256) * 256 + f (a + 1) % 256 := by
  unfold flash_read_16 rev16 load16
  omega

theorem flash_page_get_state_eq (f : Flash) (a : Nat) :
    flash_page_get_state f a =
      ((flash_read_16 f (add32 a 1016) * 65536 + flash_read_16 f (add32 a 1018)) * 65536
        + flash_read_16 f (add32 a 1020)) * 65536 + flash_read_16 f (add32 a 1022) := by
  have h0 := flash_read_16_lt f (add32 a 1016)
  have h1 := flash_read_16_lt f (add32 a 1018)
  have h2 := flash_read_16_lt f (add32 a 1020)
  have h3 := flash_read_16_lt f (add32 a 1022)
  simp only [flash_page_get_state, flash_page_get_state_loop, PAGE_STATE_OFFSET, VEEPROM_PAGE_SIZE,
    FLASH_PAGE_SIZE, VEEPROM_SERVICE_HEADER_SIZE]
  norm_num
  rw [shl_or _ _ (by omega) h1, shl_or _ _ (by omega) h2, shl_or _ _ (by omega) h3]

/-! ## Reading -/

theorem veeprom_read_loop_eq (s : Veeprom) (veeprom_addr n : Nat) :
    veeprom_read_loop s veeprom_addr n =
      List.replicate n (flash_read_8 s.flash (add32 s.active_page_addr veeprom_addr)) := by
  induction n with
  | zero => rfl
  | succ k ih => simp [veeprom_read_loop, ih, List.replicate_succ]

set_option maxRecDepth 1000000 in
/-- Claim C4 (fails on the code): after `write(10, [1, 2, 3], 3)` on the scenario
store the active page holds 1, 2, 3 at offsets 10, 11, 12, but
`veeprom_read(10, buffer, 3)` stores 1, 1, 1: the loop never advances
`veeprom_addr`. -/
theorem veeprom_read_repeats_first_byte :
    (veeprom_write stm32 scenario_store 10 [1, 2, 3] 3).1 = true ∧
    (List.range 3).map (fun i =>
      flash_read_8 (veeprom_write stm32 scenario_store 10 [1, 2, 3] 3).2.flash
        ((veeprom_write stm32 scenario_store 10 [1, 2, 3] 3).2.active_page_addr + 10 + i))
      = [1, 2, 3] ∧
    veeprom_read (veeprom_write stm32 scenario_store 10 [1, 2, 3] 3).2 10 3 = (true, [1, 1, 1]) :=
  ⟨by decide!, by decide!, by decide!⟩

set_option maxRecDepth 1000000 in
/-- Claim C2 (fails on the code): in the spec scenario `mass_erase(); init();
write(0, [0xAB, 0xCD], 2)` succeeds, and `read(0, 2)` then yields
`[0xAB, 0xAB]`, not `[0xAB, 0xCD]`. -/
theorem scenario_round_trip_fails :
    (veeprom_mass_erase stm32 (reboot blank)).1 = true ∧
    (veeprom_init stm32 (veeprom_mass_erase stm32 (reboot blank)).2).1 = true ∧
    (veeprom_write stm32 scenario_store 0 [0xAB, 0xCD] 2).1 = true ∧
    veeprom_read (veeprom_write stm32 scenario_store 0 [0xAB, 0xCD] 2).2 0 2
      = (true, [0xAB, 0xAB]) :=
  ⟨by decide!, by decide!, by decide!, by decide!⟩

set_option maxRecDepth 1000000 in
/-- Claim C7 (fails on the code): `addr = 0xFFFFFFFF`, `n = 2` have the sum
`2^32 + 1 ≥ 1014`, but the 32-bit sum wraps to 1, so `veeprom_read` returns true
and the byte it reads is the one just below page 1, outside the payload. -/
theorem veeprom_read_bound_wraps :
    1014 ≤ 4294967295 + 2 ∧
    scenario_store.active_page_addr = VEEPROM_PAGE_1_ADDR ∧
    (veeprom_read scenario_store 4294967295 2).1 = true ∧
    add32 scenario_store.active_page_addr 4294967295 = VEEPROM_PAGE_1_ADDR - 1 :=
  ⟨by decide, by decide!, by decide!, by decide!⟩

set_option maxRecDepth 1000000 in
/-- Claim C8 (fails on the code): `veeprom_write` has no bounds check;
`write(1013, [0x55], 1)` on the scenario store has `addr + n = 1014` and returns
true, where `veeprom_read(1013, buffer, 1)` returns false. -/
theorem veeprom_write_no_bounds_check :
    1014 ≤ 1013 + 1 ∧
    (veeprom_write stm32 scenario_store 1013 [0x55] 1).1 = true ∧
    (veeprom_read scenario_store 1013 1).1 = false :=
  ⟨by decide, by decide!, by decide!⟩

/-! ## Initialisation -/

set_option maxRecDepth 1000000 in
/-- Claim C5 (fails on the code): after the scenario write page 2 is VALID and
intact (stored checksum = computed checksum), page 1 is INVALID, and
`veeprom_init` on that flash selects page 2 and returns false. -/
theorem veeprom_init_rejects_intact_page :
    flash_page_get_state (veeprom_write stm32 scenario_store 0 [0xAB, 0xCD] 2).2.flash
      VEEPROM_PAGE_2_ADDR = PAGE_STATE_VALID ∧
    (veeprom_init stm32
      (reboot (veeprom_write stm32 scenario_store 0 [0xAB, 0xCD] 2).2.flash)).2.active_page_addr
      = VEEPROM_PAGE_2_ADDR ∧
    flash_page_read_checksum (veeprom_write stm32 scenario_store 0 [0xAB, 0xCD] 2).2.flash
      VEEPROM_PAGE_2_ADDR =
    flash_page_calc_checksum (veeprom_write stm32 scenario_store 0 [0xAB, 0xCD] 2).2.flash
      VEEPROM_PAGE_2_ADDR ∧
    (veeprom_init stm32
      (reboot (veeprom_write stm32 scenario_store 0 [0xAB, 0xCD] 2).2.flash)).1 = false :=
  ⟨by decide!, by decide!, by decide!, by decide!⟩

/-- Claim C6 (fails as stated): on mass-erased flash neither page reads VALID or
COPY, yet with write-protected pages the erase of page 1 reports an error and
`veeprom_init` returns false, leaves the flash as it was and designates nothing:
active and inactive keep the zero they have after a reset. -/
theorem veeprom_init_fresh_erase_refused :
    flash_page_get_state (reboot blank).flash VEEPROM_PAGE_1_ADDR ≠ PAGE_STATE_VALID ∧
    flash_page_get_state (reboot blank).flash VEEPROM_PAGE_2_ADDR ≠ PAGE_STATE_VALID ∧
    flash_page_get_state (reboot blank).flash VEEPROM_PAGE_1_ADDR ≠ PAGE_STATE_COPY ∧
    flash_page_get_state (reboot blank).flash VEEPROM_PAGE_2_ADDR ≠ PAGE_STATE_COPY ∧
    (veeprom_init write_protected (reboot blank)).1 = false ∧
    (veeprom_init write_protected (reboot blank)).2.active_page_addr = 0 ∧
    (veeprom_init write_protected (reboot blank)).2.inactive_page_addr = 0 ∧
    ¬ ((veeprom_init write_protected (reboot blank)).1 = true ∧
      (veeprom_init write_protected (reboot blank)).2.active_page_addr
        = VEEPROM_PAGE_1_ADDR ∧
      (veeprom_init write_protected (reboot blank)).2.inactive_page_addr
        = VEEPROM_PAGE_2_ADDR) := by
  decide!

/-- Claim C6 as amended: selection order of `veeprom_init`, for every flash
content, every prior driver state and every controller.  A VALID page wins, page
1 first; failing that a COPY page wins, page 1 first; in both cases the other
page becomes inactive and the flash is left as it was.  With no VALID and no
COPY page, the flash after the call is what the controller's one erase of page 1
left (one new entry in the trace of erases and programs), and the result is the
verdict of that erase, with no checksum involved: when the erase succeeded page
1 is active and page 2 inactive, when it reported an error active and inactive
are what they were before the call.  A controller without hardware errors fills
page 1 with `0xFF`, touches nothing else, and the result is true. -/
theorem veeprom_init_selection (hw : FlashHw) (s : Veeprom) :
    ((flash_page_get_state s.flash VEEPROM_PAGE_1_ADDR = PAGE_STATE_VALID ∨
        flash_page_get_state s.flash VEEPROM_PAGE_2_ADDR = PAGE_STATE_VALID) →
      flash_page_get_state s.flash (veeprom_init hw s).2.active_page_addr = PAGE_STATE_VALID ∧
      (flash_page_get_state s.flash VEEPROM_PAGE_1_ADDR = PAGE_STATE_VALID →
        (veeprom_init hw s).2.active_page_addr = VEEPROM_PAGE_1_ADDR) ∧
      Designated (veeprom_init hw s).2 ∧
      (veeprom_init hw s).2.flash = s.flash) ∧
    (¬ (flash_page_get_state s.flash VEEPROM_PAGE_1_ADDR = PAGE_STATE_VALID ∨
        flash_page_get_state s.flash VEEPROM_PAGE_2_ADDR = PAGE_STATE_VALID) →
      (flash_page_get_state s.flash VEEPROM_PAGE_1_ADDR = PAGE_STATE_COPY ∨
        flash_page_get_state s.flash VEEPROM_PAGE_2_ADDR = PAGE_STATE_COPY) →
      flash_page_get_state s.flash (veeprom_init hw s).2.active_page_addr = PAGE_STATE_COPY ∧
      (flash_page_get_state s.flash VEEPROM_PAGE_1_ADDR = PAGE_STATE_COPY →
        (veeprom_init hw s).2.active_page_addr = VEEPROM_PAGE_1_ADDR) ∧
      Designated (veeprom_init hw s).2 ∧
      (veeprom_init hw s).2.flash = s.flash) ∧
    (¬ (flash_page_get_state s.flash VEEPROM_PAGE_1_ADDR = PAGE_STATE_VALID ∨
        flash_page_get_state s.flash VEEPROM_PAGE_2_ADDR = PAGE_STATE_VALID) →
      ¬ (flash_page_get_state s.flash VEEPROM_PAGE_1_ADDR = PAGE_STATE_COPY ∨
        flash_page_get_state s.flash VEEPROM_PAGE_2_ADDR = PAGE_STATE_COPY) →
      (veeprom_init hw s).1 = (hw.erase s.flash VEEPROM_PAGE_1_ADDR).2 ∧
      (veeprom_init hw s).2.flash = (hw.erase s.flash VEEPROM_PAGE_1_ADDR).1 ∧
      (veeprom_init hw s).2.trace = (hw.erase s.flash VEEPROM_PAGE_1_ADDR).1 :: s.trace ∧
      (veeprom_init hw s).2.locked = true ∧
      ((hw.erase s.flash VEEPROM_PAGE_1_ADDR).2 = true →
        (veeprom_init hw s).2.active_page_addr = VEEPROM_PAGE_1_ADDR ∧
        (veeprom_init hw s).2.inactive_page_addr = VEEPROM_PAGE_2_ADDR) ∧
      ((hw.erase s.flash VEEPROM_PAGE_1_ADDR).2 = false →
        (veeprom_init hw s).2.active_page_addr = s.active_page_addr ∧
        (veeprom_init hw s).2.inactive_page_addr = s.inactive_page_addr) ∧
      (hw.Reliable →
        veeprom_init hw s =
          (true, { flash := erase_mem s.flash VEEPROM_PAGE_1_ADDR, locked := true,
                   active_page_addr := VEEPROM_PAGE_1_ADDR,
                   inactive_page_addr := VEEPROM_PAGE_2_ADDR,
                   trace := erase_mem s.flash VEEPROM_PAGE_1_ADDR :: s.trace }) ∧
        (∀ x, ¬ (VEEPROM_PAGE_1_ADDR ≤ x ∧ x < VEEPROM_PAGE_1_ADDR + 1024) →
          (veeprom_init hw s).2.flash x = s.flash x) ∧
        (∀ x, VEEPROM_PAGE_1_ADDR ≤ x → x < VEEPROM_PAGE_1_ADDR + 1024 →
          (veeprom_init hw s).2.flash x = 0xFF))) := by
  by_cases h1 : flash_page_get_state s.flash VEEPROM_PAGE_1_ADDR = PAGE_STATE_VALID
  · simp [veeprom_init, veeprom_init_check, Designated, h1]
  · by_cases h2 : flash_page_get_state s.flash VEEPROM_PAGE_2_ADDR = PAGE_STATE_VALID
    · simp [veeprom_init, veeprom_init_check, Designated, h1, h2]
    · by_cases h3 : flash_page_get_state s.flash VEEPROM_PAGE_1_ADDR = PAGE_STATE_COPY
      · simp [veeprom_init, veeprom_init_check, Designated, h1, h2, h3]
      · by_cases h4 : flash_page_get_state s.flash VEEPROM_PAGE_2_ADDR = PAGE_STATE_COPY
        · simp [veeprom_init, veeprom_init_check, Designated, h1, h2, h3, h4]
        · refine ⟨fun h => absurd h (by simp [h1, h2]), fun _ h => absurd h (by simp [h3, h4]),
            fun _ _ => ?_⟩
          have e : veeprom_init hw s =
              if (hw.erase s.flash VEEPROM_PAGE_1_ADDR).2 = false then
                (false, { s with flash := (hw.erase s.flash VEEPROM_PAGE_1_ADDR).1,
                                 locked := true,
                                 trace := (hw.erase s.flash VEEPROM_PAGE_1_ADDR).1 :: s.trace })
              else
                (true, { flash := (hw.erase s.flash VEEPROM_PAGE_1_ADDR).1, locked := true,
                         active_page_addr := VEEPROM_PAGE_1_ADDR,
                         inactive_page_addr := VEEPROM_PAGE_2_ADDR,
                         trace := (hw.erase s.flash VEEPROM_PAGE_1_ADDR).1 :: s.trace }) := by
            simp [veeprom_init, flash_page_erase, flash_lock, flash_unlock, h1, h2, h3, h4]
          cases hv : (hw.erase s.flash VEEPROM_PAGE_1_ADDR).2 with
          | false =>
            rw [hv] at e
            simp only [if_true] at e
            refine ⟨by rw [e], by rw [e], by rw [e], by rw [e], fun h => absurd h (by simp),
              fun _ => ⟨by rw [e], by rw [e]⟩, fun hr => ?_⟩
            rw [hr.1] at hv
            exact absurd hv (by simp)
          | true =>
            rw [hv] at e
            simp only [Bool.true_eq_false, if_false] at e
            refine ⟨by rw [e], by rw [e], by rw [e], by rw [e], fun _ => ⟨by rw [e], by rw [e]⟩,
              fun h => absurd h (by simp), fun hr => ?_⟩
            rw [e, hr.1]
            refine ⟨rfl, fun x hx => ?_, fun x hx1 hx2 => ?_⟩
            · simp only [erase_mem, VEEPROM_PAGE_1_ADDR] at hx ⊢
              rw [if_neg]
              omega
            · simp only [erase_mem, VEEPROM_PAGE_1_ADDR] at hx1 hx2 ⊢
              rw [if_pos]
              omega

/-! ## Frames -/

theorem Frame.refl (R : Nat → Prop) (s : Veeprom) : Frame R s s :=
  ⟨rfl, rfl, fun _ _ => rfl, [], rfl, by simp⟩

theorem Frame.trans {R : Nat → Prop} {s s1 s2 : Veeprom} (h1 : Frame R s s1)
    (h2 : Frame R s1 s2) : Frame R s s2 := by
  obtain ⟨a1, i1, f1, n1, t1, g1⟩ := h1
  obtain ⟨a2, i2, f2, n2, t2, g2⟩ := h2
  refine ⟨a2.trans a1, i2.trans i1, fun x hx => (f2 x hx).trans (f1 x hx), n2 ++ n1, ?_, ?_⟩
  · rw [t2, t1, List.append_assoc]
  · intro g hg x hx
    rcases List.mem_append.mp hg with hg | hg
    · exact (g2 g hg x hx).trans (f1 x hx)
    · exact g1 g hg x hx

theorem Frame.mono {R Q : Nat → Prop} {s s1 : Veeprom} (h : Frame R s s1)
    (hRQ : ∀ x, R x → Q x) : Frame Q s s1 := by
  obtain ⟨a1, i1, f1, n1, t1, g1⟩ := h
  exact ⟨a1, i1, fun x hx => f1 x (fun hr => hx (hRQ x hr)), n1, t1,
    fun g hg x hx => g1 g hg x (fun hr => hx (hRQ x hr))⟩

theorem Frame.lock {R : Nat → Prop} {s s1 : Veeprom} (h : Frame R s s1) (b : Bool) :
    Frame R s { s1 with locked := b } := h

theorem flash_write_16_frame (hw : FlashHw) (hf : hw.Framed) (s : Veeprom) (a v : Nat) :
    Frame (fun x => x = a ∨ x = a + 1) s (flash_write_16 hw s a v).2 := by
  have key : ∀ x, ¬ (x = a ∨ x = a + 1) → (hw.program s.flash a (rev16 v)).1 x = s.flash x :=
    fun x hx => hf.1 _ _ _ x (fun h => hx (Or.inl h)) (fun h => hx (Or.inr h))
  unfold flash_write_16
  dsimp only
  split
  · exact ⟨rfl, rfl, key, [(hw.program s.flash a (rev16 v)).1], rfl, by simpa using key⟩
  · exact ⟨rfl, rfl, key, [(hw.program s.flash a (rev16 v)).1], rfl, by simpa using key⟩

theorem flash_write_16_ok (hw : FlashHw) (s : Veeprom) (a v : Nat)
    (h : (flash_write_16 hw s a v).1 = true) :
    flash_read_16 (flash_write_16 hw s a v).2.flash a = v := by
  unfold flash_write_16 at h ⊢
  dsimp only at h ⊢
  split at h
  · simp at h
  · rename_i hne
    split
    · contradiction
    · simpa using hne

theorem flash_write_16_locked (hw : FlashHw) (s : Veeprom) (a v : Nat) :
    (flash_write_16 hw s a v).2.locked = s.locked := by
  unfold flash_write_16
  dsimp only
  split <;> rfl

theorem flash_page_erase_frame (hw : FlashHw) (hf : hw.Framed) (s : Veeprom) (a : Nat) :
    Frame (fun x => x / 1024 = a / 1024) s (flash_page_erase hw s a).2 := by
  have key : ∀ x, ¬ (x / 1024 = a / 1024) → (hw.erase s.flash a).1 x = s.flash x :=
    fun x hx => hf.2 _ _ x hx
  exact ⟨rfl, rfl, key, [(hw.erase s.flash a).1], rfl, by simpa using key⟩

theorem flash_page_set_state_loop_frame (hw : FlashHw) (hf : hw.Framed) (X state : Nat)
    (hX : X + 1024 ≤ 4294967296) :
    ∀ (fuel i mask : Nat) (s : Veeprom), i + fuel ≤ 4 →
      Frame (fun x => X + 1016 ≤ x ∧ x < X + 1024) s
        (flash_page_set_state_loop hw X state fuel i mask s).2 := by
  intro fuel
  induction fuel with
  | zero => intro i mask s _; exact Frame.refl _ s
  | succ k ih =>
    intro i mask s hi
    unfold flash_page_set_state_loop
    split
    · split
      · exact Frame.refl _ s
      · exact ih (i + 1) mask s (by omega)
    · have hw1 := flash_write_16_frame hw hf s (add32 X (PAGE_STATE_OFFSET + i * 2)) 0
      have hw2 : Frame (fun x => X + 1016 ≤ x ∧ x < X + 1024) s
          (flash_write_16 hw s (add32 X (PAGE_STATE_OFFSET + i * 2)) 0).2 := by
        refine hw1.mono ?_
        intro x hx
        simp only [add32, PAGE_STATE_OFFSET, VEEPROM_PAGE_SIZE, FLASH_PAGE_SIZE,
          VEEPROM_SERVICE_HEADER_SIZE] at hx
        omega
      dsimp only
      split
      · exact hw2
      · exact hw2.trans (ih (i + 1) (mask >>> 16) _ (by omega))

theorem flash_page_set_state_frame (hw : FlashHw) (hf : hw.Framed) (s : Veeprom) (X state : Nat)
    (hX : X + 1024 ≤ 4294967296) :
    Frame (fun x => X + 1016 ≤ x ∧ x < X + 1024) s (flash_page_set_state hw s X state).2 :=
  flash_page_set_state_loop_frame hw hf X state hX 4 0 _ s (by omega)

theorem flash_page_get_state_congr (f g : Flash) (X : Nat) (hX : X + 1024 ≤ 4294967296)
    (h : ∀ x, X + 1016 ≤ x → x < X + 1024 → g x = f x) :
    flash_page_get_state g X = flash_page_get_state f X := by
  have e0 : add32 X 1016 = X + 1016 := by unfold add32; omega
  have e1 : add32 X 1018 = X + 1018 := by unfold add32; omega
  have e2 : add32 X 1020 = X + 1020 := by unfold add32; omega
  have e3 : add32 X 1022 = X + 1022 := by unfold add32; omega
  rw [flash_page_get_state_eq, flash_page_get_state_eq, e0, e1, e2, e3]
  simp only [flash_read_16_eq]
  rw [h (X + 1016) (by omega) (by omega), h (X + 1016 + 1) (by omega) (by omega),
    h (X + 1018) (by omega) (by omega), h (X + 1018 + 1) (by omega) (by omega),
    h (X + 1020) (by omega) (by omega), h (X + 1020 + 1) (by omega) (by omega),
    h (X + 1022) (by omega) (by omega), h (X + 1022 + 1) (by omega) (by omega)]

theorem flash_page_calc_checksum_loop_congr (f g : Flash) :
    ∀ (n a c : Nat), a + n < 4294967296 → (∀ x, a ≤ x → x < a + n → g x = f x) →
      flash_page_calc_checksum_loop g n a c = flash_page_calc_checksum_loop f n a c := by
  intro n
  induction n with
  | zero => intro a c _ _; rfl
  | succ k ih =>
    intro a c ha h
    unfold flash_page_calc_checksum_loop
    have e : add32 a 1 = a + 1 := by unfold add32; omega
    rw [e, ih (a + 1) _ (by omega) (fun x h1 h2 => h x (by omega) (by omega))]
    simp only [flash_read_8]
    rw [h a (by omega) (by omega)]

theorem flash_page_calc_checksum_congr (f g : Flash) (X : Nat) (hX : X + 1024 ≤ 4294967296)
    (h : ∀ x, X ≤ x → x < X + 1014 → g x = f x) :
    flash_page_calc_checksum g X = flash_page_calc_checksum f X := by
  unfold flash_page_calc_checksum
  exact flash_page_calc_checksum_loop_congr f g _ X 0
    (by simp only [VEEPROM_PAGE_SIZE, FLASH_PAGE_SIZE, VEEPROM_SERVICE_HEADER_SIZE]; omega)
    (fun x h1 h2 => h x h1
      (by simp only [VEEPROM_PAGE_SIZE, FLASH_PAGE_SIZE, VEEPROM_SERVICE_HEADER_SIZE] at h2; omega))

theorem flash_page_read_checksum_congr (f g : Flash) (X : Nat) (hX : X + 1024 ≤ 4294967296)
    (h : ∀ x, X + 1014 ≤ x → x < X + 1016 → g x = f x) :
    flash_page_read_checksum g X = flash_page_read_checksum f X := by
  have e : add32 X PAGE_CHECKSUM_OFFSET = X + 1014 := by
    simp only [add32, PAGE_CHECKSUM_OFFSET, VEEPROM_PAGE_SIZE, FLASH_PAGE_SIZE,
      VEEPROM_SERVICE_HEADER_SIZE]
    omega
  unfold flash_page_read_checksum
  rw [e, flash_read_16_eq, flash_read_16_eq, h (X + 1014) (by omega) (by omega),
    h (X + 1014 + 1) (by omega) (by omega)]

/-! ## The copy loop -/

theorem dst_eq (B offset : Nat) (hB : B + 1024 ≤ 4294967296) (ho : offset < 1014) :
    sub32 (add32 B (offset + 2)) 2 = B + offset := by
  unfold sub32 add32
  omega

theorem veeprom_write_loop_succ (hw : FlashHw) (addr n : Nat) (data : List Nat)
    (k di offset : Nat) (s : Veeprom) (hB : s.inactive_page_addr + 1024 ≤ 4294967296)
    (ho : offset < 1014) (w : Nat × Nat) (hw1 : veeprom_write_word s addr n data di offset = w) :
    veeprom_write_loop hw addr n data (k + 1) di offset s =
      if w.1 ≠ flash_read_16 s.flash (s.inactive_page_addr + offset) then
        if (flash_write_16 hw s (s.inactive_page_addr + offset) w.1).1 = false then
          (false, (flash_write_16 hw s (s.inactive_page_addr + offset) w.1).2)
        else veeprom_write_loop hw addr n data k w.2 (offset + 2)
          (flash_write_16 hw s (s.inactive_page_addr + offset) w.1).2
      else veeprom_write_loop hw addr n data k w.2 (offset + 2) s := by
  have hlt2 : offset < VEEPROM_PAGE_SIZE := by
    simpa [VEEPROM_PAGE_SIZE, FLASH_PAGE_SIZE, VEEPROM_SERVICE_HEADER_SIZE] using ho
  subst hw1
  rw [veeprom_write_loop, if_pos hlt2]
  dsimp only
  rw [dst_eq _ offset hB ho]

theorem veeprom_write_loop_stop (hw : FlashHw) (addr n : Nat) (data : List Nat)
    (k di offset : Nat) (s : Veeprom) (ho : 1014 ≤ offset) :
    veeprom_write_loop hw addr n data k di offset s = (true, s) := by
  have hlt2 : ¬ offset < VEEPROM_PAGE_SIZE := by
    simpa [VEEPROM_PAGE_SIZE, FLASH_PAGE_SIZE, VEEPROM_SERVICE_HEADER_SIZE] using ho
  cases k with
  | zero => rfl
  | succ k => rw [veeprom_write_loop, if_neg hlt2]

theorem veeprom_write_loop_frame (hw : FlashHw) (hf : hw.Framed) (addr n : Nat) (data : List Nat)
    (B : Nat) (hB : B + 1024 ≤ 4294967296) :
    ∀ (fuel di offset : Nat) (s : Veeprom), s.inactive_page_addr = B →
      Frame (fun x => B + offset ≤ x ∧ x < B + 1016) s
        (veeprom_write_loop hw addr n data fuel di offset s).2 := by
  intro fuel
  induction fuel with
  | zero => intro di offset s _; exact Frame.refl _ s
  | succ k ih =>
    intro di offset s hs
    by_cases ho : offset < 1014
    · rw [veeprom_write_loop_succ hw addr n data k di offset s (by rw [hs]; exact hB) ho _ rfl]
      generalize veeprom_write_word s addr n data di offset = w
      rw [hs]
      have hw1 := (flash_write_16_frame hw hf s (B + offset) w.1).mono
        (Q := fun x => B + offset ≤ x ∧ x < B + 1016) (fun x hx => by omega)
      split
      · split
        · exact hw1
        · exact hw1.trans ((ih _ (offset + 2) _ (hw1.2.1.trans hs)).mono (fun x hx => by omega))
      · exact (ih _ (offset + 2) s hs).mono (fun x hx => by omega)
    · rw [veeprom_write_loop_stop hw addr n data _ di offset s (by omega)]
      exact Frame.refl _ s

theorem veeprom_write_byte_spec (s : Veeprom) (addr n : Nat) (data : List Nat) (di offset : Nat)
    (hn : addr + n < 4294967296) (hA : s.active_page_addr + 1024 ≤ 4294967296)
    (ho : offset < 1024)
    (hd0 : offset ≤ addr → di = 0)
    (hd1 : addr < offset → offset < addr + n → di = offset - addr) :
    (veeprom_write_byte s addr n data di offset).1
        = merged s.flash s.active_page_addr addr n data offset ∧
    (veeprom_write_byte s addr n data di offset).1 < 256 ∧
    (offset + 1 ≤ addr → (veeprom_write_byte s addr n data di offset).2 = 0) ∧
    (addr < offset + 1 → offset + 1 < addr + n →
      (veeprom_write_byte s addr n data di offset).2 = offset + 1 - addr) := by
  have e1 : add32 addr n = addr + n := by unfold add32; omega
  have e2 : add32 s.active_page_addr offset = s.active_page_addr + offset := by
    unfold add32; omega
  unfold veeprom_write_byte merged
  rw [e1, e2]
  by_cases hin : addr ≤ offset ∧ offset < addr + n
  · have hdi : di = offset - addr := by
      rcases Nat.eq_or_lt_of_le hin.1 with h | h
      · rw [hd0 (by omega)]; omega
      · exact hd1 h hin.2
    have hin2 : offset ≥ addr ∧ offset < addr + n := hin
    rw [if_pos hin2, if_pos hin]
    refine ⟨by rw [hdi], Nat.mod_lt _ (by decide), fun h => by omega, fun _ _ => ?_⟩
    show di + 1 = offset + 1 - addr
    omega
  · have hin2 : ¬ (offset ≥ addr ∧ offset < addr + n) := hin
    rw [if_neg hin2, if_neg hin]
    refine ⟨rfl, Nat.mod_lt _ (by decide), fun h => ?_, fun h1 h2 => ?_⟩
    · show di = 0
      exact hd0 (by omega)
    · show di = offset + 1 - addr
      have : offset < addr := by
        by_contra hc
        exact hin ⟨by omega, by omega⟩
      rw [hd0 (by omega)]; omega

theorem merged_lt (f : Flash) (A addr n : Nat) (data : List Nat) (o : Nat) :
    merged f A addr n data o < 256 := by
  unfold merged flash_read_8
  split <;> exact Nat.mod_lt _ (by decide)

theorem veeprom_write_word_spec (s : Veeprom) (addr n : Nat) (data : List Nat) (di offset : Nat)
    (hn : addr + n < 4294967296) (hA : s.active_page_addr + 1024 ≤ 4294967296)
    (ho : offset < 1014)
    (hd0 : offset ≤ addr → di = 0)
    (hd1 : addr < offset → offset < addr + n → di = offset - addr) :
    (veeprom_write_word s addr n data di offset).1
        = merged s.flash s.active_page_addr addr n data offset * 256
          + merged s.flash s.active_page_addr addr n data (offset + 1) ∧
    (offset + 2 ≤ addr → (veeprom_write_word s addr n data di offset).2 = 0) ∧
    (addr < offset + 2 → offset + 2 < addr + n →
      (veeprom_write_word s addr n data di offset).2 = offset + 2 - addr) := by
  obtain ⟨p1, p2, p3, p4⟩ := veeprom_write_byte_spec s addr n data di offset hn hA
    (by omega) hd0 hd1
  obtain ⟨q1, q2, q3, q4⟩ := veeprom_write_byte_spec s addr n data
    (veeprom_write_byte s addr n data di offset).2 (offset + 1) hn hA (by omega) p3 p4
  unfold veeprom_write_word
  dsimp only
  rw [word_eq _ _ p2 q2, p1, q1]
  exact ⟨rfl, q3, q4⟩

theorem merged_congr (f g : Flash) (A addr n : Nat) (data : List Nat) (o : Nat)
    (h : g (A + o) = f (A + o)) :
    merged g A addr n data o = merged f A addr n data o := by
  unfold merged flash_read_8
  rw [h]

theorem veeprom_write_loop_payload (hw : FlashHw) (hf : hw.Framed) (addr n : Nat)
    (data : List Nat) (hn : addr + n < 4294967296) (A B : Nat)
    (hA : A + 1024 ≤ 4294967296) (hB : B + 1024 ≤ 4294967296)
    (hAB : A + 1024 ≤ B ∨ B + 1024 ≤ A) :
    ∀ (fuel di offset : Nat) (s : Veeprom), s.active_page_addr = A → s.inactive_page_addr = B →
      1014 ≤ offset + 2 * fuel →
      (offset ≤ addr → di = 0) → (addr < offset → offset < addr + n → di = offset - addr) →
      (veeprom_write_loop hw addr n data fuel di offset s).1 = true →
      ∀ o, offset ≤ o → o < 1014 →
        flash_read_8 (veeprom_write_loop hw addr n data fuel di offset s).2.flash (B + o)
          = merged s.flash A addr n data o := by
  intro fuel
  induction fuel with
  | zero => intro di offset s _ _ hfuel _ _ _ o ho1 ho2; omega
  | succ k ih =>
    intro di offset s hsA hsB hfuel hd0 hd1 htrue o ho1 ho2
    have hlt : offset < 1014 := by omega
    obtain ⟨p1, p2, p3⟩ := veeprom_write_word_spec s addr n data di offset hn
      (by rw [hsA]; exact hA) hlt hd0 hd1
    rw [veeprom_write_loop_succ hw addr n data k di offset s (by rw [hsB]; exact hB) hlt _ rfl]
      at htrue ⊢
    generalize veeprom_write_word s addr n data di offset = w at p1 p2 p3 htrue ⊢
    rw [hsA] at p1
    rw [hsB] at htrue ⊢
    have hm0 := merged_lt s.flash A addr n data offset
    have hm1 := merged_lt s.flash A addr n data (offset + 1)
    -- what the rest of the loop does once the halfword at `offset` is in place
    have key : ∀ s1 : Veeprom, Frame (fun x => x = B + offset ∨ x = B + offset + 1) s s1 →
        flash_read_16 s1.flash (B + offset) = w.1 →
        (veeprom_write_loop hw addr n data k w.2 (offset + 2) s1).1 = true →
        flash_read_8 (veeprom_write_loop hw addr n data k w.2 (offset + 2) s1).2.flash (B + o)
          = merged s.flash A addr n data o := by
      intro s1 hfr hrd ht
      have hs1A : s1.active_page_addr = A := hfr.1.trans hsA
      have hs1B : s1.inactive_page_addr = B := hfr.2.1.trans hsB
      have hrest := veeprom_write_loop_frame hw hf addr n data B hB k w.2 (offset + 2) s1 hs1B
      rw [flash_read_16_eq, p1] at hrd
      by_cases hc : o < offset + 2
      · have hkeep := hrest.2.2.1 (B + o) (by omega)
        unfold flash_read_8
        rw [hkeep]
        rcases Nat.eq_or_lt_of_le ho1 with h | h
        · subst h
          omega
        · have ho : o = offset + 1 := by omega
          subst ho
          have : B + (offset + 1) = B + offset + 1 := by omega
          rw [this]
          omega
      · rw [ih w.2 (offset + 2) s1 hs1A hs1B (by omega) p2 p3 ht o (by omega) ho2]
        exact merged_congr _ _ _ _ _ _ _ (hfr.2.2.1 (A + o) (by omega))
    by_cases hne : w.1 ≠ flash_read_16 s.flash (B + offset)
    · rw [if_pos hne] at htrue ⊢
      have hfr := flash_write_16_frame hw hf s (B + offset) w.1
      have hok := flash_write_16_ok hw s (B + offset) w.1
      by_cases hr : (flash_write_16 hw s (B + offset) w.1).1 = false
      · rw [if_pos hr] at htrue
        simp at htrue
      · rw [if_neg hr] at htrue ⊢
        exact key _ hfr (hok (by simpa using hr)) htrue
    · rw [if_neg hne] at htrue ⊢
      have heq : w.1 = flash_read_16 s.flash (B + offset) := by simpa using hne
      exact key s (Frame.refl _ s) heq.symm htrue

/-! ## Page state transitions -/

theorem state_addr (X i : Nat) (hX : X + 1024 ≤ 4294967296) (hi : i < 4) :
    add32 X (PAGE_STATE_OFFSET + i * 2) = X + 1016 + 2 * i := by
  simp only [add32, PAGE_STATE_OFFSET, VEEPROM_PAGE_SIZE, FLASH_PAGE_SIZE,
    VEEPROM_SERVICE_HEADER_SIZE]
  omega

theorem flash_page_set_state_canonical (hw : FlashHw) (s : Veeprom) (X k : Nat) (hk : k ≤ 4) :
    flash_page_set_state hw s X (canonical_state k) = set_fields hw X k 4 0 s := by
  have m0 : (0xFFFF000000000000 : Nat) >>> 16 = 0x0000FFFF00000000 := by decide
  have m1 : (0x0000FFFF00000000 : Nat) >>> 16 = 0x00000000FFFF0000 := by decide
  have m2 : (0x00000000FFFF0000 : Nat) >>> 16 = 0x000000000000FFFF := by decide
  have m3 : (0x000000000000FFFF : Nat) >>> 16 = 0 := by decide
  interval_cases k
  · have e : PAGE_STATE_ERASED &&& 0xFFFF000000000000 ≠ 0 := by decide
    simp [flash_page_set_state, flash_page_set_state_loop, set_fields, canonical_state, e]
  · have e0 : PAGE_STATE_WRITE &&& 0xFFFF000000000000 = 0 := by decide
    have e1 : PAGE_STATE_WRITE &&& 0x0000FFFF00000000 ≠ 0 := by decide
    simp [flash_page_set_state, flash_page_set_state_loop, set_fields, canonical_state, e0, e1,
      m0]
  · have e0 : PAGE_STATE_VALID &&& 0xFFFF000000000000 = 0 := by decide
    have e1 : PAGE_STATE_VALID &&& 0x0000FFFF00000000 = 0 := by decide
    have e2 : PAGE_STATE_VALID &&& 0x00000000FFFF0000 ≠ 0 := by decide
    simp [flash_page_set_state, flash_page_set_state_loop, set_fields, canonical_state, e0, e1,
      e2, m0, m1]
  · have e0 : PAGE_STATE_COPY &&& 0xFFFF000000000000 = 0 := by decide
    have e1 : PAGE_STATE_COPY &&& 0x0000FFFF00000000 = 0 := by decide
    have e2 : PAGE_STATE_COPY &&& 0x00000000FFFF0000 = 0 := by decide
    have e3 : PAGE_STATE_COPY &&& 0x000000000000FFFF ≠ 0 := by decide
    simp [flash_page_set_state, flash_page_set_state_loop, set_fields, canonical_state, e0, e1,
      e2, e3, m0, m1, m2]
  · have e0 : PAGE_STATE_INVALID &&& 0xFFFF000000000000 = 0 := by decide
    have e1 : PAGE_STATE_INVALID &&& 0x0000FFFF00000000 = 0 := by decide
    have e2 : PAGE_STATE_INVALID &&& 0x00000000FFFF0000 = 0 := by decide
    have e3 : PAGE_STATE_INVALID &&& 0x000000000000FFFF = 0 := by decide
    simp [flash_page_set_state, flash_page_set_state_loop, set_fields, canonical_state, e0, e1,
      e2, e3, m0, m1, m2]

theorem set_fields_frame (hw : FlashHw) (hf : hw.Framed) (X k : Nat)
    (hX : X + 1024 ≤ 4294967296) :
    ∀ (fuel i : Nat) (s : Veeprom), i + fuel ≤ 4 →
      Frame (fun x => X + 1016 + 2 * i ≤ x ∧ x < X + 1024) s (set_fields hw X k fuel i s).2 := by
  intro fuel
  induction fuel with
  | zero => intro i s _; exact Frame.refl _ s
  | succ m ih =>
    intro i s hi
    unfold set_fields
    rw [state_addr X i hX (by omega)]
    split
    · split
      · exact Frame.refl _ s
      · exact (ih (i + 1) s (by omega)).mono (fun x hx => by omega)
    · have hw1 := (flash_write_16_frame hw hf s (X + 1016 + 2 * i) 0).mono
        (Q := fun x => X + 1016 + 2 * i ≤ x ∧ x < X + 1024) (fun x hx => by omega)
      dsimp only
      split
      · exact hw1
      · exact hw1.trans ((ih (i + 1) _ (by omega)).mono (fun x hx => by omega))

theorem flash_read_16_congr (f g : Flash) (a : Nat) (h0 : g a = f a) (h1 : g (a + 1) = f (a + 1)) :
    flash_read_16 g a = flash_read_16 f a := by
  rw [flash_read_16_eq, flash_read_16_eq, h0, h1]

theorem set_fields_post (hw : FlashHw) (hf : hw.Framed) (X k : Nat)
    (hX : X + 1024 ≤ 4294967296) :
    ∀ (fuel i : Nat) (s : Veeprom), i + fuel ≤ 4 → (set_fields hw X k fuel i s).1 = true →
      ∀ j, i ≤ j → j < i + fuel →
        flash_read_16 (set_fields hw X k fuel i s).2.flash (X + 1016 + 2 * j)
          = if j < k then 0 else 0xFFFF := by
  intro fuel
  induction fuel with
  | zero => intro i s _ _ j h1 h2; omega
  | succ m ih =>
    intro i s hi htrue j hj1 hj2
    have hfr := set_fields_frame hw hf X k hX m (i + 1)
    unfold set_fields at htrue ⊢
    rw [state_addr X i hX (by omega)] at htrue ⊢
    by_cases hk : k ≤ i
    · rw [if_pos hk] at htrue ⊢
      by_cases hc : flash_read_16 s.flash (X + 1016 + 2 * i) ≠ 0xFFFF
      · rw [if_pos hc] at htrue
        simp at htrue
      · rw [if_neg hc] at htrue ⊢
        rcases Nat.eq_or_lt_of_le hj1 with h | h
        · subst h
          rw [flash_read_16_congr s.flash _ _ ((hfr s (by omega)).2.2.1 _ (by omega))
            ((hfr s (by omega)).2.2.1 _ (by omega)), if_neg (by omega)]
          simpa using hc
        · exact ih (i + 1) s (by omega) htrue j (by omega) (by omega)
    · rw [if_neg hk] at htrue ⊢
      dsimp only at htrue ⊢
      by_cases hr : (flash_write_16 hw s (X + 1016 + 2 * i) 0).1 = false
      · rw [if_pos hr] at htrue
        simp at htrue
      · rw [if_neg hr] at htrue ⊢
        have hok := flash_write_16_ok hw s (X + 1016 + 2 * i) 0 (by simpa using hr)
        rcases Nat.eq_or_lt_of_le hj1 with h | h
        · subst h
          rw [flash_read_16_congr _ _ _ ((hfr _ (by omega)).2.2.1 _ (by omega))
            ((hfr _ (by omega)).2.2.1 _ (by omega)), if_pos (by omega)]
          exact hok
        · exact ih (i + 1) _ (by omega) htrue j (by omega) (by omega)

theorem flash_page_get_state_of_fields (f : Flash) (X k : Nat) (hX : X + 1024 ≤ 4294967296)
    (hk : k ≤ 4)
    (h : ∀ j, j < 4 → flash_read_16 f (X + 1016 + 2 * j) = if j < k then 0 else 0xFFFF) :
    flash_page_get_state f X = canonical_state k := by
  have e0 : add32 X 1016 = X + 1016 + 2 * 0 := by unfold add32; omega
  have e1 : add32 X 1018 = X + 1016 + 2 * 1 := by unfold add32; omega
  have e2 : add32 X 1020 = X + 1016 + 2 * 2 := by unfold add32; omega
  have e3 : add32 X 1022 = X + 1016 + 2 * 3 := by unfold add32; omega
  rw [flash_page_get_state_eq, e0, e1, e2, e3, h 0 (by omega), h 1 (by omega), h 2 (by omega),
    h 3 (by omega)]
  interval_cases k <;> rfl

theorem flash_page_set_state_post (hw : FlashHw) (hf : hw.Framed) (s : Veeprom) (X k : Nat)
    (hX : X + 1024 ≤ 4294967296) (hk : k ≤ 4)
    (h : (flash_page_set_state hw s X (canonical_state k)).1 = true) :
    flash_page_get_state (flash_page_set_state hw s X (canonical_state k)).2.flash X
      = canonical_state k := by
  rw [flash_page_set_state_canonical hw s X k hk] at h ⊢
  exact flash_page_get_state_of_fields _ X k hX hk
    (fun j hj => set_fields_post hw hf X k hX 4 0 s (by omega) h j (by omega) (by omega))

/-! ## The write protocol -/

theorem checksum_addr (X : Nat) (hX : X + 1024 ≤ 4294967296) :
    add32 X PAGE_CHECKSUM_OFFSET = X + 1014 := by
  simp only [add32, PAGE_CHECKSUM_OFFSET, VEEPROM_PAGE_SIZE, FLASH_PAGE_SIZE,
    VEEPROM_SERVICE_HEADER_SIZE]
  omega

theorem veeprom_write_core (hw : FlashHw) (hf : hw.Framed) (s : Veeprom) (A B : Nat)
    (hsA : s.active_page_addr = A) (hsB : s.inactive_page_addr = B)
    (hA : A + 1024 ≤ 4294967296) (hB : B + 1024 ≤ 4294967296)
    (hA0 : A % 1024 = 0) (hB0 : B % 1024 = 0) (hAB : A ≠ B)
    (addr n : Nat) (data : List Nat)
    (h : (veeprom_write hw s addr data n).1 = true) :
    (veeprom_write hw s addr data n).2.active_page_addr = B ∧
    (veeprom_write hw s addr data n).2.inactive_page_addr = A ∧
    (veeprom_write hw s addr data n).2.locked = true ∧
    (addr + n < 4294967296 → ∀ o, o < 1014 →
      flash_read_8 (veeprom_write hw s addr data n).2.flash (B + o)
        = merged s.flash A addr n data o) ∧
    flash_page_get_state (veeprom_write hw s addr data n).2.flash B = PAGE_STATE_VALID ∧
    flash_page_get_state (veeprom_write hw s addr data n).2.flash A = PAGE_STATE_INVALID ∧
    Intact (veeprom_write hw s addr data n).2.flash B ∧
    (∀ x, ¬ (A + 1016 ≤ x ∧ x < A + 1024) → ¬ (B ≤ x ∧ x < B + 1024) →
      (veeprom_write hw s addr data n).2.flash x = s.flash x) := by
  generalize hres : veeprom_write hw s addr data n = res at h ⊢
  unfold veeprom_write at hres
  lift_lets at hres
  extract_lets r1 s2 r3 r4 r5 checksum r6 r7 r8 tmp src s9 at hres
  by_cases h1 : r1.1 = false
  · rw [if_pos h1] at hres; rw [← hres] at h; simp at h
  rw [if_neg h1] at hres
  by_cases h3 : r3.1 = false
  · rw [if_pos h3] at hres; rw [← hres] at h; simp at h
  rw [if_neg h3] at hres
  by_cases h4 : r4.1 = false
  · rw [if_pos h4] at hres; rw [← hres] at h; simp at h
  rw [if_neg h4] at hres
  by_cases h5 : r5.1 = false
  · rw [if_pos h5] at hres; rw [← hres] at h; simp at h
  rw [if_neg h5] at hres
  by_cases h6 : r6.1 = false
  · rw [if_pos h6] at hres; rw [← hres] at h; simp at h
  rw [if_neg h6] at hres
  by_cases h7 : r7.1 = false
  · rw [if_pos h7] at hres; rw [← hres] at h; simp at h
  rw [if_neg h7] at hres
  by_cases h8 : r8.1 = false
  · rw [if_pos h8] at hres; rw [← hres] at h; simp at h
  rw [if_neg h8] at hres
  -- frames of the eight steps
  have f1 : Frame (fun x => B ≤ x ∧ x < B + 1024) s r1.2 :=
    (flash_page_erase_frame hw hf s s.inactive_page_addr).mono
      (fun x hx => by rw [hsB] at hx; omega)
  have f2 : Frame (fun x => B ≤ x ∧ x < B + 1024) s s2 := f1
  have e3 : r3 = flash_page_set_state hw s2 A PAGE_STATE_COPY := by
    show flash_page_set_state hw s2 s2.active_page_addr _ = _
    rw [f2.1.trans hsA]
  have f3 : Frame (fun x => A + 1016 ≤ x ∧ x < A + 1024) s2 r3.2 := by
    rw [e3]; exact flash_page_set_state_frame hw hf s2 A _ hA
  have e4 : r4 = flash_page_set_state hw r3.2 B PAGE_STATE_WRITE := by
    show flash_page_set_state hw r3.2 r3.2.inactive_page_addr _ = _
    rw [f3.2.1.trans (f2.2.1.trans hsB)]
  have f4 : Frame (fun x => B + 1016 ≤ x ∧ x < B + 1024) r3.2 r4.2 := by
    rw [e4]; exact flash_page_set_state_frame hw hf r3.2 B _ hB
  have g4 : Frame (fun x => (A + 1016 ≤ x ∧ x < A + 1024) ∨ (B ≤ x ∧ x < B + 1024)) s r4.2 :=
    ((f2.mono (fun x hx => Or.inr hx)).trans (f3.mono (fun x hx => Or.inl hx))).trans
      (f4.mono (fun x hx => Or.inr (by omega)))
  have h4A : r4.2.active_page_addr = A := g4.1.trans hsA
  have h4B : r4.2.inactive_page_addr = B := g4.2.1.trans hsB
  have f5 : Frame (fun x => B + 0 ≤ x ∧ x < B + 1016) r4.2 r5.2 :=
    veeprom_write_loop_frame hw hf addr n data B hB _ 0 0 r4.2 h4B
  have h5B : r5.2.inactive_page_addr = B := f5.2.1.trans h4B
  have e6 : r6 = flash_write_16 hw r5.2 (B + 1014) (flash_page_calc_checksum r5.2.flash B) := by
    show flash_write_16 hw r5.2 (add32 r5.2.inactive_page_addr PAGE_CHECKSUM_OFFSET)
      (flash_page_calc_checksum r5.2.flash r5.2.inactive_page_addr) = _
    rw [h5B, checksum_addr B hB]
  have f6 : Frame (fun x => x = B + 1014 ∨ x = B + 1014 + 1) r5.2 r6.2 := by
    rw [e6]; exact flash_write_16_frame hw hf r5.2 _ _
  have e7 : r7 = flash_page_set_state hw r6.2 B (canonical_state 2) := by
    show flash_page_set_state hw r6.2 r6.2.inactive_page_addr _ = _
    rw [f6.2.1.trans h5B]; rfl
  have f7 : Frame (fun x => B + 1016 ≤ x ∧ x < B + 1024) r6.2 r7.2 := by
    rw [e7]; exact flash_page_set_state_frame hw hf r6.2 B _ hB
  have e8 : r8 = flash_page_set_state hw r7.2 A (canonical_state 4) := by
    show flash_page_set_state hw r7.2 r7.2.active_page_addr _ = _
    rw [f7.1.trans (f6.1.trans (f5.1.trans h4A))]; rfl
  have f8 : Frame (fun x => A + 1016 ≤ x ∧ x < A + 1024) r7.2 r8.2 := by
    rw [e8]; exact flash_page_set_state_frame hw hf r7.2 A _ hA
  have g68 : Frame (fun x => (A + 1016 ≤ x ∧ x < A + 1024) ∨ (B + 1016 ≤ x ∧ x < B + 1024))
      r6.2 r8.2 :=
    (f7.mono (fun x hx => Or.inr hx)).trans (f8.mono (fun x hx => Or.inl hx))
  have g58 : Frame (fun x => (A + 1016 ≤ x ∧ x < A + 1024) ∨ (B + 1014 ≤ x ∧ x < B + 1024))
      r5.2 r8.2 :=
    (f6.mono (fun x hx => Or.inr (by omega))).trans
      (g68.mono (fun x hx => by rcases hx with hx | hx; exact Or.inl hx; exact Or.inr (by omega)))
  have g08 : Frame (fun x => (A + 1016 ≤ x ∧ x < A + 1024) ∨ (B ≤ x ∧ x < B + 1024)) s r8.2 :=
    (g4.trans (f5.mono (fun x hx => Or.inr (by omega)))).trans
      (g58.mono (fun x hx => by rcases hx with hx | hx; exact Or.inl hx; exact Or.inr (by omega)))
  -- postconditions of the steps
  have p6 : flash_read_16 r6.2.flash (B + 1014) = flash_page_calc_checksum r5.2.flash B := by
    rw [e6]; exact flash_write_16_ok hw r5.2 _ _ (by rw [← e6]; simpa using h6)
  have p7 : flash_page_get_state r7.2.flash B = canonical_state 2 := by
    rw [e7]
    exact flash_page_set_state_post hw hf r6.2 B 2 hB (by omega) (by rw [← e7]; simpa using h7)
  have p8 : flash_page_get_state r8.2.flash A = canonical_state 4 := by
    rw [e8]
    exact flash_page_set_state_post hw hf r7.2 A 4 hA (by omega) (by rw [← e8]; simpa using h8)
  have hfl : res.2.flash = r8.2.flash := by rw [← hres]; rfl
  rw [hfl]
  refine ⟨by rw [← hres]; exact g08.2.1.trans hsB, by rw [← hres]; exact g08.1.trans hsA,
    by rw [← hres]; rfl, ?_, ?_, p8, ?_, ?_⟩
  · intro hn o ho
    have := veeprom_write_loop_payload hw hf addr n data hn A B hA hB (by omega)
      VEEPROM_PAGE_SIZE 0 0 r4.2 h4A h4B
      (by simp [VEEPROM_PAGE_SIZE, FLASH_PAGE_SIZE, VEEPROM_SERVICE_HEADER_SIZE])
      (fun _ => rfl) (fun h => by omega) (by simpa using h5) o (by omega) ho
    unfold flash_read_8 at this ⊢
    rw [g58.2.2.1 (B + o) (by omega), this]
    exact merged_congr _ _ _ _ _ _ _ (g4.2.2.1 (A + o) (by omega))
  · rw [flash_page_get_state_congr r7.2.flash r8.2.flash B hB
      (fun x h1 h2 => f8.2.2.1 x (by omega))]
    exact p7
  · unfold Intact
    rw [flash_page_read_checksum_congr r6.2.flash r8.2.flash B hB
        (fun x h1 h2 => g68.2.2.1 x (by omega)),
      flash_page_calc_checksum_congr r5.2.flash r8.2.flash B hB
        (fun x h1 h2 => g58.2.2.1 x (by omega))]
    unfold flash_page_read_checksum
    rw [checksum_addr B hB]
    exact p6
  · intro x hxA hxB
    exact g08.2.2.1 x (by rintro (h | h); exact hxA h; exact hxB h)

theorem Designated.pages {s : Veeprom} (hd : Designated s) :
    s.active_page_addr + 1024 ≤ 4294967296 ∧ s.inactive_page_addr + 1024 ≤ 4294967296 ∧
    s.active_page_addr % 1024 = 0 ∧ s.inactive_page_addr % 1024 = 0 ∧
    s.active_page_addr ≠ s.inactive_page_addr := by
  rcases hd with ⟨h1, h2⟩ | ⟨h1, h2⟩ <;>
    simp [h1, h2, VEEPROM_PAGE_1_ADDR, VEEPROM_PAGE_2_ADDR]

theorem veeprom_write_designated (hw : FlashHw) (hf : hw.Framed) (s : Veeprom)
    (hd : Designated s) (addr n : Nat) (data : List Nat)
    (h : (veeprom_write hw s addr data n).1 = true) :
    Designated (veeprom_write hw s addr data n).2 := by
  obtain ⟨hA, hB, hA0, hB0, hAB⟩ := hd.pages
  obtain ⟨c1, c2, -⟩ := veeprom_write_core hw hf s _ _ rfl rfl hA hB hA0 hB0 hAB addr n data h
  unfold Designated at hd ⊢
  rw [c1, c2]
  tauto

theorem stm32_framed : stm32.Framed := by
  refine ⟨fun f a v x h0 h1 => ?_, fun f a x h => ?_⟩
  · show (if load16 f a = 0xFFFF ∨ v = 0 then (store16 f a v, true) else (f, false)).1 x = f x
    split
    · simp [store16, h0, h1]
    · rfl
  · simp [stm32, erase_mem, h]

theorem stm32_reliable : stm32.Reliable :=
  ⟨fun _ _ => rfl, fun f a v h => by simp [stm32, h]⟩

theorem scenario_store_designated : Designated scenario_store :=
  Or.inl ⟨by decide, by decide⟩

/-- Claim C3: merge on write.  For a controller that touches only what it is
asked to (verdicts arbitrary), a store designating the two pages, and
`addr + n < 1014`: if `veeprom_write` returns true, every payload byte of the new
active page is `data[o - addr]` (as a byte) inside `[addr, addr + n)` and the byte
of the previously active page outside.  Consequently a second successful write
to a disjoint range leaves both ranges holding their written bytes. -/
theorem veeprom_write_merges (hw : FlashHw) (hf : hw.Framed) (s : Veeprom) (hd : Designated s)
    (addr n : Nat) (data : List Nat) (hn : addr + n < 1014)
    (hok : (veeprom_write hw s addr data n).1 = true) :
    (∀ o, o < 1014 →
      (addr ≤ o ∧ o < addr + n →
        flash_read_8 (veeprom_write hw s addr data n).2.flash
          ((veeprom_write hw s addr data n).2.active_page_addr + o) = data.getD (o - addr) 0 % 256) ∧
      (¬ (addr ≤ o ∧ o < addr + n) →
        flash_read_8 (veeprom_write hw s addr data n).2.flash
          ((veeprom_write hw s addr data n).2.active_page_addr + o)
          = flash_read_8 s.flash (s.active_page_addr + o))) ∧
    (∀ (addr2 n2 : Nat) (data2 : List Nat), addr2 + n2 < 1014 →
      (addr + n ≤ addr2 ∨ addr2 + n2 ≤ addr) →
      (veeprom_write hw (veeprom_write hw s addr data n).2 addr2 data2 n2).1 = true →
      (∀ i, i < n →
        flash_read_8 (veeprom_write hw (veeprom_write hw s addr data n).2 addr2 data2 n2).2.flash
          ((veeprom_write hw (veeprom_write hw s addr data n).2 addr2 data2 n2).2.active_page_addr
            + (addr + i)) = data.getD i 0 % 256) ∧
      (∀ i, i < n2 →
        flash_read_8 (veeprom_write hw (veeprom_write hw s addr data n).2 addr2 data2 n2).2.flash
          ((veeprom_write hw (veeprom_write hw s addr data n).2 addr2 data2 n2).2.active_page_addr
            + (addr2 + i)) = data2.getD i 0 % 256)) := by
  obtain ⟨hA, hB, hA0, hB0, hAB⟩ := hd.pages
  obtain ⟨c1, c2, -, c4, -⟩ :=
    veeprom_write_core hw hf s _ _ rfl rfl hA hB hA0 hB0 hAB addr n data hok
  have m1 : ∀ o, o < 1014 →
      flash_read_8 (veeprom_write hw s addr data n).2.flash
        ((veeprom_write hw s addr data n).2.active_page_addr + o)
        = merged s.flash s.active_page_addr addr n data o := by
    intro o ho
    rw [c1]
    exact c4 (by omega) o ho
  refine ⟨fun o ho => ⟨fun hin => ?_, fun hout => ?_⟩, ?_⟩
  · rw [m1 o ho, merged, if_pos hin]
  · rw [m1 o ho, merged, if_neg hout]
  · intro addr2 n2 data2 hn2 hdis hok2
    have hd2 := veeprom_write_designated hw hf s hd addr n data hok
    obtain ⟨hA', hB', hA0', hB0', hAB'⟩ := hd2.pages
    obtain ⟨d1, d2, -, d4, -⟩ :=
      veeprom_write_core hw hf _ _ _ rfl rfl hA' hB' hA0' hB0' hAB' addr2 n2 data2 hok2
    have m2 : ∀ o, o < 1014 →
        flash_read_8 (veeprom_write hw (veeprom_write hw s addr data n).2 addr2 data2 n2).2.flash
          ((veeprom_write hw (veeprom_write hw s addr data n).2 addr2 data2 n2).2.active_page_addr
            + o)
          = merged (veeprom_write hw s addr data n).2.flash
              (veeprom_write hw s addr data n).2.active_page_addr addr2 n2 data2 o := by
      intro o ho
      rw [d1]
      exact d4 (by omega) o ho
    refine ⟨fun i hi => ?_, fun i hi => ?_⟩
    · rw [m2 (addr + i) (by omega), merged, if_neg (by omega), m1 (addr + i) (by omega), merged,
        if_pos (by omega)]
      congr 2
      omega
    · rw [m2 (addr2 + i) (by omega), merged, if_pos (by omega)]
      congr 2
      omega

set_option maxRecDepth 1000000 in
/-- Witness for C3: the spec scenario, `write(0, [0xAB, 0xCD], 2)` on the store
left by `mass_erase(); init()` over the error-free controller: offsets 0 and 1 of
the new active page hold `0xAB`, `0xCD`, offset 2 holds the old byte. -/
theorem veeprom_write_merges_witness :
    stm32.Framed ∧ Designated scenario_store ∧ 0 + 2 < 1014 ∧
    (veeprom_write stm32 scenario_store 0 [0xAB, 0xCD] 2).1 = true ∧
    flash_read_8 (veeprom_write stm32 scenario_store 0 [0xAB, 0xCD] 2).2.flash
      ((veeprom_write stm32 scenario_store 0 [0xAB, 0xCD] 2).2.active_page_addr + 0) = 0xAB ∧
    flash_read_8 (veeprom_write stm32 scenario_store 0 [0xAB, 0xCD] 2).2.flash
      ((veeprom_write stm32 scenario_store 0 [0xAB, 0xCD] 2).2.active_page_addr + 1) = 0xCD ∧
    flash_read_8 (veeprom_write stm32 scenario_store 0 [0xAB, 0xCD] 2).2.flash
      ((veeprom_write stm32 scenario_store 0 [0xAB, 0xCD] 2).2.active_page_addr + 2)
      = flash_read_8 scenario_store.flash (scenario_store.active_page_addr + 2) :=
  have h := (veeprom_write_merges stm32 stm32_framed scenario_store scenario_store_designated 0 2
    [0xAB, 0xCD] (by decide) (by decide!)).1
  ⟨stm32_framed, scenario_store_designated, by decide, by decide!,
    (h 0 (by decide)).1 (by decide), (h 1 (by decide)).1 (by decide),
    (h 2 (by decide)).2 (by decide)⟩

/-- Claim C10: post-state of a successful write.  For a controller that touches
only what it is asked to and a store designating the two pages: if
`veeprom_write` returns true, the formerly inactive page is active, reads state
VALID and is intact (stored checksum = computed checksum), and the formerly
active page is inactive and reads state INVALID.  Hence a second successful write
makes the first active page active again: the active page alternates. -/
theorem veeprom_write_post_state (hw : FlashHw) (hf : hw.Framed) (s : Veeprom)
    (hd : Designated s) (addr n : Nat) (data : List Nat)
    (hok : (veeprom_write hw s addr data n).1 = true) :
    (veeprom_write hw s addr data n).2.active_page_addr = s.inactive_page_addr ∧
    (veeprom_write hw s addr data n).2.inactive_page_addr = s.active_page_addr ∧
    flash_page_get_state (veeprom_write hw s addr data n).2.flash
      (veeprom_write hw s addr data n).2.active_page_addr = PAGE_STATE_VALID ∧
    flash_page_read_checksum (veeprom_write hw s addr data n).2.flash
      (veeprom_write hw s addr data n).2.active_page_addr
      = flash_page_calc_checksum (veeprom_write hw s addr data n).2.flash
          (veeprom_write hw s addr data n).2.active_page_addr ∧
    flash_page_get_state (veeprom_write hw s addr data n).2.flash
      (veeprom_write hw s addr data n).2.inactive_page_addr = PAGE_STATE_INVALID ∧
    (∀ (addr2 n2 : Nat) (data2 : List Nat),
      (veeprom_write hw (veeprom_write hw s addr data n).2 addr2 data2 n2).1 = true →
      (veeprom_write hw (veeprom_write hw s addr data n).2 addr2 data2 n2).2.active_page_addr
        = s.active_page_addr ∧
      (veeprom_write hw (veeprom_write hw s addr data n).2 addr2 data2 n2).2.inactive_page_addr
        = s.inactive_page_addr) := by
  obtain ⟨hA, hB, hA0, hB0, hAB⟩ := hd.pages
  obtain ⟨c1, c2, -, -, c5, c6, c7, -⟩ :=
    veeprom_write_core hw hf s _ _ rfl rfl hA hB hA0 hB0 hAB addr n data hok
  refine ⟨c1, c2, by rw [c1]; exact c5, by rw [c1]; exact c7, by rw [c2]; exact c6, ?_⟩
  intro addr2 n2 data2 hok2
  have hd2 := veeprom_write_designated hw hf s hd addr n data hok
  obtain ⟨hA', hB', hA0', hB0', hAB'⟩ := hd2.pages
  obtain ⟨d1, d2, -⟩ :=
    veeprom_write_core hw hf _ _ _ rfl rfl hA' hB' hA0' hB0' hAB' addr2 n2 data2 hok2
  exact ⟨d1.trans c2, d2.trans c1⟩

set_option maxRecDepth 1000000 in
/-- Witness for C10: the spec scenario; after `write(0, [0xAB, 0xCD], 2)` on the
scenario store page 2 is active and VALID, page 1 inactive and INVALID. -/
theorem veeprom_write_post_state_witness :
    stm32.Framed ∧ Designated scenario_store ∧
    (veeprom_write stm32 scenario_store 0 [0xAB, 0xCD] 2).1 = true ∧
    scenario_store.active_page_addr = VEEPROM_PAGE_1_ADDR ∧
    (veeprom_write stm32 scenario_store 0 [0xAB, 0xCD] 2).2.active_page_addr
      = scenario_store.inactive_page_addr ∧
    flash_page_get_state (veeprom_write stm32 scenario_store 0 [0xAB, 0xCD] 2).2.flash
      (veeprom_write stm32 scenario_store 0 [0xAB, 0xCD] 2).2.active_page_addr
      = PAGE_STATE_VALID ∧
    flash_page_get_state (veeprom_write stm32 scenario_store 0 [0xAB, 0xCD] 2).2.flash
      (veeprom_write stm32 scenario_store 0 [0xAB, 0xCD] 2).2.inactive_page_addr
      = PAGE_STATE_INVALID :=
  have h := veeprom_write_post_state stm32 stm32_framed scenario_store scenario_store_designated
    0 2 [0xAB, 0xCD] (by decide!)
  ⟨stm32_framed, scenario_store_designated, by decide!, by decide, h.1, h.2.2.1, h.2.2.2.2.1⟩

/-! ## The error-free controller -/

theorem rev16_zero : rev16 0 = 0 := rfl

theorem flash_read_16_store16 (f : Flash) (a v : Nat) (hv : v < 65536) :
    flash_read_16 (store16 f a (rev16 v)) a = v := by
  have h1 : rev16 v % 256 = v / 256 := by
    show (v % 256 * 256 + v / 256 % 256) % 256 = v / 256
    omega
  have h2 : rev16 v / 256 % 256 = v % 256 := by
    have e : (v / 256 % 256 + v % 256 * 256) / 256 = v % 256 := by
      rw [Nat.add_mul_div_right _ _ (by decide : 0 < 256),
        Nat.div_eq_of_lt (Nat.mod_lt _ (by decide)), Nat.zero_add]
    show (v % 256 * 256 + v / 256 % 256) / 256 % 256 = v % 256
    rw [Nat.add_comm, e]
    exact Nat.mod_mod _ _
  have h3 : ¬ (a + 1 = a) := by omega
  rw [flash_read_16_eq]
  unfold store16
  rw [if_pos rfl, if_neg h3, if_pos rfl, h1, h2]
  omega

theorem flash_write_16_zero (hw : FlashHw) (hr : hw.Reliable) (s : Veeprom) (a : Nat) :
    flash_write_16 hw s a 0 =
      (true, { s with flash := store16 s.flash a 0, trace := store16 s.flash a 0 :: s.trace }) := by
  have h := flash_read_16_store16 s.flash a 0 (by decide)
  rw [rev16_zero] at h
  unfold flash_write_16
  rw [rev16_zero, hr.2 s.flash a 0 (Or.inr rfl)]
  simp [h]

theorem flash_write_16_erased (hw : FlashHw) (hr : hw.Reliable) (s : Veeprom) (a v : Nat)
    (hv : v < 65536) (he0 : s.flash a % 256 = 255) (he1 : s.flash (a + 1) % 256 = 255) :
    flash_write_16 hw s a v =
      (true, { s with flash := store16 s.flash a (rev16 v),
                      trace := store16 s.flash a (rev16 v) :: s.trace }) := by
  have h := flash_read_16_store16 s.flash a v hv
  have hl : load16 s.flash a = 0xFFFF := by unfold load16; omega
  unfold flash_write_16
  rw [hr.2 s.flash a _ (Or.inl hl)]
  simp [h]

theorem flash_page_erase_reliable (hw : FlashHw) (hr : hw.Reliable) (s : Veeprom) (a : Nat) :
    flash_page_erase hw s a =
      (true, { s with flash := erase_mem s.flash a, locked := true,
                      trace := erase_mem s.flash a :: s.trace }) := by
  unfold flash_page_erase flash_unlock flash_lock
  simp only [hr.1]

theorem store16_zeroed (f : Flash) (X i : Nat) :
    store16 (zeroed f X i) (X + 1016 + 2 * i) 0 = zeroed f X (i + 1) := by
  funext x
  unfold store16 zeroed
  by_cases h1 : x = X + 1016 + 2 * i
  · simp [h1]
  · by_cases h2 : x = X + 1016 + 2 * i + 1
    · rw [if_neg h1, if_pos h2, if_pos (by omega)]
    · simp only [h1, h2, if_false]
      by_cases h3 : X + 1016 ≤ x ∧ x < X + 1016 + 2 * i
      · rw [if_pos h3, if_pos (by omega)]
      · rw [if_neg h3, if_neg (by omega)]

theorem zeroed_zero (f : Flash) (X : Nat) : zeroed f X 0 = f := by
  funext x
  unfold zeroed
  rw [if_neg (by omega)]

theorem flash_read_16_zeroed (f : Flash) (X k j : Nat) :
    flash_read_16 (zeroed f X k) (X + 1016 + 2 * j)
      = if j < k then 0 else flash_read_16 f (X + 1016 + 2 * j) := by
  rw [flash_read_16_eq, flash_read_16_eq]
  unfold zeroed
  by_cases h : j < k
  · rw [if_pos h, if_pos (by omega), if_pos (by omega)]
  · rw [if_neg h, if_neg (by omega), if_neg (by omega)]

theorem set_fields_reliable (hw : FlashHw) (hr : hw.Reliable) (X k : Nat)
    (hX : X + 1024 ≤ 4294967296) (hk4 : k ≤ 4) (f0 : Flash)
    (hchk : ∀ j, k ≤ j → j < 4 → flash_read_16 f0 (X + 1016 + 2 * j) = 0xFFFF) :
    ∀ (fuel i : Nat) (s : Veeprom), i + fuel = 4 → s.flash = zeroed f0 X (min i k) →
      (set_fields hw X k fuel i s).1 = true ∧
      (set_fields hw X k fuel i s).2.flash = zeroed f0 X k ∧
      (set_fields hw X k fuel i s).2.active_page_addr = s.active_page_addr ∧
      (set_fields hw X k fuel i s).2.inactive_page_addr = s.inactive_page_addr ∧
      (set_fields hw X k fuel i s).2.locked = s.locked ∧
      ∃ added, (set_fields hw X k fuel i s).2.trace = added ++ s.trace ∧
        ∀ g ∈ added, ∃ j, i < j ∧ j ≤ k ∧ g = zeroed f0 X j := by
  intro fuel
  induction fuel with
  | zero =>
    intro i s hi hs
    refine ⟨rfl, ?_, rfl, rfl, rfl, [], rfl, by simp⟩
    show s.flash = _
    rw [hs, Nat.min_eq_right (by omega)]
  | succ m ih =>
    intro i s hi hs
    unfold set_fields
    rw [state_addr X i hX (by omega)]
    by_cases hk : k ≤ i
    · rw [if_pos hk]
      rw [Nat.min_eq_right hk] at hs
      have hrd : flash_read_16 s.flash (X + 1016 + 2 * i) = 0xFFFF := by
        rw [hs, flash_read_16_zeroed, if_neg (by omega)]
        exact hchk i hk (by omega)
      rw [if_neg (by simpa using hrd)]
      obtain ⟨a1, a2, a3, a4, a5, added, a6, a7⟩ :=
        ih (i + 1) s (by omega) (by rw [hs, Nat.min_eq_right (by omega)])
      exact ⟨a1, a2, a3, a4, a5, added, a6, fun g hg => by
        obtain ⟨j, j1, j2, j3⟩ := a7 g hg
        exact ⟨j, by omega, j2, j3⟩⟩
    · rw [if_neg hk]
      rw [Nat.min_eq_left (by omega)] at hs
      rw [flash_write_16_zero hw hr]
      dsimp only
      rw [if_neg (by simp)]
      obtain ⟨a1, a2, a3, a4, a5, added, a6, a7⟩ :=
        ih (i + 1) { s with flash := store16 s.flash (X + 1016 + 2 * i) 0,
                            trace := store16 s.flash (X + 1016 + 2 * i) 0 :: s.trace }
          (by omega)
          (by
            show store16 s.flash (X + 1016 + 2 * i) 0 = _
            rw [hs, store16_zeroed, Nat.min_eq_left (by omega)])
      refine ⟨a1, a2, a3, a4, a5, added ++ [zeroed f0 X (i + 1)], ?_, ?_⟩
      · rw [a6]
        show added ++ (store16 s.flash (X + 1016 + 2 * i) 0 :: s.trace) = _
        rw [hs, store16_zeroed]
        simp
      · intro g hg
        rcases List.mem_append.mp hg with hg | hg
        · obtain ⟨j, j1, j2, j3⟩ := a7 g hg
          exact ⟨j, by omega, j2, j3⟩
        · exact ⟨i + 1, by omega, by omega, by simpa using hg⟩

theorem flash_page_set_state_reliable (hw : FlashHw) (hr : hw.Reliable) (s : Veeprom)
    (X k : Nat) (hX : X + 1024 ≤ 4294967296) (hk4 : k ≤ 4)
    (hchk : ∀ j, k ≤ j → j < 4 → flash_read_16 s.flash (X + 1016 + 2 * j) = 0xFFFF) :
    (flash_page_set_state hw s X (canonical_state k)).1 = true ∧
    (flash_page_set_state hw s X (canonical_state k)).2.flash = zeroed s.flash X k ∧
    (flash_page_set_state hw s X (canonical_state k)).2.active_page_addr = s.active_page_addr ∧
    (flash_page_set_state hw s X (canonical_state k)).2.inactive_page_addr
      = s.inactive_page_addr ∧
    (flash_page_set_state hw s X (canonical_state k)).2.locked = s.locked ∧
    ∃ added, (flash_page_set_state hw s X (canonical_state k)).2.trace = added ++ s.trace ∧
      ∀ g ∈ added, ∃ j, 0 < j ∧ j ≤ k ∧ g = zeroed s.flash X j := by
  rw [flash_page_set_state_canonical hw s X k hk4]
  exact set_fields_reliable hw hr X k hX hk4 s.flash hchk 4 0 s rfl
    (by rw [Nat.zero_min, zeroed_zero])

theorem veeprom_write_byte_lt (s : Veeprom) (addr n : Nat) (data : List Nat) (di offset : Nat) :
    (veeprom_write_byte s addr n data di offset).1 < 256 := by
  unfold veeprom_write_byte flash_read_8
  split <;> exact Nat.mod_lt _ (by decide)

theorem veeprom_write_word_lt (s : Veeprom) (addr n : Nat) (data : List Nat) (di offset : Nat) :
    (veeprom_write_word s addr n data di offset).1 < 65536 := by
  have h0 := veeprom_write_byte_lt s addr n data di offset
  have h1 := veeprom_write_byte_lt s addr n data
    (veeprom_write_byte s addr n data di offset).2 (offset + 1)
  unfold veeprom_write_word
  dsimp only
  rw [word_eq _ _ h0 h1]
  omega

theorem store16_frame (s : Veeprom) (a v : Nat) :
    Frame (fun x => x = a ∨ x = a + 1) s
      { s with flash := store16 s.flash a v, trace := store16 s.flash a v :: s.trace } := by
  have key : ∀ x, ¬ (x = a ∨ x = a + 1) → store16 s.flash a v x = s.flash x := by
    intro x hx
    unfold store16
    rw [if_neg (fun h => hx (Or.inl h)), if_neg (fun h => hx (Or.inr h))]
  exact ⟨rfl, rfl, key, [store16 s.flash a v], rfl, by simpa using key⟩

theorem veeprom_write_loop_reliable (hw : FlashHw) (hr : hw.Reliable) (addr n : Nat)
    (data : List Nat) (B : Nat) (hB : B + 1024 ≤ 4294967296) :
    ∀ (fuel di offset : Nat) (s : Veeprom), s.inactive_page_addr = B → offset % 2 = 0 →
      (∀ x, B + offset ≤ x → x < B + 1014 → s.flash x % 256 = 255) →
      (veeprom_write_loop hw addr n data fuel di offset s).1 = true ∧
      Frame (fun x => B + offset ≤ x ∧ x < B + 1014) s
        (veeprom_write_loop hw addr n data fuel di offset s).2 := by
  intro fuel
  induction fuel with
  | zero => intro di offset s _ _ _; exact ⟨rfl, Frame.refl _ s⟩
  | succ k ih =>
    intro di offset s hs hpar her
    by_cases ho : offset < 1014
    · rw [veeprom_write_loop_succ hw addr n data k di offset s (by rw [hs]; exact hB) ho _ rfl]
      have hwlt := veeprom_write_word_lt s addr n data di offset
      generalize veeprom_write_word s addr n data di offset = w at hwlt
      rw [hs]
      by_cases hne : w.1 ≠ flash_read_16 s.flash (B + offset)
      · rw [if_pos hne, flash_write_16_erased hw hr s (B + offset) w.1 hwlt
          (her _ (by omega) (by omega)) (her _ (by omega) (by omega))]
        dsimp only
        rw [if_neg (by simp)]
        have hfr0 := store16_frame s (B + offset) (rev16 w.1)
        have hfr := hfr0.mono
          (Q := fun x => B + offset ≤ x ∧ x < B + 1014) (fun x hx => by omega)
        obtain ⟨i1, i2⟩ := ih w.2 (offset + 2) _ (hfr.2.1.trans hs) (by omega)
          (fun x h1 h2 => by rw [hfr0.2.2.1 x (by omega)]; exact her x (by omega) h2)
        exact ⟨i1, hfr.trans (i2.mono (fun x hx => by omega))⟩
      · rw [if_neg hne]
        obtain ⟨i1, i2⟩ := ih w.2 (offset + 2) s hs (by omega)
          (fun x h1 h2 => her x (by omega) h2)
        exact ⟨i1, i2.mono (fun x hx => by omega)⟩
    · rw [veeprom_write_loop_stop hw addr n data _ di offset s (by omega)]
      exact ⟨rfl, Frame.refl _ s⟩

theorem flash_page_calc_checksum_loop_lt (f : Flash) :
    ∀ (n a c : Nat), c < 65536 → flash_page_calc_checksum_loop f n a c < 65536 := by
  intro n
  induction n with
  | zero => intro a c hc; exact hc
  | succ k ih =>
    intro a c _
    unfold flash_page_calc_checksum_loop
    exact ih _ _ (Nat.mod_lt _ (by decide))

theorem flash_page_calc_checksum_lt (f : Flash) (X : Nat) :
    flash_page_calc_checksum f X < 65536 :=
  flash_page_calc_checksum_loop_lt f _ X 0 (by decide)

theorem zeroed_off (f : Flash) (X j x : Nat)
    (hx : ¬ (X + 1016 ≤ x ∧ x < X + 1016 + 2 * j)) : zeroed f X j x = f x := by
  unfold zeroed
  rw [if_neg hx]

theorem zeroed_congr (f g : Flash) (X j x : Nat) (h : g x = f x) :
    zeroed g X j x = zeroed f X j x := by
  unfold zeroed
  rw [h]

theorem zeroed_zeroed (f : Flash) (X a b x : Nat) :
    zeroed (zeroed f X a) X b x = zeroed f X (max a b) x := by
  unfold zeroed
  by_cases h1 : X + 1016 ≤ x ∧ x < X + 1016 + 2 * b
  · rw [if_pos h1, if_pos (by omega)]
  · rw [if_neg h1]
    by_cases h2 : X + 1016 ≤ x ∧ x < X + 1016 + 2 * a
    · rw [if_pos h2, if_pos (by omega)]
    · rw [if_neg h2, if_neg (by omega)]

theorem flash_read_16_of_bytes (f : Flash) (a : Nat) (h0 : f a = 0xFF) (h1 : f (a + 1) = 0xFF) :
    flash_read_16 f a = 0xFFFF := by
  rw [flash_read_16_eq, h0, h1]

theorem veeprom_write_trace (hw : FlashHw) (hf : hw.Framed) (hr : hw.Reliable) (s : Veeprom)
    (A B : Nat) (hsA : s.active_page_addr = A) (hsB : s.inactive_page_addr = B)
    (hA : A + 1024 ≤ 4294967296) (hB : B + 1024 ≤ 4294967296)
    (hA0 : A % 1024 = 0) (hB0 : B % 1024 = 0) (hAB : A ≠ B)
    (hA3 : flash_read_16 s.flash (A + 1016 + 2 * 3) = 0xFFFF)
    (addr n : Nat) (data : List Nat) (hn : addr + n < 4294967296) :
    (veeprom_write hw s addr data n).1 = true ∧
    ∃ added, (veeprom_write hw s addr data n).2.trace = added ++ s.trace ∧
      erase_mem s.flash B ∈ added ∧
      ∀ g ∈ added, CrashShape s.flash A B addr n data g := by
  generalize hres : veeprom_write hw s addr data n = res
  unfold veeprom_write at hres
  lift_lets at hres
  extract_lets r1 s2 r3 r4 r5 checksum r6 r7 r8 tmp src s9 at hres
  -- step 1: erase of the inactive page
  have e1 : r1 = (true, { s with
      flash := erase_mem s.flash B, locked := true, trace := erase_mem s.flash B :: s.trace }) := by
    show flash_page_erase hw s s.inactive_page_addr = _
    rw [flash_page_erase_reliable hw hr, hsB]
  have k1A : ∀ x, A ≤ x → x < A + 1024 → erase_mem s.flash B x = s.flash x := by
    intro x h1 h2
    unfold erase_mem
    rw [if_neg (by omega)]
  have k1B : ∀ x, B ≤ x → x < B + 1024 → erase_mem s.flash B x = 0xFF := by
    intro x h1 h2
    unfold erase_mem
    rw [if_pos (by omega)]
  have c1 : CrashShape s.flash A B addr n data (erase_mem s.flash B) :=
    ⟨0, 0, fun x h1 h2 => by rw [zeroed_zero]; exact k1A x h1 h2,
      fun x h1 h2 => by rw [zeroed_zero]; exact k1B x (by omega) h2, Or.inl ⟨by omega, by omega⟩⟩
  have hs2 : s2 = { s with
      flash := erase_mem s.flash B, locked := false, trace := erase_mem s.flash B :: s.trace } := by
    show (flash_unlock r1.2).2 = _
    rw [e1]; rfl
  have hs2f : s2.flash = erase_mem s.flash B := by rw [hs2]
  have hs2A : s2.active_page_addr = A := by rw [hs2]; exact hsA
  have hs2B : s2.inactive_page_addr = B := by rw [hs2]; exact hsB
  have hs2t : s2.trace = [erase_mem s.flash B] ++ s.trace := by rw [hs2]; rfl
  -- step 3: the active page goes to COPY
  have e3 : r3 = flash_page_set_state hw s2 A (canonical_state 3) := by
    show flash_page_set_state hw s2 s2.active_page_addr _ = _
    rw [hs2A]; rfl
  obtain ⟨t3, fl3, a3, i3, -, added3, tr3, sh3⟩ :=
    flash_page_set_state_reliable hw hr s2 A 3 hA (by omega) (fun j j1 j2 => by
      have : j = 3 := by omega
      subst this
      rw [flash_read_16_congr s.flash s2.flash _ (by rw [hs2f]; exact k1A _ (by omega) (by omega))
        (by rw [hs2f]; exact k1A _ (by omega) (by omega))]
      exact hA3)
  rw [← e3] at t3 fl3 a3 i3 tr3
  have IA3 : ∀ x, A ≤ x → x < A + 1024 → r3.2.flash x = zeroed s.flash A 3 x := by
    intro x h1 h2
    rw [fl3]
    exact zeroed_congr _ _ _ _ _ (by rw [hs2f]; exact k1A x h1 h2)
  have IB3 : ∀ x, B ≤ x → x < B + 1024 → r3.2.flash x = 0xFF := by
    intro x h1 h2
    rw [fl3, zeroed_off _ _ _ _ (by omega), hs2f]
    exact k1B x h1 h2
  have c3 : ∀ g ∈ added3, CrashShape s.flash A B addr n data g := by
    intro g hg
    obtain ⟨j, j1, j2, rfl⟩ := sh3 g hg
    refine ⟨j, 0, fun x h1 h2 => ?_, fun x h1 h2 => ?_, Or.inl ⟨j2, by omega⟩⟩
    · exact zeroed_congr _ _ _ _ _ (by rw [hs2f]; exact k1A x h1 h2)
    · rw [zeroed_off _ _ _ _ (by omega), zeroed_zero, hs2f]
      exact k1B x (by omega) h2
  -- step 4: the inactive page goes to WRITE
  have h3A : r3.2.active_page_addr = A := a3.trans hs2A
  have h3B : r3.2.inactive_page_addr = B := i3.trans hs2B
  have e4 : r4 = flash_page_set_state hw r3.2 B (canonical_state 1) := by
    show flash_page_set_state hw r3.2 r3.2.inactive_page_addr _ = _
    rw [h3B]; rfl
  obtain ⟨t4, fl4, a4, i4, -, added4, tr4, sh4⟩ :=
    flash_page_set_state_reliable hw hr r3.2 B 1 hB (by omega) (fun j j1 j2 =>
      flash_read_16_of_bytes _ _ (IB3 _ (by omega) (by omega)) (IB3 _ (by omega) (by omega)))
  rw [← e4] at t4 fl4 a4 i4 tr4
  have IA4 : ∀ x, A ≤ x → x < A + 1024 → r4.2.flash x = zeroed s.flash A 3 x := by
    intro x h1 h2
    rw [fl4, zeroed_off _ _ _ _ (by omega)]
    exact IA3 x h1 h2
  have IB4 : ∀ x, B + 1016 ≤ x → x < B + 1024 → r4.2.flash x = zeroed blank B 1 x := by
    intro x h1 h2
    rw [fl4]
    exact zeroed_congr _ _ _ _ _ (IB3 x (by omega) h2)
  have IP4 : ∀ x, B ≤ x → x < B + 1016 → r4.2.flash x = 0xFF := by
    intro x h1 h2
    rw [fl4, zeroed_off _ _ _ _ (by omega)]
    exact IB3 x h1 (by omega)
  have c4 : ∀ g ∈ added4, CrashShape s.flash A B addr n data g := by
    intro g hg
    obtain ⟨j, j1, j2, rfl⟩ := sh4 g hg
    have : j = 1 := by omega
    subst this
    rw [← fl4]
    exact ⟨3, 1, IA4, IB4, Or.inl ⟨by omega, by omega⟩⟩
  -- step 5: the copy loop
  have h4A : r4.2.active_page_addr = A := a4.trans h3A
  have h4B : r4.2.inactive_page_addr = B := i4.trans h3B
  obtain ⟨t5, fr5⟩ := veeprom_write_loop_reliable hw hr addr n data B hB VEEPROM_PAGE_SIZE 0 0
    r4.2 h4B (by omega) (fun x h1 h2 => by rw [IP4 x (by omega) (by omega)])
  have p5 : ∀ o, o < 1014 → flash_read_8 r5.2.flash (B + o) = merged s.flash A addr n data o := by
    intro o ho
    rw [veeprom_write_loop_payload hw hf addr n data hn A B hA hB (by omega)
      VEEPROM_PAGE_SIZE 0 0 r4.2 h4A h4B
      (by simp [VEEPROM_PAGE_SIZE, FLASH_PAGE_SIZE, VEEPROM_SERVICE_HEADER_SIZE])
      (fun _ => rfl) (fun h => by omega) t5 o (by omega) ho]
    exact merged_congr _ _ _ _ _ _ _
      (by rw [IA4 _ (by omega) (by omega), zeroed_off _ _ _ _ (by omega)])
  obtain ⟨a5, i5, fl5, added5, tr5, sh5⟩ := fr5
  have IA5 : ∀ x, A ≤ x → x < A + 1024 → r5.2.flash x = zeroed s.flash A 3 x := by
    intro x h1 h2
    rw [fl5 x (by omega)]
    exact IA4 x h1 h2
  have IB5 : ∀ x, B + 1016 ≤ x → x < B + 1024 → r5.2.flash x = zeroed blank B 1 x := by
    intro x h1 h2
    rw [fl5 x (by omega)]
    exact IB4 x h1 h2
  have IC5 : ∀ x, B + 1014 ≤ x → x < B + 1016 → r5.2.flash x = 0xFF := by
    intro x h1 h2
    rw [fl5 x (by omega)]
    exact IP4 x (by omega) h2
  have c5 : ∀ g ∈ added5, CrashShape s.flash A B addr n data g := by
    intro g hg
    refine ⟨3, 1, fun x h1 h2 => ?_, fun x h1 h2 => ?_, Or.inl ⟨by omega, by omega⟩⟩
    · rw [sh5 g hg x (by omega)]
      exact IA4 x h1 h2
    · rw [sh5 g hg x (by omega)]
      exact IB4 x h1 h2
  -- step 6: the checksum
  have h5A : r5.2.active_page_addr = A := a5.trans h4A
  have h5B : r5.2.inactive_page_addr = B := i5.trans h4B
  have e6 : r6 = (true, { r5.2 with
      flash := store16 r5.2.flash (B + 1014) (rev16 (flash_page_calc_checksum r5.2.flash B)),
      trace := store16 r5.2.flash (B + 1014) (rev16 (flash_page_calc_checksum r5.2.flash B))
        :: r5.2.trace }) := by
    show flash_write_16 hw r5.2 (add32 r5.2.inactive_page_addr PAGE_CHECKSUM_OFFSET)
      (flash_page_calc_checksum r5.2.flash r5.2.inactive_page_addr) = _
    rw [h5B, checksum_addr B hB]
    exact flash_write_16_erased hw hr r5.2 (B + 1014) _ (flash_page_calc_checksum_lt _ _)
      (by rw [IC5 _ (by omega) (by omega)]) (by rw [IC5 _ (by omega) (by omega)])
  have fl6 : ∀ x, ¬ (x = B + 1014 ∨ x = B + 1014 + 1) → r6.2.flash x = r5.2.flash x := by
    intro x hx
    rw [e6]
    exact (store16_frame r5.2 (B + 1014) _).2.2.1 x hx
  have tr6 : r6.2.trace = [r6.2.flash] ++ r5.2.trace := by rw [e6]; rfl
  have h6A : r6.2.active_page_addr = A := by rw [e6]; exact h5A
  have h6B : r6.2.inactive_page_addr = B := by rw [e6]; exact h5B
  have IA6 : ∀ x, A ≤ x → x < A + 1024 → r6.2.flash x = zeroed s.flash A 3 x := by
    intro x h1 h2
    rw [fl6 x (by omega)]
    exact IA5 x h1 h2
  have IB6 : ∀ x, B + 1016 ≤ x → x < B + 1024 → r6.2.flash x = zeroed blank B 1 x := by
    intro x h1 h2
    rw [fl6 x (by omega)]
    exact IB5 x h1 h2
  have p6 : ∀ o, o < 1014 → flash_read_8 r6.2.flash (B + o) = merged s.flash A addr n data o := by
    intro o ho
    rw [← p5 o ho]
    unfold flash_read_8
    rw [fl6 _ (by omega)]
  have c6 : CrashShape s.flash A B addr n data r6.2.flash :=
    ⟨3, 1, IA6, IB6, Or.inl ⟨by omega, by omega⟩⟩
  -- step 7: the inactive page goes to VALID
  have e7 : r7 = flash_page_set_state hw r6.2 B (canonical_state 2) := by
    show flash_page_set_state hw r6.2 r6.2.inactive_page_addr _ = _
    rw [h6B]; rfl
  obtain ⟨t7, fl7, a7, i7, -, added7, tr7, sh7⟩ :=
    flash_page_set_state_reliable hw hr r6.2 B 2 hB (by omega) (fun j j1 j2 =>
      flash_read_16_of_bytes _ _
        (by rw [IB6 _ (by omega) (by omega), zeroed_off _ _ _ _ (by omega)]; rfl)
        (by rw [IB6 _ (by omega) (by omega), zeroed_off _ _ _ _ (by omega)]; rfl))
  rw [← e7] at t7 fl7 a7 i7 tr7
  have S7 : ∀ j, 0 < j → j ≤ 2 →
      (∀ x, A ≤ x → x < A + 1024 → zeroed r6.2.flash B j x = zeroed s.flash A 3 x) ∧
      (∀ x, B + 1016 ≤ x → x < B + 1024 →
        zeroed r6.2.flash B j x = zeroed blank B (max 1 j) x) ∧
      (∀ o, o < 1014 →
        flash_read_8 (zeroed r6.2.flash B j) (B + o) = merged s.flash A addr n data o) := by
    intro j j1 j2
    refine ⟨fun x h1 h2 => ?_, fun x h1 h2 => ?_, fun o ho => ?_⟩
    · rw [zeroed_off _ _ _ _ (by omega)]
      exact IA6 x h1 h2
    · rw [← zeroed_zeroed]
      exact zeroed_congr _ _ _ _ _ (IB6 x h1 h2)
    · rw [← p6 o ho]
      unfold flash_read_8
      rw [zeroed_off _ _ _ _ (by omega)]
  have c7 : ∀ g ∈ added7, CrashShape s.flash A B addr n data g := by
    intro g hg
    obtain ⟨j, j1, j2, rfl⟩ := sh7 g hg
    obtain ⟨u1, u2, u3⟩ := S7 j j1 j2
    refine ⟨3, max 1 j, u1, u2, ?_⟩
    rcases Nat.lt_or_ge j 2 with h | h
    · exact Or.inl ⟨by omega, by omega⟩
    · exact Or.inr ⟨by omega, by omega, by omega, u3⟩
  obtain ⟨IA7, IB7, p7⟩ := S7 2 (by omega) (by omega)
  rw [← fl7] at IA7 IB7 p7
  -- step 8: the active page goes to INVALID
  have h7A : r7.2.active_page_addr = A := a7.trans h6A
  have e8 : r8 = flash_page_set_state hw r7.2 A (canonical_state 4) := by
    show flash_page_set_state hw r7.2 r7.2.active_page_addr _ = _
    rw [h7A]; rfl
  obtain ⟨t8, fl8, a8, i8, -, added8, tr8, sh8⟩ :=
    flash_page_set_state_reliable hw hr r7.2 A 4 hA (by omega) (fun j j1 j2 => by omega)
  rw [← e8] at t8 fl8 a8 i8 tr8
  have c8 : ∀ g ∈ added8, CrashShape s.flash A B addr n data g := by
    intro g hg
    obtain ⟨j, j1, j2, rfl⟩ := sh8 g hg
    refine ⟨max 3 j, 2, fun x h1 h2 => ?_, fun x h1 h2 => ?_,
      Or.inr ⟨by omega, by omega, rfl, fun o ho => ?_⟩⟩
    · rw [← zeroed_zeroed]
      exact zeroed_congr _ _ _ _ _ (IA7 x h1 h2)
    · rw [zeroed_off _ _ _ _ (by omega)]
      exact IB7 x h1 h2
    · rw [← p7 o ho]
      unfold flash_read_8
      rw [zeroed_off _ _ _ _ (by omega)]
  -- the result
  have t6 : r6.1 = true := by rw [e6]
  have t1 : r1.1 = true := by rw [e1]
  have t5b : r5.1 = true := t5
  have nf : ∀ r : Bool × Veeprom, r.1 = true → ¬ r.1 = false := fun r h => by rw [h]; decide
  rw [if_neg (nf r1 t1), if_neg (nf r3 t3), if_neg (nf r4 t4), if_neg (nf r5 t5b),
    if_neg (nf r6 t6), if_neg (nf r7 t7), if_neg (nf r8 t8)] at hres
  rw [← hres]
  refine ⟨rfl, added8 ++ added7 ++ [r6.2.flash] ++ added5 ++ added4 ++ added3
    ++ [erase_mem s.flash B], ?_, by simp, ?_⟩
  · show r8.2.trace = _
    rw [tr8, tr7, tr6, tr5, tr4, tr3, hs2t]
    simp
  · intro g hg
    simp only [List.mem_append, List.mem_singleton] at hg
    rcases hg with (((((hg | hg) | hg) | hg) | hg) | hg) | hg
    · exact c8 g hg
    · exact c7 g hg
    · rw [hg]; exact c6
    · exact c5 g hg
    · exact c4 g hg
    · exact c3 g hg
    · rw [hg]; exact c1

/-! ## What `veeprom_init` designates -/

theorem fields_of_state (f : Flash) (X m : Nat) (hX : X + 1024 ≤ 4294967296) (hm : m ≤ 4)
    (h : flash_page_get_state f X = canonical_state m) :
    ∀ j, j < 4 → flash_read_16 f (X + 1016 + 2 * j) = if j < m then 0 else 0xFFFF := by
  have e0 : add32 X 1016 = X + 1016 + 2 * 0 := by unfold add32; omega
  have e1 : add32 X 1018 = X + 1016 + 2 * 1 := by unfold add32; omega
  have e2 : add32 X 1020 = X + 1016 + 2 * 2 := by unfold add32; omega
  have e3 : add32 X 1022 = X + 1016 + 2 * 3 := by unfold add32; omega
  rw [flash_page_get_state_eq, e0, e1, e2, e3] at h
  have b0 := flash_read_16_lt f (X + 1016 + 2 * 0)
  have b1 := flash_read_16_lt f (X + 1016 + 2 * 1)
  have b2 := flash_read_16_lt f (X + 1016 + 2 * 2)
  have b3 := flash_read_16_lt f (X + 1016 + 2 * 3)
  intro j hj
  interval_cases m <;>
    simp only [canonical_state, PAGE_STATE_ERASED, PAGE_STATE_WRITE, PAGE_STATE_VALID,
      PAGE_STATE_COPY, PAGE_STATE_INVALID] at h <;>
    interval_cases j <;>
    (first | rw [if_pos (by decide)] | rw [if_neg (by decide)]) <;> omega

theorem canonical_state_inj (a b : Nat) (ha : a ≤ 4) (hb : b ≤ 4)
    (h : canonical_state a = canonical_state b) : a = b := by
  interval_cases a <;> interval_cases b <;> first | rfl | (exfalso; revert h; decide)

theorem veeprom_init_selects (hw : FlashHw) (t : Veeprom) (A B : Nat)
    (hAB : (A = VEEPROM_PAGE_1_ADDR ∧ B = VEEPROM_PAGE_2_ADDR) ∨
      (A = VEEPROM_PAGE_2_ADDR ∧ B = VEEPROM_PAGE_1_ADDR))
    (hsel : Selects t.flash A B) :
    (veeprom_init hw t).2.active_page_addr = A ∧ (veeprom_init hw t).2.inactive_page_addr = B ∧
    (veeprom_init hw t).2.flash = t.flash := by
  have hvc : PAGE_STATE_COPY ≠ PAGE_STATE_VALID := by decide
  have h12 : VEEPROM_PAGE_2_ADDR ≠ VEEPROM_PAGE_1_ADDR := by decide
  unfold veeprom_init
  rcases hAB with ⟨rfl, rfl⟩ | ⟨rfl, rfl⟩
  · rcases hsel with ⟨h1, _⟩ | ⟨h1, h2, _⟩
    · simp [h1, veeprom_init_check]
    · simp [h1, h2, hvc, veeprom_init_check]
  · rcases hsel with ⟨h1, h2⟩ | ⟨h1, h2, h3⟩
    · simp [h12] at h2
      simp [h1, h2, veeprom_init_check]
    · simp [h12] at h3
      simp [h1, h2, h3, hvc, veeprom_init_check]

theorem veeprom_init_fresh (hw : FlashHw) (hr : hw.Reliable) (t : Veeprom)
    (h1 : flash_page_get_state t.flash VEEPROM_PAGE_1_ADDR ≠ PAGE_STATE_VALID)
    (h2 : flash_page_get_state t.flash VEEPROM_PAGE_2_ADDR ≠ PAGE_STATE_VALID)
    (h3 : flash_page_get_state t.flash VEEPROM_PAGE_1_ADDR ≠ PAGE_STATE_COPY)
    (h4 : flash_page_get_state t.flash VEEPROM_PAGE_2_ADDR ≠ PAGE_STATE_COPY) :
    (veeprom_init hw t).1 = true ∧
    (veeprom_init hw t).2.active_page_addr = VEEPROM_PAGE_1_ADDR ∧
    (veeprom_init hw t).2.inactive_page_addr = VEEPROM_PAGE_2_ADDR ∧
    (veeprom_init hw t).2.flash = erase_mem t.flash VEEPROM_PAGE_1_ADDR := by
  unfold veeprom_init
  simp [h1, h2, h3, h4, flash_page_erase_reliable hw hr]

theorem veeprom_init_outcome (hw : FlashHw) (hr : hw.Reliable) (s0 : Veeprom) :
    Designated (veeprom_init hw s0).2 ∧
    (((veeprom_init hw s0).2.flash = s0.flash ∧
        Selects s0.flash (veeprom_init hw s0).2.active_page_addr
          (veeprom_init hw s0).2.inactive_page_addr) ∨
      ((veeprom_init hw s0).2.active_page_addr = VEEPROM_PAGE_1_ADDR ∧
        (veeprom_init hw s0).2.flash = erase_mem s0.flash VEEPROM_PAGE_1_ADDR ∧
        flash_page_get_state s0.flash VEEPROM_PAGE_2_ADDR ≠ PAGE_STATE_VALID ∧
        flash_page_get_state s0.flash VEEPROM_PAGE_2_ADDR ≠ PAGE_STATE_COPY)) := by
  by_cases h1 : flash_page_get_state s0.flash VEEPROM_PAGE_1_ADDR = PAGE_STATE_VALID
  · obtain ⟨a, b, c⟩ := veeprom_init_selects hw s0 _ _ (Or.inl ⟨rfl, rfl⟩)
      (Or.inl ⟨h1, Or.inl rfl⟩)
    exact ⟨Or.inl ⟨a, b⟩, Or.inl ⟨c, by rw [a, b]; exact Or.inl ⟨h1, Or.inl rfl⟩⟩⟩
  · by_cases h2 : flash_page_get_state s0.flash VEEPROM_PAGE_2_ADDR = PAGE_STATE_VALID
    · obtain ⟨a, b, c⟩ := veeprom_init_selects hw s0 _ _ (Or.inr ⟨rfl, rfl⟩)
        (Or.inl ⟨h2, Or.inr h1⟩)
      exact ⟨Or.inr ⟨a, b⟩, Or.inl ⟨c, by rw [a, b]; exact Or.inl ⟨h2, Or.inr h1⟩⟩⟩
    · by_cases h3 : flash_page_get_state s0.flash VEEPROM_PAGE_1_ADDR = PAGE_STATE_COPY
      · obtain ⟨a, b, c⟩ := veeprom_init_selects hw s0 _ _ (Or.inl ⟨rfl, rfl⟩)
          (Or.inr ⟨h3, h2, Or.inl rfl⟩)
        exact ⟨Or.inl ⟨a, b⟩, Or.inl ⟨c, by rw [a, b]; exact Or.inr ⟨h3, h2, Or.inl rfl⟩⟩⟩
      · by_cases h4 : flash_page_get_state s0.flash VEEPROM_PAGE_2_ADDR = PAGE_STATE_COPY
        · obtain ⟨a, b, c⟩ := veeprom_init_selects hw s0 _ _ (Or.inr ⟨rfl, rfl⟩)
            (Or.inr ⟨h4, h1, Or.inr h3⟩)
          exact ⟨Or.inr ⟨a, b⟩, Or.inl ⟨c, by rw [a, b]; exact Or.inr ⟨h4, h1, Or.inr h3⟩⟩⟩
        · obtain ⟨_, a, b, c⟩ := veeprom_init_fresh hw hr s0 h1 h2 h3 h4
          exact ⟨Or.inl ⟨a, b⟩, Or.inr ⟨a, c, h2, h4⟩⟩

/-! ## Polarity of the integrity check -/

/-- When the state tests pick page `A`, `veeprom_init` returns true exactly when
the stored checksum of `A` differs from the computed one. -/
theorem veeprom_init_polarity (hw : FlashHw) (t : Veeprom) (A B : Nat)
    (hAB : (A = VEEPROM_PAGE_1_ADDR ∧ B = VEEPROM_PAGE_2_ADDR) ∨
      (A = VEEPROM_PAGE_2_ADDR ∧ B = VEEPROM_PAGE_1_ADDR))
    (hsel : Selects t.flash A B) :
    (veeprom_init hw t).1 = true ↔ ¬ Intact t.flash A := by
  have hvc : PAGE_STATE_COPY ≠ PAGE_STATE_VALID := by decide
  have h12 : VEEPROM_PAGE_2_ADDR ≠ VEEPROM_PAGE_1_ADDR := by decide
  unfold veeprom_init Intact
  rcases hAB with ⟨rfl, rfl⟩ | ⟨rfl, rfl⟩
  · rcases hsel with ⟨h1, _⟩ | ⟨h1, h2, _⟩
    · simp [h1, veeprom_init_check]
    · simp [h1, h2, hvc, veeprom_init_check]
  · rcases hsel with ⟨h1, h2⟩ | ⟨h1, h2, h3⟩
    · simp [h12] at h2
      simp [h1, h2, veeprom_init_check]
    · simp [h12] at h3
      simp [h1, h2, h3, hvc, veeprom_init_check]

/-! ## Writes on reachable stores -/

theorem erase_mem_state (f : Flash) (X : Nat) (hX : X + 1024 ≤ 4294967296) (hX0 : X % 1024 = 0) :
    flash_page_get_state (erase_mem f X) X = canonical_state 0 := by
  refine flash_page_get_state_of_fields _ X 0 hX (by omega) (fun j hj => ?_)
  rw [if_neg (by omega)]
  refine flash_read_16_of_bytes _ _ ?_ ?_ <;>
  · unfold erase_mem
    rw [if_pos (by omega)]

theorem reachable_inv (hw : FlashHw) (hf : hw.Framed) (hr : hw.Reliable) (s : Veeprom)
    (h : Reachable hw s) :
    Designated s ∧
    (flash_page_get_state s.flash s.active_page_addr = canonical_state 0 ∨
      flash_page_get_state s.flash s.active_page_addr = canonical_state 2 ∨
      flash_page_get_state s.flash s.active_page_addr = canonical_state 3) := by
  induction h with
  | init s0 =>
    obtain ⟨hd, hc⟩ := veeprom_init_outcome hw hr s0
    refine ⟨hd, ?_⟩
    rcases hc with ⟨c1, c2⟩ | ⟨c1, c2, -⟩
    · rw [c1]
      rcases c2 with ⟨c3, -⟩ | ⟨c3, -⟩
      · exact Or.inr (Or.inl c3)
      · exact Or.inr (Or.inr c3)
    · rw [c1, c2]
      exact Or.inl (erase_mem_state _ _ (by decide) (by decide))
  | write s addr data n _ hok ih =>
    obtain ⟨hd, -⟩ := ih
    obtain ⟨hA, hB, hA0, hB0, hAB⟩ := hd.pages
    obtain ⟨c1, -, -, -, c5, -⟩ :=
      veeprom_write_core hw hf s _ _ rfl rfl hA hB hA0 hB0 hAB addr n data hok
    refine ⟨veeprom_write_designated hw hf s hd addr n data hok, Or.inr (Or.inl ?_)⟩
    rw [c1]
    exact c5

theorem last_field_of_state (f : Flash) (X : Nat) (hX : X + 1024 ≤ 4294967296)
    (h : flash_page_get_state f X = canonical_state 0 ∨
      flash_page_get_state f X = canonical_state 2 ∨
      flash_page_get_state f X = canonical_state 3) :
    flash_read_16 f (X + 1016 + 2 * 3) = 0xFFFF := by
  rcases h with h | h | h
  · rw [fields_of_state f X 0 hX (by omega) h 3 (by omega), if_neg (by omega)]
  · rw [fields_of_state f X 2 hX (by omega) h 3 (by omega), if_neg (by omega)]
  · rw [fields_of_state f X 3 hX (by omega) h 3 (by omega), if_neg (by omega)]

/-- Claim C9: over the error-free controller, on every store reachable from
`veeprom_init` by successful writes the active page reads ERASED, VALID or COPY,
and `veeprom_write(addr, data, n)` with `addr + n < 1014` returns true (so no
`flash_page_set_state` call of the protocol fails an all-ones check, each of
which would make it return false). -/
theorem veeprom_write_succeeds (s : Veeprom) (hs : Reachable stm32 s) (addr n : Nat)
    (data : List Nat) (hn : addr + n < 1014) :
    (flash_page_get_state s.flash s.active_page_addr = PAGE_STATE_ERASED ∨
      flash_page_get_state s.flash s.active_page_addr = PAGE_STATE_VALID ∨
      flash_page_get_state s.flash s.active_page_addr = PAGE_STATE_COPY) ∧
    (veeprom_write stm32 s addr data n).1 = true := by
  obtain ⟨hd, hst⟩ := reachable_inv stm32 stm32_framed stm32_reliable s hs
  obtain ⟨hA, hB, hA0, hB0, hAB⟩ := hd.pages
  exact ⟨hst, (veeprom_write_trace stm32 stm32_framed stm32_reliable s _ _ rfl rfl hA hB hA0 hB0
    hAB (last_field_of_state _ _ hA hst) addr n data (by omega)).1⟩

/-- Witness for C9: the scenario store is what `veeprom_init` leaves after a mass
erase, and `write(0, [0xAB, 0xCD], 2)` on it returns true. -/
theorem veeprom_write_succeeds_witness :
    Reachable stm32 scenario_store ∧ 0 + 2 < 1014 ∧
    (veeprom_write stm32 scenario_store 0 [0xAB, 0xCD] 2).1 = true :=
  ⟨Reachable.init _, by decide,
    (veeprom_write_succeeds scenario_store (Reachable.init _) 0 2 [0xAB, 0xCD] (by decide)).2⟩

/-! ## Crash points -/

theorem state_of_zeroed (f g : Flash) (X m j : Nat) (hX : X + 1024 ≤ 4294967296) (hm : m ≤ 4)
    (hj : j ≤ 4) (hf : flash_page_get_state f X = canonical_state m)
    (hg : ∀ x, X + 1016 ≤ x → x < X + 1024 → g x = zeroed f X j x) :
    flash_page_get_state g X = canonical_state (max m j) := by
  refine flash_page_get_state_of_fields g X (max m j) hX (by omega) (fun i hi => ?_)
  rw [flash_read_16_congr (zeroed f X j) g _ (hg _ (by omega) (by omega))
    (hg _ (by omega) (by omega)), flash_read_16_zeroed,
    fields_of_state f X m hX hm hf i hi]
  by_cases h1 : i < j
  · rw [if_pos h1, if_pos (by omega)]
  · rw [if_neg h1]
    by_cases h2 : i < m
    · rw [if_pos h2, if_pos (by omega)]
    · rw [if_neg h2, if_neg (by omega)]

theorem blank_state (X : Nat) (hX : X + 1024 ≤ 4294967296) :
    flash_page_get_state blank X = canonical_state 0 :=
  flash_page_get_state_of_fields _ X 0 hX (by omega)
    (fun j _ => by rw [if_neg (by omega)]; exact flash_read_16_of_bytes _ _ rfl rfl)

theorem observed_selects (hw : FlashHw) (g : Flash) (A B : Nat)
    (hAB : (A = VEEPROM_PAGE_1_ADDR ∧ B = VEEPROM_PAGE_2_ADDR) ∨
      (A = VEEPROM_PAGE_2_ADDR ∧ B = VEEPROM_PAGE_1_ADDR))
    (hsel : Selects g A B) (o : Nat) :
    observed hw g o = flash_read_8 g (A + o) := by
  obtain ⟨a, -, c⟩ := veeprom_init_selects hw (reboot g) A B hAB hsel
  unfold observed
  rw [a, c]
  rfl

theorem observed_fresh (hw : FlashHw) (hr : hw.Reliable) (g : Flash)
    (h1 : flash_page_get_state g VEEPROM_PAGE_1_ADDR ≠ PAGE_STATE_VALID)
    (h2 : flash_page_get_state g VEEPROM_PAGE_2_ADDR ≠ PAGE_STATE_VALID)
    (h3 : flash_page_get_state g VEEPROM_PAGE_1_ADDR ≠ PAGE_STATE_COPY)
    (h4 : flash_page_get_state g VEEPROM_PAGE_2_ADDR ≠ PAGE_STATE_COPY)
    (o : Nat) (ho : o < 1024) :
    observed hw g o = 0xFF := by
  obtain ⟨-, a, -, c⟩ := veeprom_init_fresh hw hr (reboot g) h1 h2 h3 h4
  unfold observed
  rw [a, c]
  unfold flash_read_8 erase_mem
  rw [if_pos (by simp only [VEEPROM_PAGE_1_ADDR]; omega)]

theorem canonical_ne (a b : Nat) (ha : a ≤ 4) (hb : b ≤ 4) (h : a ≠ b) :
    canonical_state a ≠ canonical_state b :=
  fun e => h (canonical_state_inj a b ha hb e)

/-- What a reboot observes on a flash of crash shape: the old payload before the
new page is VALID, the merged payload from then on. -/
theorem observed_of_shape (hw : FlashHw) (hr : hw.Reliable) (f : Flash) (A B : Nat)
    (hAB : (A = VEEPROM_PAGE_1_ADDR ∧ B = VEEPROM_PAGE_2_ADDR) ∨
      (A = VEEPROM_PAGE_2_ADDR ∧ B = VEEPROM_PAGE_1_ADDR))
    (m0 : Nat) (hm0 : m0 ≤ 3) (hst : flash_page_get_state f A = canonical_state m0)
    (hfresh : m0 < 2 → A = VEEPROM_PAGE_1_ADDR ∧ ∀ o, o < 1014 → flash_read_8 f (A + o) = 0xFF)
    (addr n : Nat) (data : List Nat) (g : Flash) (hg : CrashShape f A B addr n data g) :
    (∀ o, o < 1014 → observed hw g o = flash_read_8 f (A + o)) ∨
    (∀ o, o < 1014 → observed hw g o = merged f A addr n data o) := by
  have hA : A + 1024 ≤ 4294967296 := by
    rcases hAB with ⟨rfl, rfl⟩ | ⟨rfl, rfl⟩ <;> decide
  have hB : B + 1024 ≤ 4294967296 := by
    rcases hAB with ⟨rfl, rfl⟩ | ⟨rfl, rfl⟩ <;> decide
  have hBA : (B = VEEPROM_PAGE_1_ADDR ∧ A = VEEPROM_PAGE_2_ADDR) ∨
      (B = VEEPROM_PAGE_2_ADDR ∧ A = VEEPROM_PAGE_1_ADDR) := by tauto
  obtain ⟨jA, jB, pA, pB, ph⟩ := hg
  have hjA : jA ≤ 4 := by rcases ph with ⟨h, _⟩ | ⟨_, h, _⟩ <;> omega
  have hjB : jB ≤ 4 := by rcases ph with ⟨_, h⟩ | ⟨_, _, h, _⟩ <;> omega
  have sA : flash_page_get_state g A = canonical_state (max m0 jA) :=
    state_of_zeroed f g A m0 jA hA (by omega) hjA hst (fun x h1 h2 => pA x (by omega) h2)
  have sB : flash_page_get_state g B = canonical_state jB := by
    have := state_of_zeroed blank g B 0 jB hB (by omega) hjB (blank_state B hB) pB
    rwa [Nat.zero_max] at this
  have payA : ∀ o, o < 1014 → flash_read_8 g (A + o) = flash_read_8 f (A + o) := by
    intro o ho
    unfold flash_read_8
    rw [pA _ (by omega) (by omega), zeroed_off _ _ _ _ (by omega)]
  rcases ph with ⟨h1, h2⟩ | ⟨h1, h2, h3, h4⟩
  · left
    intro o ho
    have nBV : flash_page_get_state g B ≠ PAGE_STATE_VALID := by
      rw [sB]; exact canonical_ne jB 2 hjB (by omega) (by omega)
    have nBC : flash_page_get_state g B ≠ PAGE_STATE_COPY := by
      rw [sB]; exact canonical_ne jB 3 hjB (by omega) (by omega)
    rcases Nat.lt_or_ge (max m0 jA) 2 with hlow | hhigh
    · obtain ⟨hP1, hFF⟩ := hfresh (by omega)
      have hP2 : B = VEEPROM_PAGE_2_ADDR := by
        rcases hAB with ⟨_, h⟩ | ⟨h, _⟩
        · exact h
        · rw [hP1] at h; exact absurd h (by decide)
      have nAV : flash_page_get_state g A ≠ PAGE_STATE_VALID := by
        rw [sA]; exact canonical_ne _ 2 (by omega) (by omega) (by omega)
      have nAC : flash_page_get_state g A ≠ PAGE_STATE_COPY := by
        rw [sA]; exact canonical_ne _ 3 (by omega) (by omega) (by omega)
      rw [hP1] at nAV nAC
      rw [hP2] at nBV nBC
      rw [observed_fresh hw hr g nAV nBV nAC nBC o (by omega), hFF o ho]
    · rw [observed_selects hw g A B hAB ?_ o, payA o ho]
      rcases Nat.eq_or_lt_of_le hhigh with h | h
      · exact Or.inl ⟨by rw [sA, ← h]; rfl, Or.inr nBV⟩
      · have : max m0 jA = 3 := by omega
        exact Or.inr ⟨by rw [sA, this]; rfl, nBV, Or.inr nBC⟩
  · right
    intro o ho
    have nAV : flash_page_get_state g A ≠ PAGE_STATE_VALID := by
      rw [sA]; exact canonical_ne _ 2 (by omega) (by omega) (by omega)
    rw [observed_selects hw g B A hBA (Or.inl ⟨by rw [sB, h3]; rfl, Or.inr nAV⟩) o]
    exact h4 o ho

/-- Claim C1: crash-point safety, over the error-free controller with atomic page
erase and halfword program.  Let `s` be the store that `veeprom_init` leaves
(the proof needs no assumption on what it returned, so this covers every
successful call), and let `addr + n < 1014`.  For the flash content `g` after any
prefix of the erases and halfword programs of `veeprom_write(addr, data, n)` on
`s` (the empty prefix and the complete sequence included): the page that
`veeprom_init` designates after a reset on `g` has, at every offset below 1014,
the pre-write payload of the active page of `s`, or at every offset the
post-write payload (the old payload with `data` on `[addr, addr + n)`). -/
theorem crash_point_safety (s0 : Veeprom)
    (addr n : Nat) (data : List Nat) (hn : addr + n < 1014) (g : Flash)
    (hg : g ∈ crash_points stm32 (veeprom_init stm32 s0).2 addr data n) :
    (∀ o, o < 1014 → observed stm32 g o =
      flash_read_8 (veeprom_init stm32 s0).2.flash
        ((veeprom_init stm32 s0).2.active_page_addr + o)) ∨
    (∀ o, o < 1014 → observed stm32 g o =
      merged (veeprom_init stm32 s0).2.flash (veeprom_init stm32 s0).2.active_page_addr
        addr n data o) := by
  obtain ⟨hd, hc⟩ := veeprom_init_outcome stm32 stm32_reliable s0
  generalize (veeprom_init stm32 s0).2 = s at hd hc hg ⊢
  obtain ⟨hA, hB, hA0, hB0, hAB⟩ := hd.pages
  have facts : ∃ m0, m0 ≤ 3 ∧
      flash_page_get_state s.flash s.active_page_addr = canonical_state m0 ∧
      (m0 < 2 → s.active_page_addr = VEEPROM_PAGE_1_ADDR ∧
        ∀ o, o < 1014 → flash_read_8 s.flash (s.active_page_addr + o) = 0xFF) ∧
      (∀ o, o < 1014 →
        observed stm32 s.flash o = flash_read_8 s.flash (s.active_page_addr + o)) := by
    rcases hc with ⟨c1, c2⟩ | ⟨c1, c2, c3, c4⟩
    · rw [← c1] at c2
      have hobs := fun o (_ : o < 1014) =>
        observed_selects stm32 s.flash _ _ hd c2 o
      rcases c2 with ⟨c3, -⟩ | ⟨c3, -⟩
      · exact ⟨2, by omega, c3, fun h => by omega, hobs⟩
      · exact ⟨3, by omega, c3, fun h => by omega, hobs⟩
    · have hFF : ∀ o, o < 1014 → flash_read_8 s.flash (s.active_page_addr + o) = 0xFF := by
        intro o ho
        rw [c1, c2]
        unfold flash_read_8 erase_mem
        rw [if_pos (by simp only [VEEPROM_PAGE_1_ADDR]; omega)]
      have st1 : flash_page_get_state s.flash VEEPROM_PAGE_1_ADDR = canonical_state 0 := by
        rw [c2]; exact erase_mem_state _ _ (by decide) (by decide)
      have st2 : flash_page_get_state s.flash VEEPROM_PAGE_2_ADDR
          = flash_page_get_state s0.flash VEEPROM_PAGE_2_ADDR := by
        rw [c2]
        refine flash_page_get_state_congr _ _ _ (by decide) (fun x h1 h2 => ?_)
        unfold erase_mem
        rw [if_neg (by simp only [VEEPROM_PAGE_1_ADDR, VEEPROM_PAGE_2_ADDR] at h1 h2 ⊢; omega)]
      refine ⟨0, by omega, by rw [c1]; exact st1, fun _ => ⟨c1, hFF⟩, fun o ho => ?_⟩
      rw [hFF o ho]
      exact observed_fresh stm32 stm32_reliable s.flash
        (by rw [st1]; exact canonical_ne 0 2 (by omega) (by omega) (by omega))
        (by rw [st2]; exact c3)
        (by rw [st1]; exact canonical_ne 0 3 (by omega) (by omega) (by omega))
        (by rw [st2]; exact c4) o (by omega)
  obtain ⟨m0, hm0, hst, hfresh, hempty⟩ := facts
  unfold crash_points at hg
  rcases List.mem_cons.mp hg with rfl | hg
  · exact Or.inl hempty
  · have h3 : flash_read_16 s.flash (s.active_page_addr + 1016 + 2 * 3) = 0xFFFF := by
      rw [fields_of_state s.flash _ m0 hA (by omega) hst 3 (by omega), if_neg (by omega)]
    obtain ⟨-, added, htr, -, hsh⟩ := veeprom_write_trace stm32 stm32_framed stm32_reliable
      { s with trace := [] } s.active_page_addr s.inactive_page_addr rfl rfl hA hB hA0 hB0 hAB
      h3 addr n data (by omega)
    rw [htr, List.append_nil] at hg
    exact observed_of_shape stm32 stm32_reliable s.flash _ _ hd m0 hm0 hst hfresh addr n data g
      (hsh g hg)


set_option maxRecDepth 1000000 in
/-- Witness for C1: a reset on mass-erased flash, `veeprom_init` (returns true),
then `write(0, [0xAB, 0xCD], 2)` cut right after the erase of the inactive page. -/
theorem crash_point_safety_witness :
    (veeprom_init stm32 (reboot blank)).1 = true ∧ 0 + 2 < 1014 ∧
    erase_mem (veeprom_init stm32 (reboot blank)).2.flash
        (veeprom_init stm32 (reboot blank)).2.inactive_page_addr
      ∈ crash_points stm32 (veeprom_init stm32 (reboot blank)).2 0 [0xAB, 0xCD] 2 ∧
    ((∀ o, o < 1014 →
      observed stm32 (erase_mem (veeprom_init stm32 (reboot blank)).2.flash
        (veeprom_init stm32 (reboot blank)).2.inactive_page_addr) o =
      flash_read_8 (veeprom_init stm32 (reboot blank)).2.flash
        ((veeprom_init stm32 (reboot blank)).2.active_page_addr + o)) ∨
    (∀ o, o < 1014 →
      observed stm32 (erase_mem (veeprom_init stm32 (reboot blank)).2.flash
        (veeprom_init stm32 (reboot blank)).2.inactive_page_addr) o =
      merged (veeprom_init stm32 (reboot blank)).2.flash
        (veeprom_init stm32 (reboot blank)).2.active_page_addr 0 2 [0xAB, 0xCD] o)) :=
  have hmem : erase_mem (veeprom_init stm32 (reboot blank)).2.flash
        (veeprom_init stm32 (reboot blank)).2.inactive_page_addr
      ∈ crash_points stm32 (veeprom_init stm32 (reboot blank)).2 0 [0xAB, 0xCD] 2 := by
    obtain ⟨hd, hst⟩ := reachable_inv stm32 stm32_framed stm32_reliable _
      (Reachable.init (reboot blank))
    obtain ⟨hA, hB, hA0, hB0, hAB⟩ := hd.pages
    obtain ⟨-, added, htr, hm, -⟩ := veeprom_write_trace stm32 stm32_framed stm32_reliable
      { (veeprom_init stm32 (reboot blank)).2 with trace := [] } _ _ rfl rfl hA hB hA0 hB0 hAB
      (last_field_of_state _ _ hA hst) 0 2 [0xAB, 0xCD] (by decide)
    unfold crash_points
    rw [htr, List.append_nil]
    exact List.mem_cons_of_mem _ hm
  ⟨by decide, by decide, hmem,
    crash_point_safety (reboot blank) 0 2 [0xAB, 0xCD] (by decide) _ hmem⟩

/-! ## Lock discipline -/

/-- Claim C14: whatever the controller does (any memory effect and verdict of
every erase and program), whatever the store, address, data and length, the
`LOCK` bit is set in the state that `veeprom_write` returns, on the success path
and on each of its seven failure exits. -/
theorem veeprom_write_locks (hw : FlashHw) (s : Veeprom) (addr : Nat) (data : List Nat)
    (n : Nat) : (veeprom_write hw s addr data n).2.locked = true := by
  unfold veeprom_write
  lift_lets
  extract_lets r1 s2 r3 r4 r5 checksum r6 r7 r8 tmp src s9
  split_ifs <;> rfl

/-! ## What a write may touch -/

theorem veeprom_write_frame (hw : FlashHw) (hf : hw.Framed) (s : Veeprom) (A B : Nat)
    (hsA : s.active_page_addr = A) (hsB : s.inactive_page_addr = B)
    (hA : A + 1024 ≤ 4294967296) (hB : B + 1024 ≤ 4294967296)
    (hB0 : B % 1024 = 0)
    (addr n : Nat) (data : List Nat) :
    (∀ x, ¬ (A + 1016 ≤ x ∧ x < A + 1024) → ¬ (B ≤ x ∧ x < B + 1024) →
      (veeprom_write hw s addr data n).2.flash x = s.flash x) ∧
    ((veeprom_write hw s addr data n).1 = false →
      (veeprom_write hw s addr data n).2.active_page_addr = A ∧
      (veeprom_write hw s addr data n).2.inactive_page_addr = B) := by
  generalize hres : veeprom_write hw s addr data n = res
  unfold veeprom_write at hres
  lift_lets at hres
  extract_lets r1 s2 r3 r4 r5 checksum r6 r7 r8 tmp src s9 at hres
  have f1 : Frame (fun x => B ≤ x ∧ x < B + 1024) s r1.2 :=
    (flash_page_erase_frame hw hf s s.inactive_page_addr).mono
      (fun x hx => by rw [hsB] at hx; omega)
  have f2 : Frame (fun x => B ≤ x ∧ x < B + 1024) s s2 := f1
  have e3 : r3 = flash_page_set_state hw s2 A PAGE_STATE_COPY := by
    show flash_page_set_state hw s2 s2.active_page_addr _ = _
    rw [f2.1.trans hsA]
  have f3 : Frame (fun x => A + 1016 ≤ x ∧ x < A + 1024) s2 r3.2 := by
    rw [e3]; exact flash_page_set_state_frame hw hf s2 A _ hA
  have e4 : r4 = flash_page_set_state hw r3.2 B PAGE_STATE_WRITE := by
    show flash_page_set_state hw r3.2 r3.2.inactive_page_addr _ = _
    rw [f3.2.1.trans (f2.2.1.trans hsB)]
  have f4 : Frame (fun x => B + 1016 ≤ x ∧ x < B + 1024) r3.2 r4.2 := by
    rw [e4]; exact flash_page_set_state_frame hw hf r3.2 B _ hB
  have g3 : Frame (fun x => (A + 1016 ≤ x ∧ x < A + 1024) ∨ (B ≤ x ∧ x < B + 1024)) s r3.2 :=
    (f2.mono (fun x hx => Or.inr hx)).trans (f3.mono (fun x hx => Or.inl hx))
  have g4 := g3.trans (f4.mono (Q := fun x => (A + 1016 ≤ x ∧ x < A + 1024) ∨
    (B ≤ x ∧ x < B + 1024)) (fun x hx => Or.inr (by omega)))
  have h4B : r4.2.inactive_page_addr = B := g4.2.1.trans hsB
  have f5 : Frame (fun x => B + 0 ≤ x ∧ x < B + 1016) r4.2 r5.2 :=
    veeprom_write_loop_frame hw hf addr n data B hB _ 0 0 r4.2 h4B
  have g5 := g4.trans (f5.mono (Q := fun x => (A + 1016 ≤ x ∧ x < A + 1024) ∨
    (B ≤ x ∧ x < B + 1024)) (fun x hx => Or.inr (by omega)))
  have h5B : r5.2.inactive_page_addr = B := g5.2.1.trans hsB
  have e6 : r6 = flash_write_16 hw r5.2 (B + 1014) (flash_page_calc_checksum r5.2.flash B) := by
    show flash_write_16 hw r5.2 (add32 r5.2.inactive_page_addr PAGE_CHECKSUM_OFFSET)
      (flash_page_calc_checksum r5.2.flash r5.2.inactive_page_addr) = _
    rw [h5B, checksum_addr B hB]
  have f6 : Frame (fun x => x = B + 1014 ∨ x = B + 1014 + 1) r5.2 r6.2 := by
    rw [e6]; exact flash_write_16_frame hw hf r5.2 _ _
  have g6 := g5.trans (f6.mono (Q := fun x => (A + 1016 ≤ x ∧ x < A + 1024) ∨
    (B ≤ x ∧ x < B + 1024)) (fun x hx => Or.inr (by omega)))
  have e7 : r7 = flash_page_set_state hw r6.2 B PAGE_STATE_VALID := by
    show flash_page_set_state hw r6.2 r6.2.inactive_page_addr _ = _
    rw [g6.2.1.trans hsB]
  have f7 : Frame (fun x => B + 1016 ≤ x ∧ x < B + 1024) r6.2 r7.2 := by
    rw [e7]; exact flash_page_set_state_frame hw hf r6.2 B _ hB
  have g7 := g6.trans (f7.mono (Q := fun x => (A + 1016 ≤ x ∧ x < A + 1024) ∨
    (B ≤ x ∧ x < B + 1024)) (fun x hx => Or.inr (by omega)))
  have e8 : r8 = flash_page_set_state hw r7.2 A PAGE_STATE_INVALID := by
    show flash_page_set_state hw r7.2 r7.2.active_page_addr _ = _
    rw [g7.1.trans hsA]
  have f8 : Frame (fun x => A + 1016 ≤ x ∧ x < A + 1024) r7.2 r8.2 := by
    rw [e8]; exact flash_page_set_state_frame hw hf r7.2 A _ hA
  have g8 := g7.trans (f8.mono (Q := fun x => (A + 1016 ≤ x ∧ x < A + 1024) ∨
    (B ≤ x ∧ x < B + 1024)) (fun x hx => Or.inl hx))
  have g1 : Frame (fun x => (A + 1016 ≤ x ∧ x < A + 1024) ∨ (B ≤ x ∧ x < B + 1024)) s r1.2 :=
    f1.mono (fun x hx => Or.inr hx)
  have key : ∀ r : Bool × Veeprom,
      Frame (fun x => (A + 1016 ≤ x ∧ x < A + 1024) ∨ (B ≤ x ∧ x < B + 1024)) s r.2 →
      (∀ x, ¬ (A + 1016 ≤ x ∧ x < A + 1024) → ¬ (B ≤ x ∧ x < B + 1024) →
        r.2.flash x = s.flash x) ∧
      (r.2.active_page_addr = A ∧ r.2.inactive_page_addr = B) :=
    fun r g => ⟨fun x hxA hxB => g.2.2.1 x (by rintro (h | h); exact hxA h; exact hxB h),
      g.1.trans hsA, g.2.1.trans hsB⟩
  rw [← hres]
  split_ifs
  · exact ⟨(key _ g1).1, fun _ => (key _ g1).2⟩
  · exact ⟨(key _ g3).1, fun _ => (key _ g3).2⟩
  · exact ⟨(key _ g4).1, fun _ => (key _ g4).2⟩
  · exact ⟨(key _ g5).1, fun _ => (key _ g5).2⟩
  · exact ⟨(key _ g6).1, fun _ => (key _ g6).2⟩
  · exact ⟨(key _ g7).1, fun _ => (key _ g7).2⟩
  · exact ⟨(key _ g8).1, fun _ => (key _ g8).2⟩
  · exact ⟨(key _ g8).1, fun h => by simp at h⟩

/-- Claim C15: for a controller that touches only what it is asked to, a store
designating the two pages, and every address, length and data: whatever
`veeprom_write` returns, the 1014 payload cells and the 2 checksum cells of the
page that was active at the call are as before; of that page only the 8-byte
state field (offsets 1016..1023) may differ. -/
theorem veeprom_write_keeps_active_payload (hw : FlashHw) (hf : hw.Framed) (s : Veeprom)
    (hd : Designated s) (addr n : Nat) (data : List Nat) (o : Nat) (ho : o < 1016) :
    (veeprom_write hw s addr data n).2.flash (s.active_page_addr + o)
      = s.flash (s.active_page_addr + o) := by
  obtain ⟨hA, hB, hA0, hB0, hAB⟩ := hd.pages
  exact (veeprom_write_frame hw hf s _ _ rfl rfl hA hB hB0 addr n data).1 _
    (by omega) (by omega)

set_option maxRecDepth 1000000 in
/-- Witness for C15: the scenario write, at the first payload cell and the last
checksum cell of page 1. -/
theorem veeprom_write_keeps_active_payload_witness :
    stm32.Framed ∧ Designated scenario_store ∧ 0 < 1016 ∧ 1015 < 1016 ∧
    (veeprom_write stm32 scenario_store 0 [0xAB, 0xCD] 2).2.flash
        (scenario_store.active_page_addr + 0)
      = scenario_store.flash (scenario_store.active_page_addr + 0) ∧
    (veeprom_write stm32 scenario_store 0 [0xAB, 0xCD] 2).2.flash
        (scenario_store.active_page_addr + 1015)
      = scenario_store.flash (scenario_store.active_page_addr + 1015) :=
  ⟨stm32_framed, scenario_store_designated, by decide, by decide,
    veeprom_write_keeps_active_payload stm32 stm32_framed scenario_store
      scenario_store_designated 0 2 [0xAB, 0xCD] 0 (by decide),
    veeprom_write_keeps_active_payload stm32 stm32_framed scenario_store
      scenario_store_designated 0 2 [0xAB, 0xCD] 1015 (by decide)⟩

/-! ## Page state codec: round trip and direction -/

theorem canonical_of_pattern (T : Nat)
    (hT : T = PAGE_STATE_ERASED ∨ T = PAGE_STATE_WRITE ∨ T = PAGE_STATE_VALID ∨
      T = PAGE_STATE_COPY ∨ T = PAGE_STATE_INVALID) :
    ∃ k, k ≤ 4 ∧ T = canonical_state k := by
  rcases hT with h | h | h | h | h
  · exact ⟨0, by omega, h⟩
  · exact ⟨1, by omega, h⟩
  · exact ⟨2, by omega, h⟩
  · exact ⟨3, by omega, h⟩
  · exact ⟨4, by omega, h⟩

/-- Claim C18: set/get round trip of the page state.  For a controller that
touches only what it is asked to, every flash content, a page inside the address
space and each of the five canonical targets `T`: if
`flash_page_set_state(page, T)` returns true then `flash_page_get_state(page)`
returns `T`; that value is the concatenation, most significant first, of the
four 16-bit fields at offsets 1016, 1018, 1020, 1022 (= P+2 .. P+8); and the 1014
payload cells and 2 checksum cells of the page are unchanged. -/
theorem flash_page_set_get_state (hw : FlashHw) (hf : hw.Framed) (s : Veeprom) (X T : Nat)
    (hX : X + 1024 ≤ 4294967296)
    (hT : T = PAGE_STATE_ERASED ∨ T = PAGE_STATE_WRITE ∨ T = PAGE_STATE_VALID ∨
      T = PAGE_STATE_COPY ∨ T = PAGE_STATE_INVALID)
    (h : (flash_page_set_state hw s X T).1 = true) :
    flash_page_get_state (flash_page_set_state hw s X T).2.flash X = T ∧
    flash_page_get_state (flash_page_set_state hw s X T).2.flash X =
      ((flash_read_16 (flash_page_set_state hw s X T).2.flash (X + 1016) * 65536
        + flash_read_16 (flash_page_set_state hw s X T).2.flash (X + 1018)) * 65536
        + flash_read_16 (flash_page_set_state hw s X T).2.flash (X + 1020)) * 65536
        + flash_read_16 (flash_page_set_state hw s X T).2.flash (X + 1022) ∧
    (∀ o, o < 1016 →
      (flash_page_set_state hw s X T).2.flash (X + o) = s.flash (X + o)) := by
  obtain ⟨k, hk, rfl⟩ := canonical_of_pattern T hT
  have e0 : add32 X 1016 = X + 1016 := by unfold add32; omega
  have e1 : add32 X 1018 = X + 1018 := by unfold add32; omega
  have e2 : add32 X 1020 = X + 1020 := by unfold add32; omega
  have e3 : add32 X 1022 = X + 1022 := by unfold add32; omega
  refine ⟨flash_page_set_state_post hw hf s X k hX hk h, ?_, fun o ho => ?_⟩
  · rw [flash_page_get_state_eq, e0, e1, e2, e3]
  · exact (flash_page_set_state_frame hw hf s X _ hX).2.2.1 _ (by omega)

/-- Witness for C18: page 2 of mass-erased flash is taken to VALID. -/
theorem flash_page_set_get_state_witness :
    stm32.Framed ∧ VEEPROM_PAGE_2_ADDR + 1024 ≤ 4294967296 ∧
    (flash_page_set_state stm32 (reboot blank) VEEPROM_PAGE_2_ADDR PAGE_STATE_VALID).1 = true ∧
    flash_page_get_state
      (flash_page_set_state stm32 (reboot blank) VEEPROM_PAGE_2_ADDR PAGE_STATE_VALID).2.flash
      VEEPROM_PAGE_2_ADDR = PAGE_STATE_VALID :=
  ⟨stm32_framed, by decide, by decide,
    (flash_page_set_get_state stm32 stm32_framed (reboot blank) VEEPROM_PAGE_2_ADDR
      PAGE_STATE_VALID (by decide) (Or.inr (Or.inr (Or.inl rfl))) (by decide)).1⟩

theorem set_fields_reliable_any (hw : FlashHw) (hr : hw.Reliable) (X k : Nat)
    (hX : X + 1024 ≤ 4294967296) (hk4 : k ≤ 4) (f0 : Flash) :
    ∀ (fuel i : Nat) (s : Veeprom), i + fuel = 4 → s.flash = zeroed f0 X (min i k) →
      (set_fields hw X k fuel i s).2.flash = zeroed f0 X k ∧
      ((set_fields hw X k fuel i s).1 = true ↔
        ∀ j, k ≤ j → i ≤ j → j < 4 → flash_read_16 f0 (X + 1016 + 2 * j) = 0xFFFF) := by
  intro fuel
  induction fuel with
  | zero =>
    intro i s hi hs
    refine ⟨?_, ?_⟩
    · show s.flash = _
      rw [hs, Nat.min_eq_right (by omega)]
    · exact ⟨fun _ j _ h1 h2 => by omega, fun _ => rfl⟩
  | succ m ih =>
    intro i s hi hs
    unfold set_fields
    rw [state_addr X i hX (by omega)]
    by_cases hk : k ≤ i
    · rw [if_pos hk]
      rw [Nat.min_eq_right hk] at hs
      have hrd : flash_read_16 s.flash (X + 1016 + 2 * i)
          = flash_read_16 f0 (X + 1016 + 2 * i) := by
        rw [hs, flash_read_16_zeroed, if_neg (by omega)]
      rw [hrd]
      by_cases hc : flash_read_16 f0 (X + 1016 + 2 * i) ≠ 0xFFFF
      · rw [if_pos hc]
        refine ⟨hs, fun h => by simp at h, fun h => absurd (h i hk (le_refl i) (by omega)) hc⟩
      · rw [if_neg hc]
        obtain ⟨a1, a2⟩ := ih (i + 1) s (by omega) (by rw [hs, Nat.min_eq_right (by omega)])
        refine ⟨a1, a2.trans ⟨fun h j j1 j2 j3 => ?_, fun h j j1 j2 j3 => h j j1 (by omega) j3⟩⟩
        rcases Nat.eq_or_lt_of_le j2 with e | e
        · subst e; simpa using hc
        · exact h j j1 e j3
    · rw [if_neg hk]
      rw [Nat.min_eq_left (by omega)] at hs
      rw [flash_write_16_zero hw hr]
      dsimp only
      rw [if_neg (by simp)]
      obtain ⟨a1, a2⟩ :=
        ih (i + 1) { s with flash := store16 s.flash (X + 1016 + 2 * i) 0,
                            trace := store16 s.flash (X + 1016 + 2 * i) 0 :: s.trace }
          (by omega)
          (by
            show store16 s.flash (X + 1016 + 2 * i) 0 = _
            rw [hs, store16_zeroed, Nat.min_eq_left (by omega)])
      exact ⟨a1, a2.trans ⟨fun h j j1 j2 j3 => h j j1 (by omega) j3,
        fun h j j1 j2 j3 => h j j1 (by omega) j3⟩⟩

theorem flash_page_set_state_reliable_any (hw : FlashHw) (hr : hw.Reliable) (s : Veeprom)
    (X k : Nat) (hX : X + 1024 ≤ 4294967296) (hk4 : k ≤ 4) :
    (flash_page_set_state hw s X (canonical_state k)).2.flash = zeroed s.flash X k ∧
    ((flash_page_set_state hw s X (canonical_state k)).1 = true ↔
      ∀ j, k ≤ j → j < 4 → flash_read_16 s.flash (X + 1016 + 2 * j) = 0xFFFF) := by
  rw [flash_page_set_state_canonical hw s X k hk4]
  obtain ⟨a1, a2⟩ := set_fields_reliable_any hw hr X k hX hk4 s.flash 4 0 s rfl
    (by rw [Nat.zero_min, zeroed_zero])
  exact ⟨a1, a2.trans ⟨fun h j j1 j3 => h j j1 (by omega) j3, fun h j j1 _ j3 => h j j1 j3⟩⟩

/-- Claim C17: page-state transitions only move forward.  Over a controller
without hardware errors (so programming `0x0000` succeeds), let the state field
of a page hold the canonical pattern number `m` and let the target be the
canonical pattern number `k`, numbered in the order ERASED (0) < WRITE (1) <
VALID (2) < COPY (3) < INVALID (4).  Then `flash_page_set_state` returns true
exactly when `m ≤ k`; when it returns false every flash byte reads as before;
and in both cases the page afterwards holds a canonical pattern that is not
earlier than `m` (the target on success). -/
theorem flash_page_set_state_forward (hw : FlashHw) (hr : hw.Reliable) (s : Veeprom)
    (X m k : Nat) (hX : X + 1024 ≤ 4294967296) (hm : m ≤ 4) (hk : k ≤ 4)
    (hS : flash_page_get_state s.flash X = canonical_state m) :
    ((flash_page_set_state hw s X (canonical_state k)).1 = true ↔ m ≤ k) ∧
    ((flash_page_set_state hw s X (canonical_state k)).1 = false →
      ∀ x, flash_read_8 (flash_page_set_state hw s X (canonical_state k)).2.flash x
        = flash_read_8 s.flash x) ∧
    ((flash_page_set_state hw s X (canonical_state k)).1 = true →
      flash_page_get_state (flash_page_set_state hw s X (canonical_state k)).2.flash X
        = canonical_state k) ∧
    (∃ m2, m ≤ m2 ∧ m2 ≤ 4 ∧
      flash_page_get_state (flash_page_set_state hw s X (canonical_state k)).2.flash X
        = canonical_state m2) := by
  obtain ⟨hfl, hiff⟩ := flash_page_set_state_reliable_any hw hr s X k hX hk
  have hfields := fields_of_state s.flash X m hX hm hS
  have hst : flash_page_get_state (flash_page_set_state hw s X (canonical_state k)).2.flash X
      = canonical_state (max m k) := by
    rw [hfl]
    exact state_of_zeroed s.flash _ X m k hX hm hk hS (fun _ _ _ => rfl)
  have hdir : (flash_page_set_state hw s X (canonical_state k)).1 = true ↔ m ≤ k := by
    rw [hiff]
    constructor
    · intro h
      by_contra hc
      have := h k (le_refl k) (by omega)
      rw [hfields k (by omega), if_pos (by omega)] at this
      exact absurd this (by decide)
    · intro h j j1 j2
      rw [hfields j j2, if_neg (by omega)]
  refine ⟨hdir, fun hfalse x => ?_, fun htrue => ?_, max m k, by omega, by omega, hst⟩
  · have hkm : k < m := by
      by_contra hc
      rw [hdir.mpr (by omega)] at hfalse
      exact absurd hfalse (by decide)
    rw [hfl]
    unfold flash_read_8 zeroed
    by_cases hx : X + 1016 ≤ x ∧ x < X + 1016 + 2 * k
    · rw [if_pos hx]
      have hj := hfields ((x - (X + 1016)) / 2) (by omega)
      rw [if_pos (by omega), flash_read_16_eq] at hj
      have e : x = X + 1016 + 2 * ((x - (X + 1016)) / 2) ∨
          x = X + 1016 + 2 * ((x - (X + 1016)) / 2) + 1 := by omega
      rcases e with e | e
      · rw [← e] at hj; omega
      · rw [← e] at hj; omega
    · rw [if_neg hx]
  · rw [hst, Nat.max_eq_right (hdir.mp htrue)]

/-- Witness for C17: a VALID page (number 2) is asked to go to COPY (number 3). -/
theorem flash_page_set_state_forward_witness :
    stm32.Reliable ∧ VEEPROM_PAGE_1_ADDR + 1024 ≤ 4294967296 ∧ 2 ≤ 4 ∧ 3 ≤ 4 ∧
    flash_page_get_state (zeroed blank VEEPROM_PAGE_1_ADDR 2) VEEPROM_PAGE_1_ADDR
      = canonical_state 2 ∧
    ((flash_page_set_state stm32 (reboot (zeroed blank VEEPROM_PAGE_1_ADDR 2))
      VEEPROM_PAGE_1_ADDR (canonical_state 3)).1 = true ↔ 2 ≤ 3) :=
  ⟨stm32_reliable, by decide, by decide, by decide, by decide,
    (flash_page_set_state_forward stm32 stm32_reliable
      (reboot (zeroed blank VEEPROM_PAGE_1_ADDR 2)) VEEPROM_PAGE_1_ADDR 2 3 (by decide)
      (by decide) (by decide) (by decide)).1⟩

/-! ## The checksum as a sum -/

theorem flash_page_calc_checksum_loop_sum (f : Flash) :
    ∀ (n a c : Nat), a < 4294967296 → c < 65536 →
      flash_page_calc_checksum_loop f n a c = (c + byte_sum f a n) % 65536 := by
  intro n
  induction n with
  | zero =>
    intro a c _ hc
    simp only [flash_page_calc_checksum_loop, byte_sum, Finset.range_zero, Finset.sum_empty]
    omega
  | succ k ih =>
    intro a c ha hc
    have e0 : add32 a 0 = a := by unfold add32; omega
    have e1 : ∀ o, add32 (add32 a 1) o = add32 a (o + 1) := by
      intro o; unfold add32; omega
    unfold flash_page_calc_checksum_loop
    rw [ih _ _ (by unfold add32; omega) (Nat.mod_lt _ (by decide))]
    unfold byte_sum
    rw [Finset.sum_range_succ']
    simp only [e0, e1]
    omega

theorem flash_page_calc_checksum_sum (f : Flash) (X : Nat) (hX : X < 4294967296) :
    flash_page_calc_checksum f X = byte_sum f X 1014 % 65536 := by
  unfold flash_page_calc_checksum
  rw [flash_page_calc_checksum_loop_sum f _ X 0 hX (by decide), Nat.zero_add]
  rfl

/-- Claim C19: the checksum.  For every flash content and 32-bit page address,
`flash_page_calc_checksum` is the sum of the 1014 payload bytes (offsets
0..1013, each an unsigned 8-bit value) modulo 2^16; it depends on those bytes
only (a flash that reads the same at these offsets has the same checksum,
whatever its checksum and state fields hold); and a checksum that
`flash_page_write_checksum` reports as written is what
`flash_page_read_checksum` returns. -/
theorem flash_page_checksum_definition (f : Flash) (X : Nat) (hX : X < 4294967296) :
    flash_page_calc_checksum f X
      = (Finset.sum (Finset.range 1014) (fun o => flash_read_8 f (add32 X o))) % 65536 ∧
    (∀ g : Flash, (∀ o, o < 1014 → flash_read_8 g (add32 X o) = flash_read_8 f (add32 X o)) →
      flash_page_calc_checksum g X = flash_page_calc_checksum f X) ∧
    (∀ (hw : FlashHw) (s : Veeprom) (checksum : Nat),
      (flash_page_write_checksum hw s X checksum).1 = true →
      flash_page_read_checksum (flash_page_write_checksum hw s X checksum).2.flash X
        = checksum) := by
  refine ⟨flash_page_calc_checksum_sum f X hX, fun g hg => ?_, fun hw s c h => ?_⟩
  · rw [flash_page_calc_checksum_sum f X hX, flash_page_calc_checksum_sum g X hX]
    unfold byte_sum
    rw [Finset.sum_congr rfl (fun o ho => hg o (Finset.mem_range.mp ho))]
  · exact flash_write_16_ok hw s _ c h

/-- Witness for C19: page 1 of mass-erased flash; 1014 bytes `0xFF` sum to
258570, which is `0xF20A` modulo 2^16; and the error-free controller writes the
checksum `0x1234` into the erased checksum field of that page, reports success,
and `0x1234` is read back. -/
theorem flash_page_checksum_definition_witness :
    VEEPROM_PAGE_1_ADDR < 4294967296 ∧
    flash_page_calc_checksum blank VEEPROM_PAGE_1_ADDR
      = (Finset.sum (Finset.range 1014)
          (fun o => flash_read_8 blank (add32 VEEPROM_PAGE_1_ADDR o))) % 65536 ∧
    flash_page_calc_checksum blank VEEPROM_PAGE_1_ADDR = 0xF20A ∧
    (flash_page_write_checksum stm32 (reboot blank) VEEPROM_PAGE_1_ADDR 0x1234).1 = true ∧
    flash_page_read_checksum
      (flash_page_write_checksum stm32 (reboot blank) VEEPROM_PAGE_1_ADDR 0x1234).2.flash
      VEEPROM_PAGE_1_ADDR = 0x1234 :=
  ⟨by decide,
    (flash_page_checksum_definition blank VEEPROM_PAGE_1_ADDR (by decide)).1, by decide!,
    by decide!,
    (flash_page_checksum_definition blank VEEPROM_PAGE_1_ADDR (by decide)).2.2 stm32
      (reboot blank) 0x1234 (by decide!)⟩

/-! ## Sensitivity of the checksum -/

set_option maxRecDepth 1000000 in
theorem flip_byte (b k : Nat) (hb : b < 256) (hk : k < 8) :
    b ^^^ 2 ^ k < 256 ∧ (b ^^^ 2 ^ k = b + 2 ^ k ∨ (b ^^^ 2 ^ k) + 2 ^ k = b) ∧
    1 ≤ 2 ^ k ∧ 2 ^ k ≤ 128 := by
  have h : ∀ k, k < 8 → ∀ b, b < 256 →
      b ^^^ 2 ^ k < 256 ∧ (b ^^^ 2 ^ k = b + 2 ^ k ∨ (b ^^^ 2 ^ k) + 2 ^ k = b) ∧
      1 ≤ 2 ^ k ∧ 2 ^ k ≤ 128 := by decide!
  exact h k hk b hb

theorem flash_read_8_flip_bit_other (f : Flash) (x k y : Nat) (h : y ≠ x) :
    flip_bit f x k y = f y := by
  unfold flip_bit
  rw [if_neg h]

theorem byte_sum_flip (f : Flash) (X o k : Nat) (hX : X + 1024 ≤ 4294967296) (ho : o < 1014)
    (hk : k < 8) :
    byte_sum (flip_bit f (X + o) k) X 1014 % 65536 ≠ byte_sum f X 1014 % 65536 := by
  have hadd : ∀ i, i < 1014 → add32 X i = X + i := by
    intro i hi; unfold add32; omega
  obtain ⟨b1, b2, b3, b4⟩ := flip_byte (f (X + o) % 256) k (Nat.mod_lt _ (by decide)) hk
  have hmem : o ∈ Finset.range 1014 := Finset.mem_range.mpr ho
  have hrest : Finset.sum ((Finset.range 1014).erase o)
        (fun i => flash_read_8 (flip_bit f (X + o) k) (add32 X i))
      = Finset.sum ((Finset.range 1014).erase o) (fun i => flash_read_8 f (add32 X i)) := by
    refine Finset.sum_congr rfl (fun i hi => ?_)
    obtain ⟨hne, hi2⟩ := Finset.mem_erase.mp hi
    have hi3 := Finset.mem_range.mp hi2
    rw [hadd i hi3]
    unfold flash_read_8
    rw [flash_read_8_flip_bit_other _ _ _ _ (by omega)]
  have hnew : flash_read_8 (flip_bit f (X + o) k) (add32 X o) = f (X + o) % 256 ^^^ 2 ^ k := by
    rw [hadd o ho]
    unfold flash_read_8 flip_bit
    rw [if_pos rfl]
    exact Nat.mod_eq_of_lt b1
  have hold : flash_read_8 f (add32 X o) = f (X + o) % 256 := by
    rw [hadd o ho]; rfl
  unfold byte_sum
  rw [← Finset.add_sum_erase _ _ hmem, ← Finset.add_sum_erase (Finset.range 1014)
    (fun i => flash_read_8 f (add32 X i)) hmem, hrest]
  simp only [hnew, hold]
  generalize Finset.sum ((Finset.range 1014).erase o) (fun i => flash_read_8 f (add32 X i)) = R
  generalize f (X + o) % 256 ^^^ 2 ^ k = c at b1 b2 ⊢
  generalize 2 ^ k = d at b2 b3 b4
  omega

/-- Claim C13: checksum sensitivity.  For a controller that touches only what it
is asked to and a store designating the two pages, take the flash right after a
successful `veeprom_write` and flip bit `k < 8` of the payload byte at offset
`o < 1014` of the new active page, leaving everything else as written.  Then the
checksum computed by `flash_page_calc_checksum` differs from the stored one read
by `flash_page_read_checksum`, and the next `veeprom_init` selects that page and
its integrity comparison `read != calc`, which is the value it returns, is true. -/
theorem checksum_sensitivity (hw : FlashHw) (hf : hw.Framed) (s : Veeprom) (hd : Designated s)
    (addr n : Nat) (data : List Nat) (hok : (veeprom_write hw s addr data n).1 = true)
    (o k : Nat) (ho : o < 1014) (hk : k < 8) :
    flash_page_calc_checksum
        (flip_bit (veeprom_write hw s addr data n).2.flash
          ((veeprom_write hw s addr data n).2.active_page_addr + o) k)
        (veeprom_write hw s addr data n).2.active_page_addr
      ≠ flash_page_read_checksum
        (flip_bit (veeprom_write hw s addr data n).2.flash
          ((veeprom_write hw s addr data n).2.active_page_addr + o) k)
        (veeprom_write hw s addr data n).2.active_page_addr ∧
    (veeprom_init hw (reboot (flip_bit (veeprom_write hw s addr data n).2.flash
        ((veeprom_write hw s addr data n).2.active_page_addr + o) k))).2.active_page_addr
      = (veeprom_write hw s addr data n).2.active_page_addr ∧
    (veeprom_init hw (reboot (flip_bit (veeprom_write hw s addr data n).2.flash
        ((veeprom_write hw s addr data n).2.active_page_addr + o) k))).1 = true := by
  obtain ⟨hA, hB, hA0, hB0, hAB⟩ := hd.pages
  obtain ⟨c1, c2, -, -, c5, c6, c7, -⟩ :=
    veeprom_write_core hw hf s _ _ rfl rfl hA hB hA0 hB0 hAB addr n data hok
  have hd2 := veeprom_write_designated hw hf s hd addr n data hok
  unfold Designated at hd2
  rw [c1, c2] at hd2
  rw [c1]
  generalize (veeprom_write hw s addr data n).2.flash = f at c5 c6 c7 ⊢
  generalize s.inactive_page_addr = B at *
  generalize s.active_page_addr = A at *
  have hoth : ∀ y, y ≠ B + o → flip_bit f (B + o) k y = f y :=
    fun y hy => flash_read_8_flip_bit_other f _ k y hy
  have hread : flash_page_read_checksum (flip_bit f (B + o) k) B
      = flash_page_read_checksum f B :=
    flash_page_read_checksum_congr _ _ B hB (fun x h1 h2 => hoth x (by omega))
  have hcalc : flash_page_calc_checksum (flip_bit f (B + o) k) B
      ≠ flash_page_calc_checksum f B := by
    rw [flash_page_calc_checksum_sum _ B (by omega), flash_page_calc_checksum_sum _ B (by omega)]
    exact byte_sum_flip f B o k hB ho hk
  have hne : flash_page_calc_checksum (flip_bit f (B + o) k) B
      ≠ flash_page_read_checksum (flip_bit f (B + o) k) B := by
    rw [hread, c7]
    exact hcalc
  have hsB : flash_page_get_state (flip_bit f (B + o) k) B = PAGE_STATE_VALID := by
    rw [flash_page_get_state_congr f _ B hB (fun x h1 h2 => hoth x (by omega))]
    exact c5
  have hsA : flash_page_get_state (flip_bit f (B + o) k) A ≠ PAGE_STATE_VALID := by
    rw [flash_page_get_state_congr f _ A hA (fun x h1 h2 => hoth x (by omega)), c6]
    decide
  have hsel : Selects (reboot (flip_bit f (B + o) k)).flash B A := Or.inl ⟨hsB, Or.inr hsA⟩
  refine ⟨hne, (veeprom_init_selects hw _ B A hd2 hsel).1, ?_⟩
  rw [veeprom_init_polarity hw _ B A hd2 hsel]
  exact fun h => hne h.symm

set_option maxRecDepth 1000000 in
/-- Witness for C13: after the scenario write, bit 0 of the payload byte at
offset 5 of the new active page is flipped. -/
theorem checksum_sensitivity_witness :
    stm32.Framed ∧ Designated scenario_store ∧
    (veeprom_write stm32 scenario_store 0 [0xAB, 0xCD] 2).1 = true ∧ 5 < 1014 ∧ 0 < 8 ∧
    flash_page_calc_checksum
        (flip_bit (veeprom_write stm32 scenario_store 0 [0xAB, 0xCD] 2).2.flash
          ((veeprom_write stm32 scenario_store 0 [0xAB, 0xCD] 2).2.active_page_addr + 5) 0)
        (veeprom_write stm32 scenario_store 0 [0xAB, 0xCD] 2).2.active_page_addr
      ≠ flash_page_read_checksum
        (flip_bit (veeprom_write stm32 scenario_store 0 [0xAB, 0xCD] 2).2.flash
          ((veeprom_write stm32 scenario_store 0 [0xAB, 0xCD] 2).2.active_page_addr + 5) 0)
        (veeprom_write stm32 scenario_store 0 [0xAB, 0xCD] 2).2.active_page_addr :=
  ⟨stm32_framed, scenario_store_designated, by decide!, by decide, by decide,
    (checksum_sensitivity stm32 stm32_framed scenario_store scenario_store_designated 0 2
      [0xAB, 0xCD] (by decide!) 5 0 (by decide) (by decide)).1⟩

/-! ## Mass erase and the fresh store -/

theorem veeprom_mass_erase_reliable (hw : FlashHw) (hr : hw.Reliable) (s : Veeprom) :
    (veeprom_mass_erase hw s).1 = true ∧
    (veeprom_mass_erase hw s).2.flash
      = erase_mem (erase_mem s.flash VEEPROM_PAGE_1_ADDR) VEEPROM_PAGE_2_ADDR ∧
    (veeprom_mass_erase hw s).2.active_page_addr = s.active_page_addr ∧
    (veeprom_mass_erase hw s).2.inactive_page_addr = s.inactive_page_addr := by
  unfold veeprom_mass_erase
  simp [flash_page_erase_reliable hw hr]

theorem veeprom_read_8_eq (s : Veeprom) (o : Nat) (ho : o + 1 < 1014)
    (hs : s.active_page_addr ≠ 0) :
    veeprom_read_8 s o = flash_read_8 s.flash (add32 s.active_page_addr o) := by
  have e : add32 o 1 = o + 1 := by unfold add32; omega
  have hlt : ¬ (add32 o 1 ≥ VEEPROM_PAGE_SIZE ∨ s.active_page_addr = 0) := by
    rw [e]
    simp only [VEEPROM_PAGE_SIZE, FLASH_PAGE_SIZE, VEEPROM_SERVICE_HEADER_SIZE]
    omega
  unfold veeprom_read_8 veeprom_read
  rw [if_neg hlt]
  rfl

/-- Claim C11: mass erase gives a fresh store.  Over the error-free controller,
for every prior flash content and designation: `veeprom_mass_erase()` returns
true, the `veeprom_init()` after it returns true and leaves active = page 1,
inactive = page 2, every payload byte (offsets 0..1013) of the active page reads
`0xFF`, and `veeprom_read_8(o)` returns `0xFF` for every `o` with
`o + 1 < 1014`. -/
theorem veeprom_mass_erase_fresh (s : Veeprom) :
    (veeprom_mass_erase stm32 s).1 = true ∧
    (veeprom_init stm32 (veeprom_mass_erase stm32 s).2).1 = true ∧
    (veeprom_init stm32 (veeprom_mass_erase stm32 s).2).2.active_page_addr
      = VEEPROM_PAGE_1_ADDR ∧
    (veeprom_init stm32 (veeprom_mass_erase stm32 s).2).2.inactive_page_addr
      = VEEPROM_PAGE_2_ADDR ∧
    (∀ o, o < 1014 →
      flash_read_8 (veeprom_init stm32 (veeprom_mass_erase stm32 s).2).2.flash
        ((veeprom_init stm32 (veeprom_mass_erase stm32 s).2).2.active_page_addr + o) = 0xFF) ∧
    (∀ o, o + 1 < 1014 →
      veeprom_read_8 (veeprom_init stm32 (veeprom_mass_erase stm32 s).2).2 o = 0xFF) := by
  obtain ⟨m1, m2, -, -⟩ := veeprom_mass_erase_reliable stm32 stm32_reliable s
  have st2 : flash_page_get_state (veeprom_mass_erase stm32 s).2.flash VEEPROM_PAGE_2_ADDR
      = canonical_state 0 := by
    rw [m2]; exact erase_mem_state _ _ (by decide) (by decide)
  have st1 : flash_page_get_state (veeprom_mass_erase stm32 s).2.flash VEEPROM_PAGE_1_ADDR
      = canonical_state 0 := by
    rw [m2, flash_page_get_state_congr (erase_mem s.flash VEEPROM_PAGE_1_ADDR) _ _ (by decide)
      (fun x h1 h2 => by
        unfold erase_mem
        rw [if_neg (by simp only [VEEPROM_PAGE_1_ADDR, VEEPROM_PAGE_2_ADDR] at h1 h2 ⊢; omega)])]
    exact erase_mem_state _ _ (by decide) (by decide)
  obtain ⟨i1, i2, i3, i4⟩ := veeprom_init_fresh stm32 stm32_reliable (veeprom_mass_erase stm32 s).2
    (by rw [st1]; decide) (by rw [st2]; decide) (by rw [st1]; decide) (by rw [st2]; decide)
  have hFF : ∀ o, o < 1014 →
      flash_read_8 (veeprom_init stm32 (veeprom_mass_erase stm32 s).2).2.flash
        (VEEPROM_PAGE_1_ADDR + o) = 0xFF := by
    intro o ho
    rw [i4]
    unfold flash_read_8 erase_mem
    rw [if_pos (by simp only [VEEPROM_PAGE_1_ADDR]; omega)]
  refine ⟨m1, i1, i2, i3, fun o ho => by rw [i2]; exact hFF o ho, fun o ho => ?_⟩
  rw [veeprom_read_8_eq _ o ho (by rw [i2]; decide), i2]
  have e : add32 VEEPROM_PAGE_1_ADDR o = VEEPROM_PAGE_1_ADDR + o := by
    simp only [add32, VEEPROM_PAGE_1_ADDR]; omega
  rw [e]
  exact hFF o (by omega)

/-! ## Pages in service after initialisation -/

set_option maxRecDepth 1000000 in
/-- Claim C12 (fails as stated): `veeprom_init` on mass-erased flash returns true,
and afterwards no page reads VALID or COPY (page 1 and page 2 both read ERASED),
so it is not the case that exactly one page is VALID or COPY. -/
theorem veeprom_init_fresh_has_no_valid_page :
    (veeprom_init stm32 (reboot blank)).1 = true ∧
    flash_page_get_state (veeprom_init stm32 (reboot blank)).2.flash VEEPROM_PAGE_1_ADDR
      = PAGE_STATE_ERASED ∧
    flash_page_get_state (veeprom_init stm32 (reboot blank)).2.flash VEEPROM_PAGE_2_ADDR
      = PAGE_STATE_ERASED ∧
    ¬ (((flash_page_get_state (veeprom_init stm32 (reboot blank)).2.flash VEEPROM_PAGE_1_ADDR
          = PAGE_STATE_VALID ∨
        flash_page_get_state (veeprom_init stm32 (reboot blank)).2.flash VEEPROM_PAGE_1_ADDR
          = PAGE_STATE_COPY) ∧
      ¬ (flash_page_get_state (veeprom_init stm32 (reboot blank)).2.flash VEEPROM_PAGE_2_ADDR
          = PAGE_STATE_VALID ∨
        flash_page_get_state (veeprom_init stm32 (reboot blank)).2.flash VEEPROM_PAGE_2_ADDR
          = PAGE_STATE_COPY)) ∨
      (¬ (flash_page_get_state (veeprom_init stm32 (reboot blank)).2.flash VEEPROM_PAGE_1_ADDR
          = PAGE_STATE_VALID ∨
        flash_page_get_state (veeprom_init stm32 (reboot blank)).2.flash VEEPROM_PAGE_1_ADDR
          = PAGE_STATE_COPY) ∧
      (flash_page_get_state (veeprom_init stm32 (reboot blank)).2.flash VEEPROM_PAGE_2_ADDR
          = PAGE_STATE_VALID ∨
        flash_page_get_state (veeprom_init stm32 (reboot blank)).2.flash VEEPROM_PAGE_2_ADDR
          = PAGE_STATE_COPY))) := by
  decide!

/-- Claim C12 as amended: after every `veeprom_init` over the error-free
controller, whatever it returns and so in particular when it returns true,
either the active page reads VALID or COPY (then at least one page does), or the
store is fresh: page 1 is active and reads ERASED, and page 2 reads neither
VALID nor COPY (then no page does). -/
theorem veeprom_init_pages_in_service (s : Veeprom) :
    (flash_page_get_state (veeprom_init stm32 s).2.flash
        (veeprom_init stm32 s).2.active_page_addr = PAGE_STATE_VALID ∨
      flash_page_get_state (veeprom_init stm32 s).2.flash
        (veeprom_init stm32 s).2.active_page_addr = PAGE_STATE_COPY) ∨
    ((veeprom_init stm32 s).2.active_page_addr = VEEPROM_PAGE_1_ADDR ∧
      flash_page_get_state (veeprom_init stm32 s).2.flash VEEPROM_PAGE_1_ADDR
        = PAGE_STATE_ERASED ∧
      flash_page_get_state (veeprom_init stm32 s).2.flash VEEPROM_PAGE_2_ADDR
        ≠ PAGE_STATE_VALID ∧
      flash_page_get_state (veeprom_init stm32 s).2.flash VEEPROM_PAGE_2_ADDR
        ≠ PAGE_STATE_COPY) := by
  obtain ⟨-, hc⟩ := veeprom_init_outcome stm32 stm32_reliable s
  rcases hc with ⟨c1, c2⟩ | ⟨c1, c2, c3, c4⟩
  · left
    rw [c1]
    rcases c2 with ⟨c3, -⟩ | ⟨c3, -⟩
    · exact Or.inl c3
    · exact Or.inr c3
  · right
    have st2 : flash_page_get_state (veeprom_init stm32 s).2.flash VEEPROM_PAGE_2_ADDR
        = flash_page_get_state s.flash VEEPROM_PAGE_2_ADDR := by
      rw [c2]
      refine flash_page_get_state_congr _ _ _ (by decide) (fun x h1 h2 => ?_)
      unfold erase_mem
      rw [if_neg (by simp only [VEEPROM_PAGE_1_ADDR, VEEPROM_PAGE_2_ADDR] at h1 h2 ⊢; omega)]
    refine ⟨c1, ?_, by rw [st2]; exact c3, by rw [st2]; exact c4⟩
    rw [c2]
    exact erase_mem_state _ _ (by decide) (by decide)

/-! ## Single-byte accessors -/

/-- Claim C20: single-byte accessor round trip.  For a controller that touches
only what it is asked to, a store designating the two pages, `addr + 1 < 1014`
and a byte `v`: if `veeprom_write_8(addr, v)` returns true then
`veeprom_read_8(addr)` returns `v`, and `veeprom_read_8(o)` returns what it
returned before the write for every other `o` with `o + 1 < 1014`. -/
theorem veeprom_write_8_read_8 (hw : FlashHw) (hf : hw.Framed) (s : Veeprom)
    (hd : Designated s) (addr v : Nat) (ha : addr + 1 < 1014) (hv : v < 256)
    (hok : (veeprom_write_8 hw s addr v).1 = true) :
    veeprom_read_8 (veeprom_write_8 hw s addr v).2 addr = v ∧
    (∀ o, o + 1 < 1014 → o ≠ addr →
      veeprom_read_8 (veeprom_write_8 hw s addr v).2 o = veeprom_read_8 s o) := by
  have e8 : veeprom_write_8 hw s addr v = veeprom_write hw s addr [v] 1 := rfl
  rw [e8] at hok ⊢
  obtain ⟨hA, hB, hA0, hB0, hAB⟩ := hd.pages
  have hd2 := veeprom_write_designated hw hf s hd addr 1 [v] hok
  obtain ⟨hA2, -⟩ := hd2.pages
  obtain ⟨c1, -, -, c4, -⟩ :=
    veeprom_write_core hw hf s _ _ rfl rfl hA hB hA0 hB0 hAB addr 1 [v] hok
  have hnzA : s.active_page_addr ≠ 0 := by
    rcases hd with ⟨h, _⟩ | ⟨h, _⟩ <;> rw [h] <;> decide
  have hnzB : (veeprom_write hw s addr [v] 1).2.active_page_addr ≠ 0 := by
    rcases hd2 with ⟨h, _⟩ | ⟨h, _⟩ <;> rw [h] <;> decide
  have hrd : ∀ o, o + 1 < 1014 →
      veeprom_read_8 (veeprom_write hw s addr [v] 1).2 o
        = merged s.flash s.active_page_addr addr 1 [v] o := by
    intro o ho
    rw [veeprom_read_8_eq _ o ho hnzB]
    have e : add32 (veeprom_write hw s addr [v] 1).2.active_page_addr o
        = s.inactive_page_addr + o := by
      rw [c1]; unfold add32; omega
    rw [e]
    exact c4 (by omega) o (by omega)
  refine ⟨?_, fun o ho hne => ?_⟩
  · rw [hrd addr ha, merged, if_pos ⟨le_refl _, by omega⟩, Nat.sub_self]
    exact Nat.mod_eq_of_lt hv
  · rw [hrd o ho, merged, if_neg (by omega), veeprom_read_8_eq s o ho hnzA]
    have e : add32 s.active_page_addr o = s.active_page_addr + o := by unfold add32; omega
    rw [e]

set_option maxRecDepth 1000000 in
/-- Witness for C20: `veeprom_write_8(7, 0x5A)` on the scenario store. -/
theorem veeprom_write_8_read_8_witness :
    stm32.Framed ∧ Designated scenario_store ∧ 7 + 1 < 1014 ∧ 0x5A < 256 ∧
    (veeprom_write_8 stm32 scenario_store 7 0x5A).1 = true ∧
    veeprom_read_8 (veeprom_write_8 stm32 scenario_store 7 0x5A).2 7 = 0x5A :=
  ⟨stm32_framed, scenario_store_designated, by decide, by decide, by decide!,
    (veeprom_write_8_read_8 stm32 stm32_framed scenario_store scenario_store_designated 7 0x5A
      (by decide) (by decide) (by decide!)).1⟩

/-! ## Ring buffer: refinement of the bounded queue -/

theorem ring_ok_next (b : ring_buffer_t) (h : ring_ok b) :
    (b.nodes 0).next = some 1 ∧ (b.nodes 1).next = some 2 ∧ (b.nodes 2).next = some 3 ∧
    (b.nodes 3).next = some 4 ∧ (b.nodes 4).next = some 0 :=
  ⟨h.1 0 (by decide), h.1 1 (by decide), h.1 2 (by decide), h.1 3 (by decide),
    h.1 4 (by decide)⟩

theorem ring_buffer_init_ok (b : ring_buffer_t) :
    ring_ok (ring_buffer_init b) ∧ ring_queue (ring_buffer_init b) = [] ∧
    (ring_buffer_init b).head = none := by
  refine ⟨⟨?_, ?_, ?_⟩, rfl, rfl⟩
  · intro i hi
    simp only [RING_BUFFER_SIZE] at hi
    interval_cases i <;> rfl
  · intro h hh
    exact absurd hh (by simp [ring_buffer_init])
  · intro t ht
    exact absurd ht (by simp [ring_buffer_init])

theorem ring_queue_length (b : ring_buffer_t) (h : ring_ok b) :
    (ring_queue b).length ≤ RING_BUFFER_SIZE := by
  obtain ⟨nodes, head, tail⟩ := b
  cases head with
  | none => simp [ring_queue]
  | some hd =>
    cases tail with
    | none => simp [ring_queue, RING_BUFFER_SIZE]
    | some tl =>
      simp only [ring_queue, RING_BUFFER_SIZE, List.length_map, List.length_range]
      omega

theorem ring_buffer_is_empty_iff (b : ring_buffer_t) :
    ring_buffer_is_empty b = true ↔ ring_queue b = [] := by
  obtain ⟨nodes, head, tail⟩ := b
  cases head with
  | none => simp [ring_queue, ring_buffer_is_empty]
  | some hd =>
    cases tail with
    | none => simp [ring_queue, ring_buffer_is_empty]
    | some tl =>
      simp only [ring_queue, ring_buffer_is_empty]
      constructor
      · intro h
        exact absurd h (by simp)
      · intro h
        have := congrArg List.length h
        simp at this

theorem node_set_data_eq (b : ring_buffer_t) (i x : Nat) :
    node_set_data b (some i) x =
      some { nodes := fun j => if j = i then { data := x, next := (b.nodes i).next }
                                else b.nodes j,
             head := b.head, tail := b.tail } := rfl

theorem ring_ok_set_data (nodes : Nat → node_t) (hd tl : Option Nat) (i x : Nat)
    (hd1 tl1 : Option Nat)
    (h : ring_ok { nodes := nodes, head := hd, tail := tl })
    (hh : ∀ k, hd1 = some k → k < RING_BUFFER_SIZE)
    (ht : ∀ t, tl1 = some t → t < RING_BUFFER_SIZE ∧ hd1 ≠ none ∧ hd1 ≠ some t) :
    ring_ok { nodes := fun j => if j = i then { data := x, next := (nodes i).next }
                                  else nodes j,
              head := hd1, tail := tl1 } := by
  refine ⟨?_, hh, ht⟩
  intro j hj
  by_cases e : j = i
  · simp only [e, if_true]
    exact h.1 i (e ▸ hj)
  · simp only [e, if_false]
    exact h.1 j hj

theorem ring_buffer_push_sim (b : ring_buffer_t) (x : Nat) (h : ring_ok b) :
    ∃ b1, ring_buffer_push b x = some b1 ∧ ring_ok b1 ∧
      ring_queue b1 = queue_push (ring_queue b) x := by
  obtain ⟨n0, n1, n2, n3, n4⟩ := ring_ok_next b h
  have hok := h
  obtain ⟨hn, hh, ht⟩ := h
  obtain ⟨nodes, head, tail⟩ := b
  simp only at n0 n1 n2 n3 n4 hn hh ht
  cases head with
  | none =>
    cases tail with
    | some tl => exact absurd rfl (ht tl rfl).2.1
    | none =>
      refine ⟨_, rfl, ?_, ?_⟩
      · refine ring_ok_set_data nodes none none 0 x _ _ hok ?_ ?_
        · intro k hk
          simp only [Option.some.injEq] at hk
          simp [← hk, RING_BUFFER_SIZE]
        · intro t1 ht1
          simp at ht1
      · simp [ring_queue, queue_push, RING_BUFFER_SIZE]
  | some hd =>
    have hhd := hh hd rfl
    simp only [RING_BUFFER_SIZE] at hhd
    cases tail with
    | none =>
      have e : ring_buffer_push { nodes := nodes, head := some hd, tail := none } x =
          node_set_data { nodes := nodes, head := some hd, tail := some ((hd + 1) % 5) }
            (some ((hd + 1) % 5)) x := by
        have := hn hd hhd
        simp [ring_buffer_push, node_next, this, RING_BUFFER_SIZE]
      rw [e, node_set_data_eq]
      refine ⟨_, rfl, ?_, ?_⟩
      · refine ring_ok_set_data nodes _ _ _ x _ _ hok ?_ ?_
        · intro k hk
          simp only [Option.some.injEq] at hk
          simp [← hk, RING_BUFFER_SIZE, hhd]
        · intro t1 ht1
          simp only [Option.some.injEq] at ht1
          subst ht1
          refine ⟨Nat.mod_lt _ (by decide), by simp, ?_⟩
          simp only [ne_eq, Option.some.injEq]
          omega
      · interval_cases hd <;> simp [ring_queue, queue_push, RING_BUFFER_SIZE, List.range_succ]
    | some tl =>
      obtain ⟨htl, -, hne⟩ := ht tl rfl
      simp only [RING_BUFFER_SIZE] at htl
      simp only [ne_eq, Option.some.injEq] at hne
      by_cases hov : (tl + 1) % 5 = hd
      · have e : ring_buffer_push { nodes := nodes, head := some hd, tail := some tl } x =
            node_set_data { nodes := nodes, head := some ((hd + 1) % 5), tail := some hd }
              (some hd) x := by
          have e1 := hn hd hhd
          have e2 := hn tl htl
          simp [ring_buffer_push, node_next, e1, e2, RING_BUFFER_SIZE, hov]
        rw [e, node_set_data_eq]
        refine ⟨_, rfl, ?_, ?_⟩
        · refine ring_ok_set_data nodes _ _ _ x _ _ hok ?_ ?_
          · intro k hk
            simp only [Option.some.injEq] at hk
            subst hk
            exact Nat.mod_lt _ (by decide)
          · intro t1 ht1
            simp only [Option.some.injEq] at ht1
            subst ht1
            refine ⟨hhd, by simp, ?_⟩
            simp only [ne_eq, Option.some.injEq]
            omega
        · interval_cases hd <;> interval_cases tl <;>
            first
            | exact absurd rfl hne
            | exact absurd hov (by decide)
            | simp [ring_queue, queue_push, RING_BUFFER_SIZE, List.range_succ]
      · have e : ring_buffer_push { nodes := nodes, head := some hd, tail := some tl } x =
            node_set_data { nodes := nodes, head := some hd, tail := some ((tl + 1) % 5) }
              (some ((tl + 1) % 5)) x := by
          have e2 := hn tl htl
          simp [ring_buffer_push, node_next, e2, RING_BUFFER_SIZE, hov]
        rw [e, node_set_data_eq]
        refine ⟨_, rfl, ?_, ?_⟩
        · refine ring_ok_set_data nodes _ _ _ x _ _ hok ?_ ?_
          · intro k hk
            simp only [Option.some.injEq] at hk
            subst hk
            exact hhd
          · intro t1 ht1
            simp only [Option.some.injEq] at ht1
            subst ht1
            refine ⟨Nat.mod_lt _ (by decide), by simp, ?_⟩
            simp only [ne_eq, Option.some.injEq]
            omega
        · interval_cases hd <;> interval_cases tl <;>
            first
            | exact absurd rfl hne
            | exact absurd rfl hov
            | simp [ring_queue, queue_push, RING_BUFFER_SIZE, List.range_succ]

theorem ring_buffer_pop_sim (b : ring_buffer_t) (out : Nat) (h : ring_ok b) :
    ∃ r, ring_buffer_pop b out = some r ∧ ring_ok r.2.2 ∧
      ring_queue r.2.2 = (queue_pop (ring_queue b)).2 ∧
      (if r.1 = true then some r.2.1 else none) = (queue_pop (ring_queue b)).1 ∧
      (r.1 = false → r.2.1 = out ∧ r.2.2 = b) := by
  have hok := h
  obtain ⟨hn, hh, ht⟩ := h
  obtain ⟨nodes, head, tail⟩ := b
  simp only at hn hh ht
  cases head with
  | none =>
    cases tail with
    | some tl => exact absurd rfl (ht tl rfl).2.1
    | none =>
      refine ⟨_, rfl, hok, ?_, ?_, ?_⟩
      · simp [ring_queue, queue_pop]
      · simp [ring_queue, queue_pop]
      · intro _
        exact ⟨rfl, rfl⟩
  | some hd =>
    have hhd := hh hd rfl
    simp only [RING_BUFFER_SIZE] at hhd
    have e1 := hn hd hhd
    cases tail with
    | none =>
      have e : ring_buffer_pop { nodes := nodes, head := some hd, tail := none } out =
          some (true, (nodes hd).data,
            { nodes := fun j => if j = hd then { data := 0, next := (nodes hd).next }
                                 else nodes j,
              head := none, tail := none }) := by
        simp [ring_buffer_pop, node_next, node_data, node_set_data, e1, RING_BUFFER_SIZE]
      rw [e]
      refine ⟨_, rfl, ?_, ?_, ?_, ?_⟩
      · refine ring_ok_set_data nodes _ _ _ 0 _ _ hok ?_ ?_
        · intro k hk
          simp at hk
        · intro t1 ht1
          simp at ht1
      · simp [ring_queue, queue_pop]
      · simp [ring_queue, queue_pop]
      · intro hf
        simp at hf
    | some tl =>
      obtain ⟨htl, -, hne⟩ := ht tl rfl
      simp only [RING_BUFFER_SIZE] at htl
      simp only [ne_eq, Option.some.injEq] at hne
      by_cases hlast : (hd + 1) % 5 = tl
      · have e : ring_buffer_pop { nodes := nodes, head := some hd, tail := some tl } out =
            some (true, (nodes hd).data,
              { nodes := fun j => if j = hd then { data := 0, next := (nodes hd).next }
                                   else nodes j,
                head := some tl, tail := none }) := by
          simp [ring_buffer_pop, node_next, node_data, node_set_data, e1, RING_BUFFER_SIZE,
            hlast]
        rw [e]
        refine ⟨_, rfl, ?_, ?_, ?_, ?_⟩
        · refine ring_ok_set_data nodes _ _ _ 0 _ _ hok ?_ ?_
          · intro k hk
            simp only [Option.some.injEq] at hk
            subst hk
            exact htl
          · intro t1 ht1
            simp at ht1
        · interval_cases hd <;> interval_cases tl <;>
            first
            | exact absurd rfl hne
            | exact absurd hlast (by decide)
            | simp [ring_queue, queue_pop, RING_BUFFER_SIZE, List.range_succ]
        · interval_cases hd <;> interval_cases tl <;>
            first
            | exact absurd rfl hne
            | exact absurd hlast (by decide)
            | simp [ring_queue, queue_pop, RING_BUFFER_SIZE, List.range_succ]
        · intro hf
          simp at hf
      · have e : ring_buffer_pop { nodes := nodes, head := some hd, tail := some tl } out =
            some (true, (nodes hd).data,
              { nodes := fun j => if j = hd then { data := 0, next := (nodes hd).next }
                                   else nodes j,
                head := some ((hd + 1) % 5), tail := some tl }) := by
          simp [ring_buffer_pop, node_next, node_data, node_set_data, e1, RING_BUFFER_SIZE,
            hlast]
        rw [e]
        refine ⟨_, rfl, ?_, ?_, ?_, ?_⟩
        · refine ring_ok_set_data nodes _ _ _ 0 _ _ hok ?_ ?_
          · intro k hk
            simp only [Option.some.injEq] at hk
            subst hk
            exact Nat.mod_lt _ (by decide)
          · intro t1 ht1
            simp only [Option.some.injEq] at ht1
            subst ht1
            refine ⟨htl, by simp, ?_⟩
            simp only [ne_eq, Option.some.injEq]
            exact hlast
        · interval_cases hd <;> interval_cases tl <;>
            first
            | exact absurd rfl hne
            | exact absurd rfl hlast
            | simp [ring_queue, queue_pop, RING_BUFFER_SIZE, List.range_succ]
        · interval_cases hd <;> interval_cases tl <;>
            first
            | exact absurd rfl hne
            | exact absurd rfl hlast
            | simp [ring_queue, queue_pop, RING_BUFFER_SIZE, List.range_succ]
        · intro hf
          simp at hf

theorem ring_run_sim (cs : List ring_call) :
    ∀ b : ring_buffer_t, ring_ok b →
      ∃ bf, ring_run b cs = some (bf, (queue_run (ring_queue b) cs).2) ∧ ring_ok bf ∧
        ring_queue bf = (queue_run (ring_queue b) cs).1 := by
  induction cs with
  | nil =>
    intro b hb
    exact ⟨b, rfl, hb, rfl⟩
  | cons c cs ih =>
    intro b hb
    cases c with
    | push x =>
      obtain ⟨b1, e1, ok1, q1⟩ := ring_buffer_push_sim b x hb
      obtain ⟨bf, e2, ok2, q2⟩ := ih b1 ok1
      refine ⟨bf, ?_, ok2, ?_⟩
      · rw [q1] at e2
        simp only [ring_run, queue_run, e1]
        exact e2
      · simp only [queue_run, q2, q1]
    | pop =>
      obtain ⟨r, e1, ok1, q1, o1, -⟩ := ring_buffer_pop_sim b 0 hb
      obtain ⟨bf, e2, ok2, q2⟩ := ih r.2.2 ok1
      refine ⟨bf, ?_, ok2, ?_⟩
      · rw [q1] at e2
        simp only [ring_run, queue_run, e1]
        show Option.map _ (ring_run r.2.2 cs) = _
        rw [e2, o1]
        rfl
      · simp only [queue_run, q2, q1]
    | clear =>
      obtain ⟨ok1, q1, -⟩ := ring_buffer_init_ok b
      obtain ⟨bf, e2, ok2, q2⟩ := ih (ring_buffer_clear b) ok1
      refine ⟨bf, ?_, ok2, ?_⟩
      · simp only [ring_run, queue_run, e2]
        rw [show ring_queue (ring_buffer_clear b) = [] from q1]
      · simp only [queue_run, q2]
        rw [show ring_queue (ring_buffer_clear b) = [] from q1]

/-- Claim C16: the ring buffer refines the bounded queue with overwrite-oldest.  For
every buffer content before `ring_buffer_init` and every finite sequence of
`ring_buffer_push`, `ring_buffer_pop` and `ring_buffer_clear` calls after it, no
call dereferences `NULL`, every `pop` returns false exactly when the abstract
queue (`queue_push` appends after dropping the oldest of 5, `queue_pop` removes
the oldest, `clear` empties) is empty and otherwise returns true with the queue's
oldest element, the buffer holds the queue at the end, the queue never exceeds
`RING_BUFFER_SIZE = 5` bytes, and `ring_buffer_is_empty` is true exactly when
the queue is empty. -/
theorem ring_buffer_refines_queue (b : ring_buffer_t) (cs : List ring_call) :
    ∃ bf, ring_run (ring_buffer_init b) cs = some (bf, (queue_run [] cs).2) ∧
      ring_queue bf = (queue_run [] cs).1 ∧
      (queue_run [] cs).1.length ≤ RING_BUFFER_SIZE ∧
      (ring_buffer_is_empty bf = true ↔ (queue_run [] cs).1 = []) := by
  obtain ⟨ok0, q0, -⟩ := ring_buffer_init_ok b
  obtain ⟨bf, e, ok, q⟩ := ring_run_sim cs (ring_buffer_init b) ok0
  rw [q0] at e q
  refine ⟨bf, e, q, ?_, ?_⟩
  · rw [← q]
    exact ring_queue_length bf ok
  · rw [← q]
    exact ring_buffer_is_empty_iff bf

/-! ## The designation of the two pages -/

theorem veeprom_call_run_designated (s : Veeprom) (hd : Designated s) (c : veeprom_call) :
    Designated (veeprom_call_run stm32 s c).2 := by
  obtain ⟨hA, hB, hA0, hB0, hAB⟩ := hd.pages
  cases c with
  | init => exact (veeprom_init_outcome stm32 stm32_reliable s).1
  | read a n => exact hd
  | mass_erase =>
    obtain ⟨-, -, e1, e2⟩ := veeprom_mass_erase_reliable stm32 stm32_reliable s
    unfold Designated at hd ⊢
    simp only [veeprom_call_run]
    rw [e1, e2]
    exact hd
  | write a d n =>
    simp only [veeprom_call_run]
    cases hv : (veeprom_write stm32 s a d n).1 with
    | true => exact veeprom_write_designated stm32 stm32_framed s hd a n d hv
    | false =>
      obtain ⟨e1, e2⟩ :=
        (veeprom_write_frame stm32 stm32_framed s _ _ rfl rfl hA hB hB0 a n d).2 hv
      unfold Designated at hd ⊢
      rw [e1, e2]
      exact hd

theorem veeprom_calls_run_designated (cs : List veeprom_call) :
    ∀ s : Veeprom, Designated s → Designated (veeprom_calls_run stm32 s cs) := by
  induction cs with
  | nil => exact fun s hd => hd
  | cons c cs ih => exact fun s hd => ih _ (veeprom_call_run_designated s hd c)

/-- Claim C21: the designation invariant.  Take any driver state, call
`veeprom_init` over the error-free controller (whatever it returns) and then any
finite sequence of `veeprom_init`, `veeprom_read`, `veeprom_mass_erase` and
`veeprom_write` calls (whatever each returns).  In the state reached the pair
(active, inactive) is (page 1, page 2) or (page 2, page 1), so the two differ and
neither is zero.  From that state a further `veeprom_init` designates one of the
two pairs again; a `veeprom_read` leaves the whole state and a
`veeprom_mass_erase` leaves the pair as it is; and a `veeprom_write` that returns
true swaps the pair while one that returns false leaves it, the latter two for
every controller that touches only what it is asked to, the error-free one and
those that report errors alike. -/
theorem veeprom_designation_invariant (s0 : Veeprom) (cs : List veeprom_call) :
    Designated (veeprom_calls_run stm32 (veeprom_init stm32 s0).2 cs) ∧
    (veeprom_calls_run stm32 (veeprom_init stm32 s0).2 cs).active_page_addr ≠
      (veeprom_calls_run stm32 (veeprom_init stm32 s0).2 cs).inactive_page_addr ∧
    (veeprom_calls_run stm32 (veeprom_init stm32 s0).2 cs).active_page_addr ≠ 0 ∧
    (veeprom_calls_run stm32 (veeprom_init stm32 s0).2 cs).inactive_page_addr ≠ 0 ∧
    Designated (veeprom_init stm32 (veeprom_calls_run stm32 (veeprom_init stm32 s0).2 cs)).2 ∧
    (∀ addr n,
      (veeprom_call_run stm32 (veeprom_calls_run stm32 (veeprom_init stm32 s0).2 cs)
          (veeprom_call.read addr n)).2
        = veeprom_calls_run stm32 (veeprom_init stm32 s0).2 cs) ∧
    (veeprom_mass_erase stm32
        (veeprom_calls_run stm32 (veeprom_init stm32 s0).2 cs)).2.active_page_addr
      = (veeprom_calls_run stm32 (veeprom_init stm32 s0).2 cs).active_page_addr ∧
    (veeprom_mass_erase stm32
        (veeprom_calls_run stm32 (veeprom_init stm32 s0).2 cs)).2.inactive_page_addr
      = (veeprom_calls_run stm32 (veeprom_init stm32 s0).2 cs).inactive_page_addr ∧
    (∀ hw : FlashHw, hw.Framed → ∀ addr data n,
      (veeprom_write hw (veeprom_calls_run stm32 (veeprom_init stm32 s0).2 cs)
          addr data n).1 = true →
        (veeprom_write hw (veeprom_calls_run stm32 (veeprom_init stm32 s0).2 cs)
            addr data n).2.active_page_addr
          = (veeprom_calls_run stm32 (veeprom_init stm32 s0).2 cs).inactive_page_addr ∧
        (veeprom_write hw (veeprom_calls_run stm32 (veeprom_init stm32 s0).2 cs)
            addr data n).2.inactive_page_addr
          = (veeprom_calls_run stm32 (veeprom_init stm32 s0).2 cs).active_page_addr) ∧
    (∀ hw : FlashHw, hw.Framed → ∀ addr data n,
      (veeprom_write hw (veeprom_calls_run stm32 (veeprom_init stm32 s0).2 cs)
          addr data n).1 = false →
        (veeprom_write hw (veeprom_calls_run stm32 (veeprom_init stm32 s0).2 cs)
            addr data n).2.active_page_addr
          = (veeprom_calls_run stm32 (veeprom_init stm32 s0).2 cs).active_page_addr ∧
        (veeprom_write hw (veeprom_calls_run stm32 (veeprom_init stm32 s0).2 cs)
            addr data n).2.inactive_page_addr
          = (veeprom_calls_run stm32 (veeprom_init stm32 s0).2 cs).inactive_page_addr) := by
  have hd : Designated (veeprom_calls_run stm32 (veeprom_init stm32 s0).2 cs) :=
    veeprom_calls_run_designated cs _ (veeprom_init_outcome stm32 stm32_reliable s0).1
  generalize veeprom_calls_run stm32 (veeprom_init stm32 s0).2 cs = s at hd ⊢
  obtain ⟨hA, hB, hA0, hB0, hAB⟩ := hd.pages
  obtain ⟨-, -, m1, m2⟩ := veeprom_mass_erase_reliable stm32 stm32_reliable s
  refine ⟨hd, hAB, ?_, ?_, (veeprom_init_outcome stm32 stm32_reliable s).1,
    fun _ _ => rfl, m1, m2, ?_, ?_⟩
  · rcases hd with ⟨h1, -⟩ | ⟨h1, -⟩ <;>
      simp [h1, VEEPROM_PAGE_1_ADDR, VEEPROM_PAGE_2_ADDR]
  · rcases hd with ⟨-, h2⟩ | ⟨-, h2⟩ <;>
      simp [h2, VEEPROM_PAGE_1_ADDR, VEEPROM_PAGE_2_ADDR]
  · intro hw hf addr data n hv
    obtain ⟨c1, c2, -⟩ :=
      veeprom_write_core hw hf s _ _ rfl rfl hA hB hA0 hB0 hAB addr n data hv
    exact ⟨c1, c2⟩
  · intro hw hf addr data n hv
    exact (veeprom_write_frame hw hf s _ _ rfl rfl hA hB hB0 addr n data).2 hv
